import Mathlib

/-!
# Autumn_frame: the native bridge of the database wrappers

A shallow embedding of the C glue code of the repository

* `src/ffi-demo/sqlite_wrapper.c`   (namespace `FfiDemoSqlite`)
* `src/mysql-demo/mysql_wrapper.c`  (namespace `MysqlDemo`)
* `src/autumn-frame/Autumn-Boot/Server/http_server.c` (namespace `HttpServer`)
* `src/autumn-frame/Autumn-JDBC/JdbcTemplate/database_ffi.c` (namespace `DatabaseFfi`)

Conventions of the embedding.

* A native pointer is a natural number, the null pointer is `0`.
* A C `int` is an `Int`; the values that occur (handles, positions below 4096,
  row counts below 1001, result codes of the native library) are far from the
  32-bit limits.
* A `char` is a natural number below 256, a 16-bit code unit a natural number
  below 65536; casts are written `% 256` and `% 65536`.
* A static array of pointers and a `char` buffer are functions from the index to
  the stored value, an assignment `a[i] = v` is `Function.update a i v`.  A write
  outside the declared size of the array is therefore visible in the model.
* The native library (SQLite, the MySQL client) is not part of the repository.
  Every wrapper function takes the answers of the native calls it may issue as
  an extra argument, and records every native call it issues in a trace.
-/

namespace AutumnFrame

/-! ## Part 1: definitions -/

/-- A native pointer (an address); `NULL` is the address 0. -/
abbrev Ptr := Nat

/-- The null pointer. -/
def NULL : Ptr := 0

/-- Capacity of a handle table: `#define MAX_HANDLES 100`. -/
def MAX_HANDLES : Nat := 100

/-- A handle table: `static sqlite3* db_handles[MAX_HANDLES]`,
`static MYSQL* mysql_handles[MAX_HANDLES]`.  The code reads and writes the
indices below `MAX_HANDLES` only. -/
abbrev HandleTable := Nat → Ptr

/-- The table as the program starts: `= {NULL}`. -/
def emptyTable : HandleTable := fun _ => NULL

/-- The scan `for (int i = 0; i < MAX_HANDLES; i++)` of `store_db` and
`store_mysql`, entered at index `i` with `remaining = MAX_HANDLES - i` iterations
to go.  It returns the value returned by the function and the table afterwards. -/
def store_scan (t : HandleTable) (p : Ptr) : (remaining : Nat) → (i : Nat) → Int × HandleTable
  | 0, _ => (-1, t)
  | n + 1, i =>
    if t i = NULL then ((i : Int), Function.update t i p)
    else store_scan t p n (i + 1)

/-! ### Strings and buffers -/

/-- A `moonbit_string_t`: `none` is the null pointer, `some s` points at the
16-bit code units `s`. -/
abbrev MString := Option (List Nat)

/-- The read `str[i]` into a `uint16_t`.  The memory after the last code unit
of the string reads as 0, as for a zero-terminated string. -/
def unit_at (s : List Nat) (i : Nat) : Nat := s.getD i 0 % 65536

/-- A `char` array in memory: the byte stored at each index. -/
abbrev CharBuf := Nat → Nat

/-- A static buffer as the program starts: all zero. -/
def zeroBuf : CharBuf := fun _ => 0

/-- The bytes `bs` stored into `buf` from index `pos` on. -/
def write_bytes (buf : CharBuf) (pos : Nat) (bs : List Nat) : CharBuf :=
  fun k => if pos ≤ k ∧ k < pos + bs.length then bs.getD (k - pos) 0 else buf k

/-- The C string that starts at index 0 of an array of `size` bytes: the bytes
before the first zero byte. -/
def c_string_at (buf : CharBuf) (size : Nat) : List Nat :=
  ((List.range size).map buf).takeWhile (fun b => b ≠ 0)

/-- The bytes of a native C string before its terminator; a native string is
given by the bytes stored at its address. -/
def c_chars (s : List Nat) : List Nat := s.takeWhile (fun b => b ≠ 0)

/-- The libc function `strlen`. -/
def strlen (s : List Nat) : Nat := (c_chars s).length

/-- The libc call `strcpy(buf + pos, s)`: the characters and the terminator. -/
def strcpy (buf : CharBuf) (pos : Nat) (s : List Nat) : CharBuf :=
  write_bytes buf pos (c_chars s ++ [0])

/-- The libc call `strncpy(buf + pos, s, n)`: exactly `n` bytes are written, the
first `n` characters of `s`, padded with zero bytes when `s` is shorter. -/
def strncpy (buf : CharBuf) (pos : Nat) (s : List Nat) (n : Nat) : CharBuf :=
  write_bytes buf pos ((c_chars s).take n ++ List.replicate (n - ((c_chars s).take n).length) 0)

/-- The widening loop of `autumn_sqlite3_errmsg`, `autumn_mysql_errmsg` and of the
row strings: `moonbit_make_string_raw(len + 1)` makes a string of `len + 1` code
units, unit `i < len` is set to `(uint16_t)(unsigned char)s[i]` and unit `len`
to 0.  The length of a MoonBit string is the number given to
`moonbit_make_string_raw` (the wrappers return `moonbit_make_string_raw(0)` for
the empty string). -/
def widen (s : List Nat) (len : Nat) : List Nat :=
  (List.range len).map (fun i => s.getD i 0 % 256) ++ [0]

/-- The UTF-8 bytes of one code unit as the specification gives them: one byte
below 0x80, two bytes below 0x800, three bytes from 0x800 on. -/
def utf8_of_unit (u : Nat) : List Nat :=
  if u < 0x80 then [u]
  else if u < 0x800 then [0xC0 ||| (u >>> 6), 0x80 ||| (u &&& 0x3F)]
  else [0xE0 ||| (u >>> 12), 0x80 ||| ((u >>> 6) &&& 0x3F), 0x80 ||| (u &&& 0x3F)]

/-- The number of leading code units whose encodings fit, one after the other,
into `room` bytes. -/
def fit_count (enc : Nat → List Nat) : List Nat → Nat → Nat
  | [], _ => 0
  | u :: us, room =>
    if (enc u).length ≤ room then fit_count enc us (room - (enc u).length) + 1 else 0

/-- The tail of `autumn_sqlite3_errmsg` and `autumn_mysql_errmsg`, from the
native message `errmsg` on: the empty string `moonbit_make_string_raw(0)` when
`errmsg == NULL || strlen(errmsg) == 0`, else the widened message. -/
def errmsg_to_string (errmsg : Option (List Nat)) : List Nat :=
  match errmsg with
  | none => []
  | some m => if strlen m = 0 then [] else widen m (strlen m)

/-- The decoding of the bridge: the MoonBit string that `autumn_sqlite3_errmsg`
and `autumn_mysql_errmsg` make of the native message `bytes`. -/
def decode (bytes : List Nat) : List Nat := errmsg_to_string (some bytes)

/-- The row ceiling of the query functions: `#define MAX_ROWS 1000`. -/
def MAX_ROWS : Nat := 1000

/-- The MoonBit string made of a filled `row_buffer`: `strlen(row_buffer)` bytes
widened to code units, in a string of `str_len + 1` units. -/
def row_string (row_buffer : CharBuf) : List Nat :=
  widen (c_string_at row_buffer 4096) (c_string_at row_buffer 4096).length

/-! ### The text of a serialized row -/

/-- The tab written before the column of index `i`: `if (i > 0 && pos < 4095)`. -/
def tab_step (i : Nat) (acc : List Nat) : List Nat :=
  if 0 < i ∧ acc.length < 4095 then acc ++ [9] else acc

/-- The name and `=`, written when the name is not a null pointer and
`pos + name_len + 1 < 4096`. -/
def name_step : Option (List Nat) → List Nat → List Nat
  | some name, a1 => if a1.length + strlen name + 1 < 4096 then a1 ++ c_chars name ++ [61] else a1
  | none, a1 => a1

/-- The value, written when it is not a null pointer and
`pos + value_len < 4096`. -/
def value_step : Option (List Nat) → List Nat → List Nat
  | some value, a2 => if a2.length + strlen value < 4096 then a2 ++ c_chars value else a2
  | none, a2 => a2

/-- The text that one pass of the column loop of `autumn_sqlite3_query` and
`autumn_mysql_query` leaves, for the column of index `i`, from the text `acc`
already in the row buffer: a tab when `i > 0`, the name and `=` when they fit,
the value when it fits. -/
def column_pass (names values : List (Option (List Nat))) (i : Nat) (acc : List Nat) : List Nat :=
  value_step (values.getD i none) (name_step (names.getD i none) (tab_step i acc))

/-- The text in the row buffer when the column loop is left, the loop being
entered at index `i` with `remaining` columns to go and the text `acc` in the
buffer: the final index and the text. -/
def row_text_loop (names values : List (Option (List Nat))) :
    (remaining : Nat) → (i : Nat) → List Nat → Nat × List Nat
  | 0, i, acc => (i, acc)
  | n + 1, i, acc =>
    if acc.length < 4095 then row_text_loop names values n (i + 1) (column_pass names values i acc)
    else (i, acc)

/-- The serialization of one column as the specification gives it: the name,
`=`, and the value, nothing for a NULL value. -/
def column_text (c : List Nat × Option (List Nat)) : List Nat :=
  c.1 ++ [61] ++ c.2.getD []

/-- The serialization of a row as the specification gives it: the columns in
order, one tab between two columns. -/
def row_text (cols : List (List Nat × Option (List Nat))) : List Nat :=
  List.intercalate [9] (cols.map column_text)

/-- The bytes an encoder writes for one code unit when it encodes the units
below `limit` as UTF-8 and replaces every other unit by `?`. -/
def replace_from (limit : Nat) (u : Nat) : List Nat :=
  if u < limit then utf8_of_unit u else [63]

/-- The state `(pos, row_buffer)` of a row serializer is safe with respect to
the memory `mem` the row buffer of 4096 bytes was placed in: `pos` is at most
4095, the memory behind the row buffer is untouched, and the row buffer holds
zero bytes from index `pos` on. -/
def row_inv (mem : CharBuf) (s : Nat × CharBuf) : Prop :=
  s.1 ≤ 4095 ∧ (∀ k, 4096 ≤ k → s.2 k = mem k) ∧ (∀ k, s.1 ≤ k → k < 4096 → s.2 k = 0)

/-- The amended description of the row text, one column.  `text` is the text
written so far and a piece fits when the text stays within 4095 bytes with it.
Before every column but the first a tab is written if it fits; then the whole
name and `=` are written if they fit together, and nothing of them otherwise;
then the whole value (nothing for a NULL value) is written if it fits, and
nothing of it otherwise. -/
def amended_column (first : Bool) (c : List Nat × Option (List Nat)) (text : List Nat) :
    List Nat :=
  let with_tab := if first = false ∧ text.length + 1 ≤ 4095 then text ++ [9] else text
  let with_name :=
    if with_tab.length + c.1.length + 1 ≤ 4095 then with_tab ++ c.1 ++ [61] else with_tab
  if with_name.length + (c.2.getD []).length ≤ 4095 then with_name ++ c.2.getD [] else with_name

/-- The amended description of the row text, the columns `cols` one after the
other from the text `text` on; `first` says that the first of them is the first
column of the row. -/
def amended_row_text_from :
    List (List Nat × Option (List Nat)) → Bool → List Nat → List Nat
  | [], _, text => text
  | c :: rest, first, text => amended_row_text_from rest false (amended_column first c text)

/-- The amended description of the text of a row with the columns `cols`. -/
def amended_row_text (cols : List (List Nat × Option (List Nat))) : List Nat :=
  amended_row_text_from cols true []

namespace HttpServer

/-- The loop `while (utf16_idx < str_len && utf8_idx < max_len)` of
`moonbit_string_to_bytes`, entered with `remaining = str_len - utf16_idx`.  It
returns `utf8_idx` and the buffer when the loop is left. -/
def moonbit_string_to_bytes_loop (str : List Nat) (max_len : Int) :
    (remaining : Nat) → (utf16_idx utf8_idx : Nat) → CharBuf → Nat × CharBuf
  | 0, _, utf8_idx, buffer => (utf8_idx, buffer)
  | n + 1, utf16_idx, utf8_idx, buffer =>
    if (utf8_idx : Int) < max_len then
      let code_unit := unit_at str utf16_idx
      if code_unit < 0x80 then
        moonbit_string_to_bytes_loop str max_len n (utf16_idx + 1) (utf8_idx + 1)
          (Function.update buffer utf8_idx (code_unit % 256))
      else if code_unit < 0x800 then
        if ((utf8_idx + 1 : Nat) : Int) < max_len then
          moonbit_string_to_bytes_loop str max_len n (utf16_idx + 1) (utf8_idx + 2)
            (Function.update
              (Function.update buffer utf8_idx ((0xC0 ||| (code_unit >>> 6)) % 256))
              (utf8_idx + 1) ((0x80 ||| (code_unit &&& 0x3F)) % 256))
        else (utf8_idx, buffer)
      else
        if ((utf8_idx + 2 : Nat) : Int) < max_len then
          moonbit_string_to_bytes_loop str max_len n (utf16_idx + 1) (utf8_idx + 3)
            (Function.update
              (Function.update
                (Function.update buffer utf8_idx ((0xE0 ||| (code_unit >>> 12)) % 256))
                (utf8_idx + 1) ((0x80 ||| ((code_unit >>> 6) &&& 0x3F)) % 256))
              (utf8_idx + 2) ((0x80 ||| (code_unit &&& 0x3F)) % 256))
        else (utf8_idx, buffer)
    else (utf8_idx, buffer)

/-- The function `moonbit_string_to_bytes` of `http_server.c`: the value
returned and the memory of `buffer` afterwards (`none` for a null `buffer`). -/
def moonbit_string_to_bytes (str : MString) (str_len : Int) (buffer : Option CharBuf)
    (buffer_size : Int) : Int × Option CharBuf :=
  match str, buffer with
  | some s, some buf =>
    if buffer_size ≤ 0 then (0, some buf)
    else
      let r := moonbit_string_to_bytes_loop s (buffer_size - 1) str_len.toNat 0 0 buf
      ((r.1 : Int), some (Function.update r.2 r.1 0))
  | _, _ => (0, buffer)

end HttpServer

namespace FfiDemoSqlite

/-- The lookup `get_db` of `src/ffi-demo/sqlite_wrapper.c`. -/
def get_db (db_handles : HandleTable) (handle : Int) : Ptr :=
  if 0 ≤ handle ∧ handle < (MAX_HANDLES : Int) then db_handles handle.toNat else NULL

/-- The function `store_db` of `src/ffi-demo/sqlite_wrapper.c`. -/
def store_db (db_handles : HandleTable) (db : Ptr) : Int × HandleTable :=
  if db = NULL then (-1, db_handles)
  else store_scan db_handles db MAX_HANDLES 0

/-- The function `remove_db` of `src/ffi-demo/sqlite_wrapper.c`. -/
def remove_db (db_handles : HandleTable) (handle : Int) : HandleTable :=
  if 0 ≤ handle ∧ handle < (MAX_HANDLES : Int) then Function.update db_handles handle.toNat NULL
  else db_handles

/-- Successive calls of `store_db`, one for each connection of the list: the
values returned, in order, and the table after the last call. -/
def store_all (db_handles : HandleTable) : List Ptr → List Int × HandleTable
  | [] => ([], db_handles)
  | c :: cs =>
    let r := store_db db_handles c
    let rs := store_all r.2 cs
    (r.1 :: rs.1, rs.2)

/-- What a pointer returned by `get_c_string` points at: the string literal `""`
or the static array `utf8_buffer`. -/
inductive CStrPtr
  | empty_literal
  | utf8_buffer
  deriving DecidableEq, Repr

/-- The C string read through a pointer returned by `get_c_string`, given the
present contents of `utf8_buffer` (an array of 4096 bytes). -/
def deref (utf8_buffer : CharBuf) : CStrPtr → List Nat
  | CStrPtr.empty_literal => []
  | CStrPtr.utf8_buffer => c_string_at utf8_buffer 4096

/-- The loop `while (j < sizeof(utf8_buffer) - 1)` of `get_c_string` in
`src/ffi-demo/sqlite_wrapper.c`, entered with `remaining = 4096 - i`; the case
`remaining = 0` is the exit `if (i > 4095) break;`. -/
def get_c_string_loop (str : List Nat) :
    (remaining : Nat) → (i j : Nat) → CharBuf → Nat × CharBuf
  | 0, _, j, utf8_buffer => (j, utf8_buffer)
  | n + 1, i, j, utf8_buffer =>
    if j < 4095 then
      let code_unit := unit_at str i
      if code_unit = 0 then (j, utf8_buffer)
      else if code_unit < 0x80 then
        get_c_string_loop str n (i + 1) (j + 1) (Function.update utf8_buffer j (code_unit % 256))
      else if code_unit < 0x800 then
        if j + 1 < 4095 then
          get_c_string_loop str n (i + 1) (j + 2)
            (Function.update
              (Function.update utf8_buffer j ((0xC0 ||| (code_unit >>> 6)) % 256))
              (j + 1) ((0x80 ||| (code_unit &&& 0x3F)) % 256))
        else
          get_c_string_loop str n (i + 1) (j + 1)
            (Function.update utf8_buffer j ((0xC0 ||| (code_unit >>> 6)) % 256))
      else
        get_c_string_loop str n (i + 1) (j + 1) (Function.update utf8_buffer j 63)
    else (j, utf8_buffer)

/-- The function `get_c_string` of `src/ffi-demo/sqlite_wrapper.c`: the contents
of the static `utf8_buffer` afterwards and the pointer returned. -/
def get_c_string (utf8_buffer : CharBuf) (str : MString) : CharBuf × CStrPtr :=
  match str with
  | none => (utf8_buffer, CStrPtr.empty_literal)
  | some s =>
    let r := get_c_string_loop s 4096 0 0 utf8_buffer
    (Function.update r.2 r.1 0, CStrPtr.utf8_buffer)

/-- The bytes `get_c_string` hands to its caller: the C string behind the
returned pointer as the function returns. -/
def encode (utf8_buffer : CharBuf) (str : MString) : List Nat :=
  deref (get_c_string utf8_buffer str).1 (get_c_string utf8_buffer str).2

/-- The result code `SQLITE_OK` of `sqlite3.h`. -/
def SQLITE_OK : Int := 0

/-- A call into the SQLite library, with its arguments; for `sqlite3_open` also
the result code and the connection stored through `ppDb`. -/
inductive Call
  | sqlite3_open (filename : List Nat) (rc : Int) (db : Ptr)
  | sqlite3_close (db : Ptr)
  | sqlite3_exec (db : Ptr) (sql : List Nat)
  | sqlite3_free (p : Ptr)
  | sqlite3_prepare_v2 (db : Ptr) (sql : List Nat)
  | sqlite3_column_count (stmt : Ptr)
  | sqlite3_step (stmt : Ptr)
  | sqlite3_column_name (stmt : Ptr) (i : Nat)
  | sqlite3_column_text (stmt : Ptr) (i : Nat)
  | sqlite3_finalize (stmt : Ptr)
  | sqlite3_errmsg (db : Ptr)
  deriving DecidableEq, Repr

/-- The state of `src/ffi-demo/sqlite_wrapper.c`: its two static arrays, and the
native calls issued so far, oldest first. -/
structure World where
  db_handles : HandleTable
  utf8_buffer : CharBuf
  trace : List Call

/-- The state as the program starts. -/
def World.init : World := { db_handles := emptyTable, utf8_buffer := zeroBuf, trace := [] }

/-- The function `autumn_sqlite3_open`.  `rc` and `db` are what `sqlite3_open`
returns and stores into `db`. -/
def autumn_sqlite3_open (w : World) (filename : MString) (rc : Int) (db : Ptr) : Int × World :=
  let c := get_c_string w.utf8_buffer filename
  let tr := w.trace ++ [Call.sqlite3_open (deref c.1 c.2) rc db]
  if rc ≠ SQLITE_OK then
    if db ≠ NULL then
      (-1, { db_handles := w.db_handles, utf8_buffer := c.1, trace := tr ++ [Call.sqlite3_close db] })
    else (-1, { db_handles := w.db_handles, utf8_buffer := c.1, trace := tr })
  else
    let r := store_db w.db_handles db
    (r.1, { db_handles := r.2, utf8_buffer := c.1, trace := tr })

/-- The function `autumn_sqlite3_exec`.  `rc` and `errmsg` are what `sqlite3_exec`
returns and stores into `errmsg`. -/
def autumn_sqlite3_exec (w : World) (handle : Int) (sql : MString) (rc : Int) (errmsg : Ptr) :
    Int × World :=
  let db := get_db w.db_handles handle
  if db = NULL then (-1, w)
  else
    let c := get_c_string w.utf8_buffer sql
    let tr := w.trace ++ [Call.sqlite3_exec db (deref c.1 c.2)]
    let tr2 :=
      if rc ≠ SQLITE_OK ∧ errmsg ≠ NULL then tr ++ [Call.sqlite3_free errmsg]
      else if errmsg ≠ NULL then tr ++ [Call.sqlite3_free errmsg]
      else tr
    (rc, { db_handles := w.db_handles, utf8_buffer := c.1, trace := tr2 })

/-- The function `autumn_sqlite3_exec_prepared`; `params` is not used. -/
def autumn_sqlite3_exec_prepared (w : World) (handle : Int) (sql : MString)
    (_params : List MString) (rc : Int) (errmsg : Ptr) : Int × World :=
  autumn_sqlite3_exec w handle sql rc errmsg

/-- The loop `for (int i = 0; i < num_columns && pos < sizeof(row_buffer) - 1; i++)`
of `autumn_sqlite3_query` for one row, entered with `remaining = num_columns - i`.
`names` are the answers of `sqlite3_column_name`, `values` those of
`sqlite3_column_text` (`none` for a null pointer).  It returns the final `i`,
the final `pos` and the row buffer.  The `int` variables `name_len` and
`value_len` hold `strlen` exactly: the strings the native library hands out are
shorter than 2^31 - 4096 bytes, so that no `int` overflows. -/
def row_loop (names values : List (Option (List Nat))) :
    (remaining : Nat) → (i pos : Nat) → CharBuf → Nat × Nat × CharBuf
  | 0, i, pos, row_buffer => (i, pos, row_buffer)
  | n + 1, i, pos, row_buffer =>
    if pos < 4095 then
      let s1 : Nat × CharBuf :=
        if 0 < i ∧ pos < 4095 then (pos + 1, Function.update row_buffer pos 9)
        else (pos, row_buffer)
      let s2 : Nat × CharBuf :=
        match names.getD i none with
        | some column_name =>
          if s1.1 + strlen column_name + 1 < 4096 then
            (s1.1 + strlen column_name + 1,
              Function.update (strcpy s1.2 s1.1 column_name) (s1.1 + strlen column_name) 61)
          else s1
        | none => s1
      let s3 : Nat × CharBuf :=
        match values.getD i none with
        | some column_value =>
          if s2.1 + strlen column_value < 4096 then
            (s2.1 + strlen column_value, strncpy s2.2 s2.1 column_value (4096 - s2.1 - 1))
          else s2
        | none => s2
      row_loop names values n (i + 1) s3.1 s3.2
    else (i, pos, row_buffer)

/-- The row buffer built for one row: `char row_buffer[4096] = {0}` after the
column loop. -/
def serialize_row (names values : List (Option (List Nat))) : CharBuf :=
  (row_loop names values names.length 0 0 zeroBuf).2.2

/-- The native calls of the column loop for one row: `sqlite3_column_name` and
`sqlite3_column_text` for each column index the loop went through. -/
def row_calls (stmt : Ptr) (names values : List (Option (List Nat))) : List Call :=
  (List.range (row_loop names values names.length 0 0 zeroBuf).1).flatMap
    (fun i => [Call.sqlite3_column_name stmt i, Call.sqlite3_column_text stmt i])

/-- The answers of the native library to one query: the result code of
`sqlite3_prepare_v2` and the statement it stores, the column names of the
statement (their number is `sqlite3_column_count`), the rows the cursor yields
(`sqlite3_step` returns `SQLITE_ROW` once for each and another code after the
last), and whether `moonbit_make_ref_array` returned an array. -/
structure QueryAnswers where
  prepare_rc : Int
  stmt : Ptr
  column_names : List (Option (List Nat))
  rows : List (List (Option (List Nat)))
  array_ok : Bool

/-- The loop `while ((rc = sqlite3_step(stmt)) == SQLITE_ROW && row_count < MAX_ROWS)`
over the rows the cursor still yields: the row strings collected and the trace. -/
def query_loop (stmt : Ptr) (names : List (Option (List Nat))) :
    List (List (Option (List Nat))) → (row_count : Nat) → List (List Nat) → List Call →
      List (List Nat) × List Call
  | [], _, row_strings, tr => (row_strings, tr ++ [Call.sqlite3_step stmt])
  | row :: rest, row_count, row_strings, tr =>
    if row_count < MAX_ROWS then
      query_loop stmt names rest (row_count + 1)
        (row_strings ++ [row_string (serialize_row names row)])
        (tr ++ [Call.sqlite3_step stmt] ++ row_calls stmt names row)
    else (row_strings, tr ++ [Call.sqlite3_step stmt])

/-- The function `autumn_sqlite3_query`; `params` is not used.  The value
returned is the array of row strings. -/
def autumn_sqlite3_query (w : World) (handle : Int) (sql : MString) (_params : List MString)
    (a : QueryAnswers) : List (List Nat) × World :=
  let db := get_db w.db_handles handle
  if db = NULL then ([], w)
  else
    let c := get_c_string w.utf8_buffer sql
    let tr := w.trace ++ [Call.sqlite3_prepare_v2 db (deref c.1 c.2)]
    if a.prepare_rc ≠ SQLITE_OK then
      if a.stmt ≠ NULL then
        ([], { db_handles := w.db_handles, utf8_buffer := c.1,
               trace := tr ++ [Call.sqlite3_finalize a.stmt] })
      else ([], { db_handles := w.db_handles, utf8_buffer := c.1, trace := tr })
    else
      let r := query_loop a.stmt a.column_names a.rows 0 []
        (tr ++ [Call.sqlite3_column_count a.stmt])
      let w2 : World := { db_handles := w.db_handles, utf8_buffer := c.1,
                          trace := r.2 ++ [Call.sqlite3_finalize a.stmt] }
      if r.1.length = 0 then ([], w2)
      else if a.array_ok then (r.1, w2)
      else ([], w2)

/-- The function `autumn_sqlite3_close`.  `rc` is what `sqlite3_close` returns. -/
def autumn_sqlite3_close (w : World) (handle : Int) (rc : Int) : Int × World :=
  let db := get_db w.db_handles handle
  if db = NULL then (-1, w)
  else
    (rc, { db_handles := remove_db w.db_handles handle, utf8_buffer := w.utf8_buffer,
           trace := w.trace ++ [Call.sqlite3_close db] })

/-- The function `autumn_sqlite3_errmsg`.  `errmsg` is what `sqlite3_errmsg`
returns (`none` for a null pointer). -/
def autumn_sqlite3_errmsg (w : World) (handle : Int) (errmsg : Option (List Nat)) :
    List Nat × World :=
  let db := get_db w.db_handles handle
  if db = NULL then ([], w)
  else
    (errmsg_to_string errmsg,
      { db_handles := w.db_handles, utf8_buffer := w.utf8_buffer,
        trace := w.trace ++ [Call.sqlite3_errmsg db] })

/-- One call of the wrapper by the MoonBit side, together with the answers of
the native library to it. -/
inductive Op
  | openDb (filename : MString) (rc : Int) (db : Ptr)
  | exec (handle : Int) (sql : MString) (rc : Int) (errmsg : Ptr)
  | exec_prepared (handle : Int) (sql : MString) (params : List MString) (rc : Int) (errmsg : Ptr)
  | query (handle : Int) (sql : MString) (params : List MString) (a : QueryAnswers)
  | close (handle : Int) (rc : Int)
  | errmsg (handle : Int) (msg : Option (List Nat))

/-- The state after one call. -/
def step (w : World) : Op → World
  | Op.openDb filename rc db => (autumn_sqlite3_open w filename rc db).2
  | Op.exec handle sql rc errmsg => (autumn_sqlite3_exec w handle sql rc errmsg).2
  | Op.exec_prepared handle sql params rc errmsg =>
    (autumn_sqlite3_exec_prepared w handle sql params rc errmsg).2
  | Op.query handle sql params a => (autumn_sqlite3_query w handle sql params a).2
  | Op.close handle rc => (autumn_sqlite3_close w handle rc).2
  | Op.errmsg handle msg => (autumn_sqlite3_errmsg w handle msg).2

/-- The state after a sequence of calls. -/
def run (w : World) (ops : List Op) : World := ops.foldl step w

/-- The effect of one native call on the list of live connections: a connection
stored by an `sqlite3_open` that returned `SQLITE_OK` becomes live, a connection
passed to `sqlite3_close` is live no more. -/
def live_step (l : List Ptr) : Call → List Ptr
  | Call.sqlite3_open _ rc db => if rc = SQLITE_OK ∧ db ≠ NULL then db :: l else l
  | Call.sqlite3_close db => l.filter (fun p => p ≠ db)
  | _ => l

/-- The connections produced by a successful `sqlite3_open` of the trace and
not passed to `sqlite3_close` since. -/
def live (tr : List Call) : List Ptr := tr.foldl live_step []

/-- Every connection object that an `sqlite3_open` of the sequence hands out is
fresh: it is none of the connections live at that moment. -/
def fresh_opens (w : World) : List Op → Prop
  | [] => True
  | Op.openDb filename rc db :: ops =>
    db ∉ live w.trace ∧ fresh_opens (step w (Op.openDb filename rc db)) ops
  | op :: ops => fresh_opens (step w op) ops

/-- The invariant of the registry: every occupied slot holds a live connection,
and no connection occupies two slots. -/
def registry_inv (w : World) : Prop :=
  (∀ i, i < MAX_HANDLES → w.db_handles i ≠ NULL → w.db_handles i ∈ live w.trace)
    ∧ (∀ i j, i < MAX_HANDLES → j < MAX_HANDLES → w.db_handles i ≠ NULL →
        w.db_handles i = w.db_handles j → i = j)

end FfiDemoSqlite

namespace MysqlDemo

/-- The lookup `get_mysql` of `src/mysql-demo/mysql_wrapper.c`. -/
def get_mysql (mysql_handles : HandleTable) (handle : Int) : Ptr :=
  if 0 ≤ handle ∧ handle < (MAX_HANDLES : Int) then mysql_handles handle.toNat else NULL

/-- The function `store_mysql` of `src/mysql-demo/mysql_wrapper.c`. -/
def store_mysql (mysql_handles : HandleTable) (mysql : Ptr) : Int × HandleTable :=
  if mysql = NULL then (-1, mysql_handles)
  else store_scan mysql_handles mysql MAX_HANDLES 0

/-- The function `remove_mysql` of `src/mysql-demo/mysql_wrapper.c`. -/
def remove_mysql (mysql_handles : HandleTable) (handle : Int) : HandleTable :=
  if 0 ≤ handle ∧ handle < (MAX_HANDLES : Int) then
    Function.update mysql_handles handle.toNat NULL
  else mysql_handles

/-- Successive calls of `store_mysql`, one for each connection of the list. -/
def store_all_mysql (mysql_handles : HandleTable) : List Ptr → List Int × HandleTable
  | [] => ([], mysql_handles)
  | c :: cs =>
    let r := store_mysql mysql_handles c
    let rs := store_all_mysql r.2 cs
    (r.1 :: rs.1, rs.2)

/-- The loop `while (j < max_len && i < 4095)` of `get_c_string_to_buffer` in
`src/mysql-demo/mysql_wrapper.c`, entered with `remaining = 4095 - i`; the case
`remaining = 0` is the failing test `i < 4095`. -/
def get_c_string_to_buffer_loop (str : List Nat) (max_len : Int) :
    (remaining : Nat) → (i j : Nat) → CharBuf → Nat × CharBuf
  | 0, _, j, buffer => (j, buffer)
  | n + 1, i, j, buffer =>
    if (j : Int) < max_len then
      let code_unit := unit_at str i
      if code_unit = 0 then (j, buffer)
      else if code_unit < 0x80 then
        get_c_string_to_buffer_loop str max_len n (i + 1) (j + 1)
          (Function.update buffer j (code_unit % 256))
      else if code_unit < 0x800 then
        if ((j + 1 : Nat) : Int) < max_len then
          get_c_string_to_buffer_loop str max_len n (i + 1) (j + 2)
            (Function.update
              (Function.update buffer j ((0xC0 ||| (code_unit >>> 6)) % 256))
              (j + 1) ((0x80 ||| (code_unit &&& 0x3F)) % 256))
        else (j, buffer)
      else
        get_c_string_to_buffer_loop str max_len n (i + 1) (j + 1) (Function.update buffer j 63)
    else (j, buffer)

/-- The function `get_c_string_to_buffer` of `src/mysql-demo/mysql_wrapper.c`:
the memory of `buffer` afterwards.  The pointer returned is `buffer` itself. -/
def get_c_string_to_buffer (str : MString) (buffer : CharBuf) (buffer_size : Nat) : CharBuf :=
  match str with
  | none => Function.update buffer 0 0
  | some s =>
    let r := get_c_string_to_buffer_loop s ((buffer_size : Int) - 1) 4095 0 0 buffer
    Function.update r.2 r.1 0

/-- The function `get_c_string` of `src/mysql-demo/mysql_wrapper.c`, which
converts into its own `static char static_buffer[4096]`. -/
def get_c_string (static_buffer : CharBuf) (str : MString) : CharBuf :=
  get_c_string_to_buffer str static_buffer 4096

/-- A call into the MySQL client library, with its arguments; for `mysql_init`
and `mysql_real_connect` also the pointer returned. -/
inductive Call
  | mysql_init (result : Ptr)
  | mysql_real_connect (mysql : Ptr) (host user password database : List Nat) (port : Int)
      (result : Ptr)
  | mysql_error (mysql : Ptr)
  | mysql_close (mysql : Ptr)
  | mysql_real_query (mysql : Ptr) (sql : List Nat) (length : Nat)
  | mysql_store_result (mysql : Ptr)
  | mysql_num_fields (res : Ptr)
  | mysql_fetch_fields (res : Ptr)
  | mysql_fetch_row (res : Ptr)
  | mysql_free_result (res : Ptr)
  deriving DecidableEq, Repr

/-- The state of `src/mysql-demo/mysql_wrapper.c`: the handle table, the static
buffer of `get_c_string`, and the native calls issued so far, oldest first. -/
structure World where
  mysql_handles : HandleTable
  static_buffer : CharBuf
  trace : List Call

/-- The state as the program starts. -/
def World.init : World := { mysql_handles := emptyTable, static_buffer := zeroBuf, trace := [] }

/-- The answers of the native library to one `autumn_mysql_connect`: the pointers
returned by `mysql_init` and `mysql_real_connect`; and the contents of the four
uninitialised local arrays as the function is entered. -/
structure ConnectAnswers where
  mysql : Ptr
  result : Ptr
  host_buffer : CharBuf
  user_buffer : CharBuf
  password_buffer : CharBuf
  database_buffer : CharBuf

/-- The function `autumn_mysql_connect`. -/
def autumn_mysql_connect (w : World) (host : MString) (port : Int)
    (user password database : MString) (a : ConnectAnswers) : Int × World :=
  let tr := w.trace ++ [Call.mysql_init a.mysql]
  if a.mysql = NULL then
    (-1, { mysql_handles := w.mysql_handles, static_buffer := w.static_buffer, trace := tr })
  else
    let host_buffer := get_c_string_to_buffer host a.host_buffer 256
    let user_buffer := get_c_string_to_buffer user a.user_buffer 256
    let password_buffer := get_c_string_to_buffer password a.password_buffer 256
    let database_buffer := get_c_string_to_buffer database a.database_buffer 256
    let tr2 := tr ++ [Call.mysql_real_connect a.mysql (c_string_at host_buffer 256)
      (c_string_at user_buffer 256) (c_string_at password_buffer 256)
      (c_string_at database_buffer 256) port a.result]
    if a.result = NULL then
      (-1, { mysql_handles := w.mysql_handles, static_buffer := w.static_buffer,
             trace := tr2 ++ [Call.mysql_error a.mysql, Call.mysql_close a.mysql] })
    else
      let r := store_mysql w.mysql_handles a.mysql
      (r.1, { mysql_handles := r.2, static_buffer := w.static_buffer, trace := tr2 })

/-- The function `autumn_mysql_execute`.  `rc` is what `mysql_real_query` returns. -/
def autumn_mysql_execute (w : World) (handle : Int) (sql : MString) (rc : Int) : Int × World :=
  let mysql := get_mysql w.mysql_handles handle
  if mysql = NULL then (-1, w)
  else
    let buf := get_c_string w.static_buffer sql
    (rc, { mysql_handles := w.mysql_handles, static_buffer := buf,
           trace := w.trace ++ [Call.mysql_real_query mysql (c_string_at buf 4096)
             (c_string_at buf 4096).length] })

/-- The loop `for (int i = 0; i < num_fields && pos < sizeof(row_buffer) - 1; i++)`
of `autumn_mysql_query` for one row, entered with `remaining = num_fields - i`.
`names` are the `fields[i].name`, `values` the `row[i]` (`none` for a null
pointer).  It returns the final `i`, the final `pos` and the row buffer.  The
`int` variables `name_len` and `value_len` hold `strlen` exactly: the strings
the native library hands out are shorter than 2^31 - 4096 bytes, so that no
`int` overflows. -/
def row_loop (names values : List (Option (List Nat))) :
    (remaining : Nat) → (i pos : Nat) → CharBuf → Nat × Nat × CharBuf
  | 0, i, pos, row_buffer => (i, pos, row_buffer)
  | n + 1, i, pos, row_buffer =>
    if pos < 4095 then
      let s1 : Nat × CharBuf :=
        if 0 < i ∧ pos < 4095 then (pos + 1, Function.update row_buffer pos 9)
        else (pos, row_buffer)
      let s2 : Nat × CharBuf :=
        match names.getD i none with
        | some name =>
          if s1.1 + strlen name + 1 < 4096 then
            (s1.1 + strlen name + 1,
              Function.update (strncpy s1.2 s1.1 name (4096 - s1.1 - 1)) (s1.1 + strlen name) 61)
          else s1
        | none => s1
      let s3 : Nat × CharBuf :=
        match values.getD i none with
        | some value =>
          if s2.1 + strlen value < 4096 then
            (s2.1 + strlen value, strncpy s2.2 s2.1 value (4096 - s2.1 - 1))
          else s2
        | none => s2
      row_loop names values n (i + 1) s3.1 s3.2
    else (i, pos, row_buffer)

/-- The row buffer built for one row: `char row_buffer[4096] = {0}` after the
column loop. -/
def serialize_row (names values : List (Option (List Nat))) : CharBuf :=
  (row_loop names values names.length 0 0 zeroBuf).2.2

/-- The answers of the native library to one query: the result code of
`mysql_real_query`, the result set returned by `mysql_store_result`, the field
names of the result set (their number is `mysql_num_fields`), the rows that
`mysql_fetch_row` yields before it returns a null pointer, whether
`moonbit_make_ref_array` returned an array; and the contents of the
uninitialised local `sql_buffer` as the function is entered. -/
structure QueryAnswers where
  query_rc : Int
  res : Ptr
  field_names : List (Option (List Nat))
  rows : List (List (Option (List Nat)))
  array_ok : Bool
  sql_buffer : CharBuf

/-- The loop `while ((row = mysql_fetch_row(res)) != NULL && row_count < MAX_ROWS)`
over the rows the result set still yields: the row strings collected and the
trace. -/
def query_loop (res : Ptr) (names : List (Option (List Nat))) :
    List (List (Option (List Nat))) → (row_count : Nat) → List (List Nat) → List Call →
      List (List Nat) × List Call
  | [], _, row_strings, tr => (row_strings, tr ++ [Call.mysql_fetch_row res])
  | row :: rest, row_count, row_strings, tr =>
    if row_count < MAX_ROWS then
      query_loop res names rest (row_count + 1)
        (row_strings ++ [row_string (serialize_row names row)])
        (tr ++ [Call.mysql_fetch_row res])
    else (row_strings, tr ++ [Call.mysql_fetch_row res])

/-- The function `autumn_mysql_query`; `params` is not used.  The value returned
is the array of row strings.  (The debugging output, and the repair of the
header word of the array object, have no part in the value.) -/
def autumn_mysql_query (w : World) (handle : Int) (sql : MString) (_params : List MString)
    (a : QueryAnswers) : List (List Nat) × World :=
  let mysql := get_mysql w.mysql_handles handle
  if mysql = NULL then ([], w)
  else
    let sql_buffer := get_c_string_to_buffer sql a.sql_buffer 4096
    let tr := w.trace ++ [Call.mysql_real_query mysql (c_string_at sql_buffer 4096)
      (c_string_at sql_buffer 4096).length]
    if a.query_rc ≠ 0 then
      ([], { mysql_handles := w.mysql_handles, static_buffer := w.static_buffer,
             trace := tr ++ [Call.mysql_error mysql] })
    else
      let tr2 := tr ++ [Call.mysql_store_result mysql]
      if a.res = NULL then
        ([], { mysql_handles := w.mysql_handles, static_buffer := w.static_buffer,
               trace := tr2 ++ [Call.mysql_error mysql] })
      else
        let r := query_loop a.res a.field_names a.rows 0 []
          (tr2 ++ [Call.mysql_num_fields a.res, Call.mysql_fetch_fields a.res])
        let w2 : World := { mysql_handles := w.mysql_handles, static_buffer := w.static_buffer,
                            trace := r.2 ++ [Call.mysql_free_result a.res] }
        if 0 < r.1.length then
          if a.array_ok then (r.1, w2) else ([], w2)
        else ([], w2)

/-- The function `autumn_mysql_close`. -/
def autumn_mysql_close (w : World) (handle : Int) : Int × World :=
  let mysql := get_mysql w.mysql_handles handle
  if mysql = NULL then (-1, w)
  else
    (0, { mysql_handles := remove_mysql w.mysql_handles handle, static_buffer := w.static_buffer,
          trace := w.trace ++ [Call.mysql_close mysql] })

/-- The function `autumn_mysql_errmsg`.  `errmsg` is what `mysql_error` returns
(`none` for a null pointer). -/
def autumn_mysql_errmsg (w : World) (handle : Int) (errmsg : Option (List Nat)) :
    List Nat × World :=
  let mysql := get_mysql w.mysql_handles handle
  if mysql = NULL then ([], w)
  else
    (errmsg_to_string errmsg,
      { mysql_handles := w.mysql_handles, static_buffer := w.static_buffer,
        trace := w.trace ++ [Call.mysql_error mysql] })

/-- One call of the MySQL wrapper by the MoonBit side, together with the answers
of the native library to it. -/
inductive MysqlOp
  | connect (host : MString) (port : Int) (user password database : MString) (a : ConnectAnswers)
  | execute (handle : Int) (sql : MString) (rc : Int)
  | query (handle : Int) (sql : MString) (params : List MString) (a : QueryAnswers)
  | close (handle : Int)
  | errmsg (handle : Int) (msg : Option (List Nat))

/-- The state after one call. -/
def mysql_step (w : World) : MysqlOp → World
  | MysqlOp.connect host port user password database a =>
    (autumn_mysql_connect w host port user password database a).2
  | MysqlOp.execute handle sql rc => (autumn_mysql_execute w handle sql rc).2
  | MysqlOp.query handle sql params a => (autumn_mysql_query w handle sql params a).2
  | MysqlOp.close handle => (autumn_mysql_close w handle).2
  | MysqlOp.errmsg handle msg => (autumn_mysql_errmsg w handle msg).2

/-- The state after a sequence of calls. -/
def mysql_run (w : World) (ops : List MysqlOp) : World := ops.foldl mysql_step w

/-- The effect of one native call on the list of live connections: a connection
object on which `mysql_real_connect` succeeded (returned a non-null pointer)
becomes live, a connection passed to `mysql_close` is live no more. -/
def mysql_live_step (l : List Ptr) : Call → List Ptr
  | Call.mysql_real_connect mysql _ _ _ _ _ result =>
    if result ≠ NULL ∧ mysql ≠ NULL then mysql :: l else l
  | Call.mysql_close mysql => l.filter (fun p => p ≠ mysql)
  | _ => l

/-- The connections on which a `mysql_real_connect` of the trace succeeded and
which were not passed to `mysql_close` since. -/
def mysql_live (tr : List Call) : List Ptr := tr.foldl mysql_live_step []

/-- Every connection object that a `mysql_init` of the sequence hands out is
fresh: it is none of the connections live at that moment. -/
def fresh_connects (w : World) : List MysqlOp → Prop
  | [] => True
  | MysqlOp.connect host port user password database a :: ops =>
    a.mysql ∉ mysql_live w.trace
      ∧ fresh_connects (mysql_step w (MysqlOp.connect host port user password database a)) ops
  | op :: ops => fresh_connects (mysql_step w op) ops

/-- The invariant of the registry: every occupied slot holds a live connection,
and no connection occupies two slots. -/
def mysql_registry_inv (w : World) : Prop :=
  (∀ i, i < MAX_HANDLES → w.mysql_handles i ≠ NULL → w.mysql_handles i ∈ mysql_live w.trace)
    ∧ (∀ i j, i < MAX_HANDLES → j < MAX_HANDLES → w.mysql_handles i ≠ NULL →
        w.mysql_handles i = w.mysql_handles j → i = j)

end MysqlDemo

namespace FfiDemoMysql

/-- The lookup `get_mysql` of `src/ffi-demo/mysql_wrapper.c`. -/
def get_mysql (mysql_handles : HandleTable) (handle : Int) : Ptr :=
  if 0 ≤ handle ∧ handle < (MAX_HANDLES : Int) then mysql_handles handle.toNat else NULL

/-- The function `store_mysql` of `src/ffi-demo/mysql_wrapper.c`. -/
def store_mysql (mysql_handles : HandleTable) (mysql : Ptr) : Int × HandleTable :=
  if mysql = NULL then (-1, mysql_handles)
  else store_scan mysql_handles mysql MAX_HANDLES 0

/-- The loop `while (j < sizeof(utf8_buffer) - 1)` of `get_c_string` in
`src/ffi-demo/mysql_wrapper.c`, entered with `remaining = 4096 - i`; the case
`remaining = 0` is the exit `if (i > 4095) break;`. -/
def get_c_string_loop (str : List Nat) :
    (remaining : Nat) → (i j : Nat) → CharBuf → Nat × CharBuf
  | 0, _, j, utf8_buffer => (j, utf8_buffer)
  | n + 1, i, j, utf8_buffer =>
    if j < 4095 then
      let code_unit := unit_at str i
      if code_unit = 0 then (j, utf8_buffer)
      else if code_unit < 0x80 then
        get_c_string_loop str n (i + 1) (j + 1) (Function.update utf8_buffer j (code_unit % 256))
      else
        get_c_string_loop str n (i + 1) (j + 1) (Function.update utf8_buffer j 63)
    else (j, utf8_buffer)

/-- The function `get_c_string` of `src/ffi-demo/mysql_wrapper.c`: the contents
of the static `utf8_buffer` afterwards and the pointer returned, which is the
string literal `""` for a null string and `utf8_buffer` otherwise. -/
def get_c_string (utf8_buffer : CharBuf) (str : MString) : CharBuf × FfiDemoSqlite.CStrPtr :=
  match str with
  | none => (utf8_buffer, FfiDemoSqlite.CStrPtr.empty_literal)
  | some s =>
    let r := get_c_string_loop s 4096 0 0 utf8_buffer
    (Function.update r.2 r.1 0, FfiDemoSqlite.CStrPtr.utf8_buffer)

/-- The bytes `get_c_string` hands to its caller: the C string behind the
returned pointer as the function returns. -/
def encode (utf8_buffer : CharBuf) (str : MString) : List Nat :=
  FfiDemoSqlite.deref (get_c_string utf8_buffer str).1 (get_c_string utf8_buffer str).2

/-- The state of `src/ffi-demo/mysql_wrapper.c`: its two static arrays, and the
calls into the MySQL client library issued so far, oldest first. -/
structure World where
  mysql_handles : HandleTable
  utf8_buffer : CharBuf
  trace : List MysqlDemo.Call

/-- The state as the program starts. -/
def World.init : World := { mysql_handles := emptyTable, utf8_buffer := zeroBuf, trace := [] }

/-- The function `autumn_mysql_connect` of `src/ffi-demo/mysql_wrapper.c`.
`mysql` and `result` are the pointers returned by `mysql_init` and
`mysql_real_connect`.  The four pointers `host_str`, `user_str`, `password_str`
and `database_str` are read by `mysql_real_connect` when it is called, that is
after the fourth conversion. -/
def autumn_mysql_connect (w : World) (host : MString) (port : Int)
    (user password database : MString) (mysql result : Ptr) : Int × World :=
  let tr := w.trace ++ [MysqlDemo.Call.mysql_init mysql]
  if mysql = NULL then
    (-1, { mysql_handles := w.mysql_handles, utf8_buffer := w.utf8_buffer, trace := tr })
  else
    let host_str := get_c_string w.utf8_buffer host
    let user_str := get_c_string host_str.1 user
    let password_str := get_c_string user_str.1 password
    let database_str := get_c_string password_str.1 database
    let tr2 := tr ++ [MysqlDemo.Call.mysql_real_connect mysql
      (FfiDemoSqlite.deref database_str.1 host_str.2)
      (FfiDemoSqlite.deref database_str.1 user_str.2)
      (FfiDemoSqlite.deref database_str.1 password_str.2)
      (FfiDemoSqlite.deref database_str.1 database_str.2) port result]
    if result = NULL then
      (-1, { mysql_handles := w.mysql_handles, utf8_buffer := database_str.1,
             trace := tr2 ++ [MysqlDemo.Call.mysql_close mysql] })
    else
      let r := store_mysql w.mysql_handles mysql
      (r.1, { mysql_handles := r.2, utf8_buffer := database_str.1, trace := tr2 })

end FfiDemoMysql

namespace DatabaseFfi

/-- Capacity of the connection pools of `database_ffi.c`:
`#define MAX_CONNECTIONS 10`. -/
def MAX_CONNECTIONS : Nat := 10

/-- A call of the SQLite part of `database_ffi.c` into the SQLite library, with
its arguments; for `sqlite3_open` also the result code and the connection stored
through `ppDb`. -/
inductive Call
  | sqlite3_open (filename : List Nat) (rc : Int) (db : Ptr)
  | sqlite3_close (db : Ptr)
  | sqlite3_exec (db : Ptr) (sql : List Nat)
  | sqlite3_free (p : Ptr)
  | sqlite3_prepare_v2 (db : Ptr) (sql : List Nat)
  | sqlite3_bind_text (stmt : Ptr) (index : Int) (text : Option (List Nat))
  | sqlite3_step (stmt : Ptr)
  | sqlite3_column_count (stmt : Ptr)
  | sqlite3_column_text (stmt : Ptr) (i : Nat)
  | sqlite3_finalize (stmt : Ptr)
  | sqlite3_errmsg (db : Ptr)
  deriving DecidableEq, Repr

/-- The state of the SQLite part of `database_ffi.c`: the pool
`static sqlite3* sqlite_connections[MAX_CONNECTIONS]` and the native calls
issued so far, oldest first. -/
structure World where
  sqlite_connections : HandleTable
  trace : List Call

/-- The state as the program starts. -/
def World.init : World := { sqlite_connections := emptyTable, trace := [] }

/-- The scan `for (int i = 0; i < MAX_CONNECTIONS; i++)` of `autumn_sqlite3_open`,
entered at index `i` with `remaining = MAX_CONNECTIONS - i`: the slot taken and
the pool afterwards, or `none` when the loop ends without a return. -/
def find_slot (t : HandleTable) (db : Ptr) : (remaining : Nat) → (i : Nat) → Option (Nat × HandleTable)
  | 0, _ => none
  | n + 1, i =>
    if t i = NULL then some (i, Function.update t i db)
    else find_slot t db n (i + 1)

/-- The function `autumn_sqlite3_open` of `database_ffi.c`.  `result` and `db` are
what `sqlite3_open` returns and stores into `db`. -/
def autumn_sqlite3_open (w : World) (filename : List Nat) (result : Int) (db : Ptr) :
    Int × World :=
  let tr := w.trace ++ [Call.sqlite3_open (c_chars filename) result db]
  if result ≠ FfiDemoSqlite.SQLITE_OK then
    (-1, { sqlite_connections := w.sqlite_connections, trace := tr })
  else
    match find_slot w.sqlite_connections db MAX_CONNECTIONS 0 with
    | some (i, t) => ((i : Int), { sqlite_connections := t, trace := tr })
    | none =>
      (-1, { sqlite_connections := w.sqlite_connections, trace := tr ++ [Call.sqlite3_close db] })

/-- The function `autumn_sqlite3_close` of `database_ffi.c`. -/
def autumn_sqlite3_close (w : World) (handle : Int) : Int × World :=
  if handle < 0 ∨ handle ≥ (MAX_CONNECTIONS : Int) ∨ w.sqlite_connections handle.toNat = NULL then
    (-1, w)
  else
    (0, { sqlite_connections := Function.update w.sqlite_connections handle.toNat NULL,
          trace := w.trace ++ [Call.sqlite3_close (w.sqlite_connections handle.toNat)] })

/-- The result code `SQLITE_DONE` of `sqlite3.h`. -/
def SQLITE_DONE : Int := 101

/-- The function `autumn_sqlite3_exec` of `database_ffi.c`.  `result` and `errmsg`
are what `sqlite3_exec` returns and stores into `errmsg`. -/
def autumn_sqlite3_exec (w : World) (handle : Int) (sql : List Nat) (result : Int) (errmsg : Ptr) :
    Int × World :=
  if handle < 0 ∨ handle ≥ (MAX_CONNECTIONS : Int) ∨ w.sqlite_connections handle.toNat = NULL then
    (-1, w)
  else
    let db := w.sqlite_connections handle.toNat
    let tr := w.trace ++ [Call.sqlite3_exec db (c_chars sql)]
    if result ≠ FfiDemoSqlite.SQLITE_OK ∧ errmsg ≠ NULL then
      (result, { sqlite_connections := w.sqlite_connections,
                 trace := tr ++ [Call.sqlite3_free errmsg] })
    else (0, { sqlite_connections := w.sqlite_connections, trace := tr })

/-- The loop `for (int i = 0; i < param_count; i++)` of `autumn_sqlite3_exec_prepared`
and `autumn_sqlite3_query`, entered at index `i` with `remaining = param_count - i`:
the trace after the calls `sqlite3_bind_text(stmt, i + 1, params[i], -1,
SQLITE_TRANSIENT)`.  `params[i]` is `none` for a null pointer. -/
def bind_loop (stmt : Ptr) (params : List (Option (List Nat))) :
    (remaining : Nat) → (i : Nat) → List Call → List Call
  | 0, _, tr => tr
  | n + 1, i, tr =>
    bind_loop stmt params n (i + 1)
      (tr ++ [Call.sqlite3_bind_text stmt ((i : Int) + 1) ((params.getD i none).map c_chars)])

/-- The answers of the native library to one `autumn_sqlite3_exec_prepared`: the
result code of `sqlite3_prepare_v2` and the statement it stores, and the result
code of `sqlite3_step`.  `placeholder_count` is the number of placeholders of the
statement, which `sqlite3_bind_parameter_count` would return; the function never
asks for it. -/
structure PreparedAnswers where
  prepare_rc : Int
  stmt : Ptr
  step_rc : Int
  placeholder_count : Nat

/-- The function `autumn_sqlite3_exec_prepared` of `database_ffi.c`. -/
def autumn_sqlite3_exec_prepared (w : World) (handle : Int) (sql : List Nat)
    (params : List (Option (List Nat))) (param_count : Int) (a : PreparedAnswers) : Int × World :=
  if handle < 0 ∨ handle ≥ (MAX_CONNECTIONS : Int) ∨ w.sqlite_connections handle.toNat = NULL then
    (-1, w)
  else
    let db := w.sqlite_connections handle.toNat
    let tr := w.trace ++ [Call.sqlite3_prepare_v2 db (c_chars sql)]
    if a.prepare_rc ≠ FfiDemoSqlite.SQLITE_OK then
      (a.prepare_rc, { sqlite_connections := w.sqlite_connections, trace := tr })
    else
      let tr2 := bind_loop a.stmt params param_count.toNat 0 tr
      (if a.step_rc = SQLITE_DONE then 0 else a.step_rc,
        { sqlite_connections := w.sqlite_connections,
          trace := tr2 ++ [Call.sqlite3_step a.stmt, Call.sqlite3_finalize a.stmt] })

/-- The loop `for (int i = 0; i < col_count; i++)` of `autumn_sqlite3_query` for
one row, entered at index `i` with `remaining = col_count - i`.  `text` is the C
string held in `result_buffer`, to which `strcat` appends; `values` are the
answers of `sqlite3_column_text`.  It returns the text and the trace. -/
def col_loop (stmt : Ptr) (values : List (Option (List Nat))) :
    (remaining : Nat) → (i : Nat) → List Nat → List Call → List Nat × List Call
  | 0, _, text, tr => (text, tr)
  | n + 1, i, text, tr =>
    let t1 := if 0 < i then text ++ [9] else text
    let t2 :=
      match values.getD i none with
      | some value => t1 ++ c_chars value
      | none => t1
    col_loop stmt values n (i + 1) t2 (tr ++ [Call.sqlite3_column_text stmt i])

/-- The answers of the native library to one `autumn_sqlite3_query` of
`database_ffi.c`: the result code of `sqlite3_prepare_v2` and the statement it
stores, what `sqlite3_column_count` returns, and the rows the cursor yields
(`sqlite3_step` returns `SQLITE_ROW` once for each and another code after the
last). -/
structure QueryAnswers where
  prepare_rc : Int
  stmt : Ptr
  column_count : Nat
  rows : List (List (Option (List Nat)))

/-- The loop `while ((result = sqlite3_step(stmt)) == SQLITE_ROW)` of
`autumn_sqlite3_query` over the rows the cursor still yields. -/
def row_loop (stmt : Ptr) (column_count : Nat) :
    List (List (Option (List Nat))) → List Nat → List Call → List Nat × List Call
  | [], text, tr => (text, tr ++ [Call.sqlite3_step stmt])
  | row :: rest, text, tr =>
    let r := col_loop stmt row column_count 0 text
      (tr ++ [Call.sqlite3_step stmt, Call.sqlite3_column_count stmt])
    row_loop stmt column_count rest (r.1 ++ [10]) r.2

/-- The function `autumn_sqlite3_query` of `database_ffi.c`.  The value returned
is `none` for a null pointer, else the C string held in the static
`result_buffer`, an array of 10240 bytes; nothing in the function compares the
length of the text with the size of the array. -/
def autumn_sqlite3_query (w : World) (handle : Int) (sql : List Nat)
    (params : List (Option (List Nat))) (param_count : Int) (a : QueryAnswers) :
    Option (List Nat) × World :=
  if handle < 0 ∨ handle ≥ (MAX_CONNECTIONS : Int) ∨ w.sqlite_connections handle.toNat = NULL then
    (none, w)
  else
    let db := w.sqlite_connections handle.toNat
    let tr := w.trace ++ [Call.sqlite3_prepare_v2 db (c_chars sql)]
    if a.prepare_rc ≠ FfiDemoSqlite.SQLITE_OK then
      (none, { sqlite_connections := w.sqlite_connections, trace := tr })
    else
      let tr2 := bind_loop a.stmt params param_count.toNat 0 tr
      let r := row_loop a.stmt a.column_count a.rows [] tr2
      (some r.1, { sqlite_connections := w.sqlite_connections,
                   trace := r.2 ++ [Call.sqlite3_finalize a.stmt] })

/-- The call `sqlite3_bind_text(stmt, i + 1, params[i], -1, SQLITE_TRANSIENT)` for
the parameter of index `i`. -/
def bind_call (stmt : Ptr) (params : List (Option (List Nat))) (i : Nat) : Call :=
  Call.sqlite3_bind_text stmt ((i : Int) + 1) ((params.getD i none).map c_chars)

/-- A native call is a bind call. -/
def is_bind : Call → Bool
  | Call.sqlite3_bind_text _ _ _ => true
  | _ => false

/-- A call of the MySQL part of `database_ffi.c` into the MySQL client library. -/
inductive MysqlCall
  | mysql_query (conn : Ptr) (sql : List Nat)
  | mysql_store_result (conn : Ptr)
  | mysql_num_fields (result : Ptr)
  | mysql_fetch_row (result : Ptr)
  | mysql_free_result (result : Ptr)
  deriving DecidableEq, Repr

/-- The state of the MySQL part of `database_ffi.c`: the pool
`static MYSQL* mysql_connections[MAX_CONNECTIONS]` and the native calls issued so
far, oldest first. -/
structure MysqlWorld where
  mysql_connections : HandleTable
  trace : List MysqlCall

/-- The answers of the native library to one `autumn_mysql_query` of
`database_ffi.c`: what `mysql_query`, `mysql_store_result` and `mysql_num_fields`
return, and the rows `mysql_fetch_row` yields before it returns a null pointer
(`none` for a null `row[i]`). -/
structure MysqlQueryAnswers where
  query_rc : Int
  result : Ptr
  num_fields : Nat
  rows : List (List (Option (List Nat)))

/-- The loop `for (int i = 0; i < num_fields; i++)` of `autumn_mysql_query` for
one row, entered at index `i` with `remaining = num_fields - i`.  `text` is the C
string held in `result_buffer`, to which `strcat` appends. -/
def mysql_col_loop (row : List (Option (List Nat))) :
    (remaining : Nat) → (i : Nat) → List Nat → List Nat
  | 0, _, text => text
  | n + 1, i, text =>
    let t1 := if 0 < i then text ++ [9] else text
    let t2 :=
      match row.getD i none with
      | some value => t1 ++ c_chars value
      | none => t1
    mysql_col_loop row n (i + 1) t2

/-- The loop `while ((row = mysql_fetch_row(result)))` of `autumn_mysql_query`
over the rows the result set still yields. -/
def mysql_row_loop (result : Ptr) (num_fields : Nat) :
    List (List (Option (List Nat))) → List Nat → List MysqlCall → List Nat × List MysqlCall
  | [], text, tr => (text, tr ++ [MysqlCall.mysql_fetch_row result])
  | row :: rest, text, tr =>
    mysql_row_loop result num_fields rest (mysql_col_loop row num_fields 0 text ++ [10])
      (tr ++ [MysqlCall.mysql_fetch_row result])

/-- The function `autumn_mysql_query` of `database_ffi.c`; `params` and
`param_count` are not used.  The value returned is `none` for a null pointer,
else the C string held in the static `result_buffer`, an array of 10240 bytes;
nothing in the function compares the length of the text with the size of the
array. -/
def autumn_mysql_query (w : MysqlWorld) (handle : Int) (sql : List Nat)
    (_params : List (Option (List Nat))) (_param_count : Int) (a : MysqlQueryAnswers) :
    Option (List Nat) × MysqlWorld :=
  if handle < 0 ∨ handle ≥ (MAX_CONNECTIONS : Int) ∨ w.mysql_connections handle.toNat = NULL then
    (none, w)
  else
    let conn := w.mysql_connections handle.toNat
    let tr := w.trace ++ [MysqlCall.mysql_query conn (c_chars sql)]
    if a.query_rc ≠ 0 then
      (none, { mysql_connections := w.mysql_connections, trace := tr })
    else
      let tr2 := tr ++ [MysqlCall.mysql_store_result conn]
      if a.result = NULL then
        (none, { mysql_connections := w.mysql_connections, trace := tr2 })
      else
        let r := mysql_row_loop a.result a.num_fields a.rows []
          (tr2 ++ [MysqlCall.mysql_num_fields a.result])
        (some r.1, { mysql_connections := w.mysql_connections,
                     trace := r.2 ++ [MysqlCall.mysql_free_result a.result] })

/-- A call of the PostgreSQL part of `database_ffi.c` into `libpq`. -/
inductive PgCall
  | PQexecParams (conn : Ptr) (sql : List Nat) (param_count : Int)
      (params : List (Option (List Nat)))
  | PQresultStatus (res : Ptr)
  | PQclear (res : Ptr)
  | PQntuples (res : Ptr)
  | PQnfields (res : Ptr)
  | PQgetvalue (res : Ptr) (i j : Nat)
  deriving DecidableEq, Repr

/-- The status `PGRES_TUPLES_OK` of `libpq-fe.h`. -/
def PGRES_TUPLES_OK : Int := 2

/-- The state of the PostgreSQL part of `database_ffi.c`: the pool
`static PGconn* pg_connections[MAX_CONNECTIONS]` and the native calls issued so
far, oldest first. -/
structure PgWorld where
  pg_connections : HandleTable
  trace : List PgCall

/-- The answers of `libpq` to one `autumn_pg_query`: the result returned by
`PQexecParams`, what `PQresultStatus`, `PQntuples` and `PQnfields` return, and
what `PQgetvalue(res, i, j)` returns, `values[i][j]` (`none` for a null
pointer). -/
structure PgQueryAnswers where
  res : Ptr
  status : Int
  ntuples : Nat
  nfields : Nat
  values : List (List (Option (List Nat)))

/-- The loop `for (int j = 0; j < nfields; j++)` of `autumn_pg_query` for the
row `i`, entered at index `j` with `remaining = nfields - j`. -/
def pg_col_loop (res : Ptr) (values : List (List (Option (List Nat)))) (i : Nat) :
    (remaining : Nat) → (j : Nat) → List Nat → List PgCall → List Nat × List PgCall
  | 0, _, text, tr => (text, tr)
  | n + 1, j, text, tr =>
    let t1 := if 0 < j then text ++ [9] else text
    let t2 :=
      match (values.getD i []).getD j none with
      | some value => t1 ++ c_chars value
      | none => t1
    pg_col_loop res values i n (j + 1) t2 (tr ++ [PgCall.PQgetvalue res i j])

/-- The loop `for (int i = 0; i < ntuples; i++)` of `autumn_pg_query`, entered at
index `i` with `remaining = ntuples - i`. -/
def pg_row_loop (res : Ptr) (values : List (List (Option (List Nat)))) (nfields : Nat) :
    (remaining : Nat) → (i : Nat) → List Nat → List PgCall → List Nat × List PgCall
  | 0, _, text, tr => (text, tr)
  | n + 1, i, text, tr =>
    let r := pg_col_loop res values i nfields 0 text tr
    pg_row_loop res values nfields n (i + 1) (r.1 ++ [10]) r.2

/-- The function `autumn_pg_query` of `database_ffi.c`.  The value returned is
`none` for a null pointer, else the C string held in the static
`result_buffer`, an array of 10240 bytes; nothing in the function compares the
length of the text with the size of the array. -/
def autumn_pg_query (w : PgWorld) (handle : Int) (sql : List Nat)
    (params : List (Option (List Nat))) (param_count : Int) (a : PgQueryAnswers) :
    Option (List Nat) × PgWorld :=
  if handle < 0 ∨ handle ≥ (MAX_CONNECTIONS : Int) ∨ w.pg_connections handle.toNat = NULL then
    (none, w)
  else
    let conn := w.pg_connections handle.toNat
    let tr := w.trace ++ [PgCall.PQexecParams conn (c_chars sql) param_count
      (params.map (fun p => p.map c_chars)), PgCall.PQresultStatus a.res]
    if a.status ≠ PGRES_TUPLES_OK then
      (none, { pg_connections := w.pg_connections, trace := tr ++ [PgCall.PQclear a.res] })
    else
      let r := pg_row_loop a.res a.values a.nfields a.ntuples 0 []
        (tr ++ [PgCall.PQntuples a.res, PgCall.PQnfields a.res])
      (some r.1, { pg_connections := w.pg_connections, trace := r.2 ++ [PgCall.PQclear a.res] })

end DatabaseFfi

/-! ## Part 2: theorems -/

open FfiDemoSqlite MysqlDemo


/-- The scan returns the first empty slot at or after `i` and fills it. -/
theorem store_scan_found (t : HandleTable) (p : Ptr) :
    ∀ (n i k : Nat), i ≤ k → k < i + n → t k = NULL → (∀ m, i ≤ m → m < k → t m ≠ NULL) →
      store_scan t p n i = ((k : Int), Function.update t k p) := by
  intro n
  induction n with
  | zero => intro i k h1 h2; omega
  | succ n ih =>
    intro i k h1 h2 hk hlt
    by_cases hik : i = k
    · subst hik
      simp [store_scan, hk]
    · have hne : t i ≠ NULL := hlt i (le_refl i) (by omega)
      simp only [store_scan, hne, if_false]
      exact ih (i + 1) k (by omega) (by omega) hk (fun m hm1 hm2 => hlt m (by omega) hm2)

/-- The scan fails and changes nothing when no slot from `i` on is empty. -/
theorem store_scan_full (t : HandleTable) (p : Ptr) :
    ∀ (n i : Nat), (∀ m, i ≤ m → m < i + n → t m ≠ NULL) → store_scan t p n i = (-1, t) := by
  intro n
  induction n with
  | zero => intro i _; rfl
  | succ n ih =>
    intro i h
    have hne : t i ≠ NULL := h i (le_refl i) (by omega)
    simp only [store_scan, hne, if_false]
    exact ih (i + 1) (fun m hm1 hm2 => h m (by omega) (by omega))

/-- On a table whose occupied slots are exactly those below `n`, successive
stores of non-null connections hand out `n, n+1, ...` up to 99 and then fail. -/
theorem store_all_spec :
    ∀ (cs : List Ptr) (t : HandleTable) (n : Nat), n ≤ MAX_HANDLES →
      (∀ k, n ≤ k → t k = NULL) → (∀ k, k < n → t k ≠ NULL) → (∀ p ∈ cs, p ≠ NULL) →
      (store_all t cs).1
          = (List.range cs.length).map
              (fun k => if n + k < MAX_HANDLES then ((n + k : Nat) : Int) else -1)
        ∧ ∀ k, (store_all t cs).2 k
            = if k < n then t k else if k < MAX_HANDLES then cs.getD (k - n) NULL else NULL := by
  intro cs
  induction cs with
  | nil =>
    intro t n _ hE _ _
    refine ⟨rfl, fun k => ?_⟩
    by_cases hk : k < n
    · simp [store_all, hk]
    · simp [store_all, hk, hE k (by omega)]
  | cons c cs ih =>
    intro t n hn hE hF hcs
    have hc : c ≠ NULL := hcs c (List.mem_cons_self _ _)
    have hcs2 : ∀ p ∈ cs, p ≠ NULL := fun p hp => hcs p (List.mem_cons_of_mem _ hp)
    by_cases hlt : n < MAX_HANDLES
    · have hst : store_db t c = ((n : Int), Function.update t n c) := by
        simp only [store_db, hc, if_false]
        exact store_scan_found t c MAX_HANDLES 0 n (Nat.zero_le _) (by omega) (hE n (le_refl n))
          (fun m _ hm => hF m hm)
      obtain ⟨ih1, ih2⟩ := ih (Function.update t n c) (n + 1) hlt
        (fun k hk => by rw [Function.update_noteq (by omega)]; exact hE k (by omega))
        (fun k hk => by
          by_cases hkn : k = n
          · subst hkn; simpa using hc
          · rw [Function.update_noteq hkn]; exact hF k (by omega))
        hcs2
      constructor
      · simp only [store_all, hst, ih1, List.length_cons, List.range_succ_eq_map, List.map_cons,
          List.map_map]
        congr 1
        · simp [hlt]
        · apply List.map_congr_left
          intro k _
          simp only [Function.comp, Nat.succ_eq_add_one]
          have : n + 1 + k = n + (k + 1) := by omega
          rw [this]
      · intro k
        simp only [store_all, hst, ih2]
        by_cases h1 : k < n
        · simp [h1, Nat.lt_succ_of_lt h1, Function.update_noteq (Nat.ne_of_lt h1)]
        · by_cases h2 : k = n
          · subst h2; simp [hlt]
          · have h3 : ¬ k < n + 1 := by omega
            have h4 : k - n = (k - (n + 1)) + 1 := by omega
            simp [h1, h3, h4]
    · have hn100 : n = MAX_HANDLES := by omega
      have hst : store_db t c = (-1, t) := by
        simp only [store_db, hc, if_false]
        exact store_scan_full t c MAX_HANDLES 0 (fun m _ hm => hF m (by omega))
      obtain ⟨ih1, ih2⟩ := ih t n hn hE hF hcs2
      constructor
      · simp only [store_all, hst, ih1, List.length_cons, List.range_succ_eq_map, List.map_cons,
          List.map_map]
        congr 1
        · simp [hlt]
        · apply List.map_congr_left
          intro k _
          have h5 : ¬ n + k < MAX_HANDLES := by omega
          have h6 : ¬ n + (k + 1) < MAX_HANDLES := by omega
          simp [h5, h6]
      · intro k
        simp only [store_all, hst, ih2]
        by_cases h1 : k < n
        · simp [h1]
        · have h3 : ¬ k < MAX_HANDLES := by omega
          simp [h1, h3]

/-- The two registries run the same code: `store_mysql` is `store_db`. -/
theorem store_mysql_eq_store_db (t : HandleTable) (c : Ptr) : store_mysql t c = store_db t c := rfl

/-- Successive `store_mysql` calls are successive `store_db` calls. -/
theorem store_all_mysql_eq_store_all :
    ∀ (cs : List Ptr) (t : HandleTable), store_all_mysql t cs = store_all t cs := by
  intro cs
  induction cs with
  | nil => intro t; rfl
  | cons c cs ih => intro t; simp only [store_all_mysql, store_all, store_mysql_eq_store_db, ih]

/-- The lookups of the two registries run the same code. -/
theorem get_mysql_eq_get_db (t : HandleTable) (h : Int) : get_mysql t h = get_db t h := rfl

/-- C1: for every table and every non-null connection `c`, `store_db` and
`store_mysql` return the smallest index whose slot is empty, put `c` there and
leave every other slot as it was; when no slot below 100 is empty they return -1
and leave the table as it was.  Hence 101 successive stores into the empty table
return 0, 1, ..., 99 in that order, then -1, and afterwards each of the 100
handles still resolves to its connection. -/
theorem C1_store_first_empty_slot :
    (∀ (t : HandleTable) (c : Ptr), c ≠ NULL →
      (∀ i, i < MAX_HANDLES → t i = NULL → (∀ k, k < i → t k ≠ NULL) →
        store_db t c = ((i : Int), Function.update t i c)
          ∧ store_mysql t c = ((i : Int), Function.update t i c))
      ∧ ((∀ i, i < MAX_HANDLES → t i ≠ NULL) →
        store_db t c = (-1, t) ∧ store_mysql t c = (-1, t)))
    ∧ (∀ cs : List Ptr, cs.length = 101 → (∀ p ∈ cs, p ≠ NULL) →
        (store_all emptyTable cs).1 = (List.range 100).map Int.ofNat ++ [-1]
          ∧ (store_all_mysql emptyTable cs).1 = (List.range 100).map Int.ofNat ++ [-1]
          ∧ (∀ k : Nat, k < 100 →
              get_db (store_all emptyTable cs).2 (k : Int) = cs.getD k NULL
                ∧ get_mysql (store_all_mysql emptyTable cs).2 (k : Int) = cs.getD k NULL)) := by
  refine ⟨fun t c hc => ⟨fun i hi hti hlt => ?_, fun hfull => ?_⟩, fun cs hlen hcs => ?_⟩
  · have h : store_db t c = ((i : Int), Function.update t i c) := by
      simp only [store_db, hc, if_false]
      exact store_scan_found t c MAX_HANDLES 0 i (Nat.zero_le _) (by omega) hti
        (fun m _ hm => hlt m hm)
    exact ⟨h, h⟩
  · have h : store_db t c = (-1, t) := by
      simp only [store_db, hc, if_false]
      exact store_scan_full t c MAX_HANDLES 0 (fun m _ hm => hfull m (by omega))
    exact ⟨h, h⟩
  · obtain ⟨h1, h2⟩ := store_all_spec cs emptyTable 0 (Nat.zero_le _) (fun _ _ => rfl)
      (fun k hk => absurd hk (Nat.not_lt_zero k)) hcs
    have hres : (store_all emptyTable cs).1 = (List.range 100).map Int.ofNat ++ [-1] := by
      rw [h1, hlen, List.range_succ, List.map_append]
      congr 1
    have hget : ∀ k : Nat, k < 100 →
        get_db (store_all emptyTable cs).2 (k : Int) = cs.getD k NULL := by
      intro k hk
      have hk2 : (k : Int) < (MAX_HANDLES : Int) := by
        simp only [MAX_HANDLES]; exact_mod_cast hk
      have hk3 : k < MAX_HANDLES := hk
      simp only [get_db, Int.natCast_nonneg, hk2, and_self, if_true, Int.toNat_ofNat]
      rw [h2 k]
      simp [hk3]
    refine ⟨hres, ?_, fun k hk => ⟨hget k hk, ?_⟩⟩
    · rw [store_all_mysql_eq_store_all]; exact hres
    · rw [store_all_mysql_eq_store_all, get_mysql_eq_get_db]; exact hget k hk

/-- C1 at concrete inputs: the empty table, a full table, and the 101
connections 1, 2, ..., 101. -/
theorem C1_store_first_empty_slot_witness :
    (store_db emptyTable 7 = (((0 : Nat) : Int), Function.update emptyTable 0 7)
        ∧ store_mysql emptyTable 7 = (((0 : Nat) : Int), Function.update emptyTable 0 7))
    ∧ (store_db (fun _ => 1) 7 = (-1, fun _ => 1) ∧ store_mysql (fun _ => 1) 7 = (-1, fun _ => 1))
    ∧ ((store_all emptyTable (List.range' 1 101)).1 = (List.range 100).map Int.ofNat ++ [-1]
        ∧ (store_all_mysql emptyTable (List.range' 1 101)).1
            = (List.range 100).map Int.ofNat ++ [-1]
        ∧ (∀ k : Nat, k < 100 →
            get_db (store_all emptyTable (List.range' 1 101)).2 (k : Int)
                = (List.range' 1 101).getD k NULL
              ∧ get_mysql (store_all_mysql emptyTable (List.range' 1 101)).2 (k : Int)
                = (List.range' 1 101).getD k NULL)) :=
  ⟨(C1_store_first_empty_slot.1 emptyTable 7 (by decide)).1 0 (by decide) rfl
      (fun k hk => absurd hk (Nat.not_lt_zero k)),
   (C1_store_first_empty_slot.1 (fun _ => 1) 7 (by decide)).2 (fun _ _ => by decide),
   C1_store_first_empty_slot.2 (List.range' 1 101) rfl (by decide)⟩

open HttpServer

/-! ### Buffers -/

/-- Writing nothing leaves the buffer as it was. -/
theorem write_bytes_nil (buf : CharBuf) (pos : Nat) : write_bytes buf pos [] = buf := by
  funext k
  simp [write_bytes]

/-- Writing `b :: bs` is storing `b` and writing `bs` one index further. -/
theorem write_bytes_cons (buf : CharBuf) (pos : Nat) (b : Nat) (bs : List Nat) :
    write_bytes buf pos (b :: bs) = write_bytes (Function.update buf pos b) (pos + 1) bs := by
  funext k
  simp only [write_bytes, List.length_cons]
  by_cases h1 : k = pos
  · subst h1
    have : ¬ (k + 1 ≤ k ∧ k < k + 1 + bs.length) := by omega
    simp [this]
  · by_cases h2 : pos ≤ k ∧ k < pos + (bs.length + 1)
    · have h3 : pos + 1 ≤ k ∧ k < pos + 1 + bs.length := by omega
      have h4 : k - pos = (k - (pos + 1)) + 1 := by omega
      simp [h2, h3, h4]
    · have h3 : ¬ (pos + 1 ≤ k ∧ k < pos + 1 + bs.length) := by omega
      simp [h2, h3, Function.update_noteq h1]

/-- Writing `bs ++ [b]` is writing `bs` and storing `b` behind it. -/
theorem write_bytes_append_singleton (buf : CharBuf) (pos : Nat) (bs : List Nat) (b : Nat) :
    write_bytes buf pos (bs ++ [b]) = Function.update (write_bytes buf pos bs) (pos + bs.length) b := by
  induction bs generalizing buf pos with
  | nil => simp [write_bytes_cons, write_bytes_nil]
  | cons c cs ih =>
    have h : pos + 1 + cs.length = pos + (cs.length + 1) := by omega
    simp only [List.cons_append, write_bytes_cons, ih, List.length_cons, h]

/-- A write leaves the indices outside the written range as they were. -/
theorem write_bytes_outside (buf : CharBuf) (pos : Nat) (bs : List Nat) (k : Nat)
    (h : k < pos ∨ pos + bs.length ≤ k) : write_bytes buf pos bs k = buf k := by
  have : ¬ (pos ≤ k ∧ k < pos + bs.length) := by omega
  simp [write_bytes, this]

/-- A write stores the `m`-th byte at index `pos + m`. -/
theorem write_bytes_inside (buf : CharBuf) (pos : Nat) (bs : List Nat) (m : Nat)
    (h : m < bs.length) : write_bytes buf pos bs (pos + m) = bs.getD m 0 := by
  have : pos ≤ pos + m ∧ pos + m < pos + bs.length := by omega
  simp [write_bytes, this]

/-! ### Bytes of a code unit -/

/-- The lead byte of a two-byte sequence is a byte. -/
theorem lead2_lt (u : Nat) (h : u < 0x800) : 0xC0 ||| (u >>> 6) < 256 := by
  have h1 : u >>> 6 < 2 ^ 8 := by
    rw [Nat.shiftRight_eq_div_pow]
    have : u / 2 ^ 6 < 32 := Nat.div_lt_of_lt_mul (by norm_num; omega)
    omega
  exact Nat.or_lt_two_pow (n := 8) (by norm_num) h1

/-- The lead byte of a three-byte sequence is a byte. -/
theorem lead3_lt (u : Nat) (h : u < 65536) : 0xE0 ||| (u >>> 12) < 256 := by
  have h1 : u >>> 12 < 2 ^ 8 := by
    rw [Nat.shiftRight_eq_div_pow]
    have : u / 2 ^ 12 < 16 := Nat.div_lt_of_lt_mul (by norm_num; omega)
    omega
  exact Nat.or_lt_two_pow (n := 8) (by norm_num) h1

/-- A continuation byte is a byte. -/
theorem cont_lt (x : Nat) : 0x80 ||| (x &&& 0x3F) < 256 := by
  have h1 : x &&& 0x3F < 2 ^ 8 := lt_of_le_of_lt Nat.and_le_right (by norm_num)
  exact Nat.or_lt_two_pow (n := 8) (by norm_num) h1

/-- Every code unit has at least one byte. -/
theorem utf8_of_unit_length_pos (u : Nat) : 1 ≤ (utf8_of_unit u).length := by
  unfold utf8_of_unit
  split_ifs <;> simp

/-! ### The longest prefix that fits -/

/-- The prefix counted by `fit_count` is a prefix and its encoding fits. -/
theorem fit_count_fits (enc : Nat → List Nat) :
    ∀ (us : List Nat) (room : Nat),
      fit_count enc us room ≤ us.length
        ∧ ((us.take (fit_count enc us room)).flatMap enc).length ≤ room := by
  intro us
  induction us with
  | nil => intro room; simp [fit_count]
  | cons u us ih =>
    intro room
    by_cases h : (enc u).length ≤ room
    · obtain ⟨h1, h2⟩ := ih (room - (enc u).length)
      simp only [fit_count, h, if_true, List.take_succ_cons, List.flatMap_cons, List.length_append,
        List.length_cons]
      omega
    · simp [fit_count, h]

/-- No longer prefix fits: the encoding of a prefix of `m` units fits only when
`m` is at most `fit_count`. -/
theorem fit_count_longest (enc : Nat → List Nat) :
    ∀ (us : List Nat) (room m : Nat), m ≤ us.length →
      ((us.take m).flatMap enc).length ≤ room → m ≤ fit_count enc us room := by
  intro us
  induction us with
  | nil =>
    intro room m hm _
    have h0 : m = 0 := by simpa using hm
    subst h0
    exact Nat.zero_le _
  | cons u us ih =>
    intro room m hm hfit
    cases m with
    | zero => exact Nat.zero_le _
    | succ m =>
      simp only [List.take_succ_cons, List.flatMap_cons, List.length_append] at hfit
      have h : (enc u).length ≤ room := by omega
      simp only [fit_count, h, if_true]
      have := ih (room - (enc u).length) m (by simpa using hm) (by omega)
      omega

/-! ### The encoder of `http_server.c` -/

/-- The loop of `moonbit_string_to_bytes` over the code units `us` that lie at
index `idx` and after: it writes the encodings of the longest prefix of `us`
that fits into the room left. -/
theorem moonbit_string_to_bytes_loop_spec (str : List Nat) (M : Nat) :
    ∀ (us : List Nat) (idx j : Nat) (buf : CharBuf),
      (∀ m, m < us.length → unit_at str (idx + m) = us.getD m 0) →
      (∀ u ∈ us, u < 65536) → j ≤ M →
      moonbit_string_to_bytes_loop str (M : Int) us.length idx j buf
        = (j + ((us.take (fit_count utf8_of_unit us (M - j))).flatMap utf8_of_unit).length,
           write_bytes buf j ((us.take (fit_count utf8_of_unit us (M - j))).flatMap utf8_of_unit)) := by
  intro us
  induction us with
  | nil =>
    intro idx j buf _ _ _
    simp [moonbit_string_to_bytes_loop, fit_count, write_bytes_nil]
  | cons u us ih =>
    intro idx j buf hread hu hj
    have hu0 : unit_at str idx = u := by simpa using hread 0 (by simp)
    have hread2 : ∀ m, m < us.length → unit_at str (idx + 1 + m) = us.getD m 0 := by
      intro m hm
      have := hread (m + 1) (by simpa using hm)
      simpa [Nat.add_assoc, Nat.add_comm 1 m] using this
    have hu2 : ∀ v ∈ us, v < 65536 := fun v hv => hu v (List.mem_cons_of_mem _ hv)
    have hu1 : u < 65536 := hu u (List.mem_cons_self _ _)
    simp only [List.length_cons, moonbit_string_to_bytes_loop, hu0]
    by_cases hroom : j < M
    · have hroomI : (j : Int) < (M : Int) := by exact_mod_cast hroom
      simp only [hroomI, if_true]
      by_cases h1 : u < 0x80
      · have hlen : (utf8_of_unit u).length = 1 := by simp [utf8_of_unit, h1]
        have hmod : u % 256 = u := Nat.mod_eq_of_lt (by omega)
        have hfc : fit_count utf8_of_unit (u :: us) (M - j)
            = fit_count utf8_of_unit us (M - (j + 1)) + 1 := by
          have hfit : 1 ≤ M - j := by omega
          have hM : M - j - 1 = M - (j + 1) := by omega
          simp [fit_count, hlen, hfit, hM]
        have hE : utf8_of_unit u = [u] := by simp [utf8_of_unit, h1]
        rw [hfc, List.take_succ_cons, List.flatMap_cons, hE, List.singleton_append,
          write_bytes_cons]
        simp only [h1, if_true, hmod, ih (idx + 1) (j + 1) _ hread2 hu2 hroom, List.length_cons,
          Prod.mk.injEq, and_true]
        omega
      · by_cases h2 : u < 0x800
        · have hE : utf8_of_unit u = [0xC0 ||| (u >>> 6), 0x80 ||| (u &&& 0x3F)] := by
            simp [utf8_of_unit, h1, h2]
          have hlen : (utf8_of_unit u).length = 2 := by rw [hE]; rfl
          have hm1 : (0xC0 ||| (u >>> 6)) % 256 = 0xC0 ||| (u >>> 6) :=
            Nat.mod_eq_of_lt (lead2_lt u h2)
          have hm2 : (0x80 ||| (u &&& 0x3F)) % 256 = 0x80 ||| (u &&& 0x3F) :=
            Nat.mod_eq_of_lt (cont_lt u)
          by_cases hr2 : j + 1 < M
          · have hr2I : ((j + 1 : Nat) : Int) < (M : Int) := by exact_mod_cast hr2
            have hfc : fit_count utf8_of_unit (u :: us) (M - j)
                = fit_count utf8_of_unit us (M - (j + 2)) + 1 := by
              have hfit : 2 ≤ M - j := by omega
              have hM : M - j - 2 = M - (j + 2) := by omega
              simp [fit_count, hlen, hfit, hM]
            rw [hfc, List.take_succ_cons, List.flatMap_cons, hE, List.cons_append,
              List.singleton_append, write_bytes_cons, write_bytes_cons]
            simp only [h1, h2, if_true, if_false, hr2I, hm1, hm2,
              ih (idx + 1) (j + 2) _ hread2 hu2 (by omega), List.length_cons,
              Prod.mk.injEq, and_true]
            omega
          · have hr2I : ¬ ((j + 1 : Nat) : Int) < (M : Int) := by
              intro h; exact hr2 (by exact_mod_cast h)
            have hfc : fit_count utf8_of_unit (u :: us) (M - j) = 0 := by
              have hfit : ¬ 2 ≤ M - j := by omega
              simp [fit_count, hlen, hfit]
            rw [hfc]
            simp only [h1, h2, if_true, if_false, hr2I, List.take_zero, List.flatMap_nil,
              List.length_nil, write_bytes_nil, Nat.add_zero]
        · have hE : utf8_of_unit u
              = [0xE0 ||| (u >>> 12), 0x80 ||| ((u >>> 6) &&& 0x3F), 0x80 ||| (u &&& 0x3F)] := by
            simp [utf8_of_unit, h1, h2]
          have hlen : (utf8_of_unit u).length = 3 := by rw [hE]; rfl
          have hm1 : (0xE0 ||| (u >>> 12)) % 256 = 0xE0 ||| (u >>> 12) :=
            Nat.mod_eq_of_lt (lead3_lt u hu1)
          have hm2 : (0x80 ||| ((u >>> 6) &&& 0x3F)) % 256 = 0x80 ||| ((u >>> 6) &&& 0x3F) :=
            Nat.mod_eq_of_lt (cont_lt (u >>> 6))
          have hm3 : (0x80 ||| (u &&& 0x3F)) % 256 = 0x80 ||| (u &&& 0x3F) :=
            Nat.mod_eq_of_lt (cont_lt u)
          by_cases hr3 : j + 2 < M
          · have hr3I : ((j + 2 : Nat) : Int) < (M : Int) := by exact_mod_cast hr3
            have hfc : fit_count utf8_of_unit (u :: us) (M - j)
                = fit_count utf8_of_unit us (M - (j + 3)) + 1 := by
              have hfit : 3 ≤ M - j := by omega
              have hM : M - j - 3 = M - (j + 3) := by omega
              simp [fit_count, hlen, hfit, hM]
            rw [hfc, List.take_succ_cons, List.flatMap_cons, hE, List.cons_append,
              List.cons_append, List.singleton_append, write_bytes_cons, write_bytes_cons,
              write_bytes_cons]
            simp only [h1, h2, if_true, if_false, hr3I, hm1, hm2, hm3,
              ih (idx + 1) (j + 3) _ hread2 hu2 (by omega), List.length_cons,
              Prod.mk.injEq, and_true]
            omega
          · have hr3I : ¬ ((j + 2 : Nat) : Int) < (M : Int) := by
              intro h; exact hr3 (by exact_mod_cast h)
            have hfc : fit_count utf8_of_unit (u :: us) (M - j) = 0 := by
              have hfit : ¬ 3 ≤ M - j := by omega
              simp [fit_count, hlen, hfit]
            rw [hfc]
            simp only [h1, h2, if_true, if_false, hr3I, List.take_zero, List.flatMap_nil,
              List.length_nil, write_bytes_nil, Nat.add_zero]
    · have hroomI : ¬ (j : Int) < (M : Int) := by
        intro h; exact hroom (by exact_mod_cast h)
      have hfc : fit_count utf8_of_unit (u :: us) (M - j) = 0 := by
        have hfit : ¬ (utf8_of_unit u).length ≤ M - j := by
          have := utf8_of_unit_length_pos u
          omega
        simp [fit_count, hfit]
      rw [hfc]
      simp only [hroomI, if_false, List.take_zero, List.flatMap_nil, List.length_nil,
        write_bytes_nil, Nat.add_zero]

/-- Reading a code unit of a string of 16-bit values gives the value itself. -/
theorem unit_at_of_lt (s : List Nat) (hs : ∀ u ∈ s, u < 65536) (m : Nat) (hm : m < s.length) :
    unit_at s m = s.getD m 0 := by
  have hmem : s.getD m 0 ∈ s := by
    rw [List.getD_eq_getElem s 0 hm]
    exact List.getElem_mem hm
  exact Nat.mod_eq_of_lt (hs _ hmem)

/-- C9: for a non-null input `s` of `str_len = s.length` code units and a buffer
of `buffer_size ≥ 1` bytes, `moonbit_string_to_bytes` writes the concatenated
per-unit encodings (one, two or three bytes as the specification gives them) of
the longest prefix of `s` whose encoding fits into `buffer_size - 1` bytes,
followed by one zero byte, writes nothing else, and returns the number of bytes
of that encoding.  The units of `s` are arbitrary 16-bit values: a zero unit is
encoded as the byte 0 and does not end the conversion. -/
theorem C9_moonbit_string_to_bytes_longest_fit (s : List Nat) (hs : ∀ u ∈ s, u < 65536)
    (buffer : CharBuf) (buffer_size : Nat) (hb : 1 ≤ buffer_size) :
    ∃ k, k ≤ s.length
      ∧ ((s.take k).flatMap utf8_of_unit).length ≤ buffer_size - 1
      ∧ (∀ m, m ≤ s.length →
          ((s.take m).flatMap utf8_of_unit).length ≤ buffer_size - 1 → m ≤ k)
      ∧ moonbit_string_to_bytes (some s) (s.length : Int) (some buffer) (buffer_size : Int)
          = (((((s.take k).flatMap utf8_of_unit).length : Nat) : Int),
             some (write_bytes buffer 0 ((s.take k).flatMap utf8_of_unit ++ [0]))) := by
  refine ⟨fit_count utf8_of_unit s (buffer_size - 1), (fit_count_fits utf8_of_unit s _).1,
    (fit_count_fits utf8_of_unit s _).2, fun m hm hfit => fit_count_longest utf8_of_unit s _ m hm hfit,
    ?_⟩
  have hsz : ¬ ((buffer_size : Int) ≤ 0) := by omega
  have hmax : (buffer_size : Int) - 1 = ((buffer_size - 1 : Nat) : Int) := by omega
  have hloop := moonbit_string_to_bytes_loop_spec s (buffer_size - 1) s 0 0 buffer
    (fun m hm => by simpa using unit_at_of_lt s hs m hm) hs (Nat.zero_le _)
  simp only [moonbit_string_to_bytes, hsz, if_false, Int.toNat_ofNat, hmax, hloop, Nat.zero_add,
    Nat.sub_zero, write_bytes_append_singleton]

/-- C9 at a concrete input: the units `A`, 0, U+00E9, U+4E2D into a buffer of 6
bytes; the three-byte character does not fit and is left out. -/
theorem C9_moonbit_string_to_bytes_longest_fit_witness :
    ∃ k, k ≤ [0x41, 0, 0xE9, 0x4E2D].length
      ∧ (([0x41, 0, 0xE9, 0x4E2D].take k).flatMap utf8_of_unit).length ≤ 6 - 1
      ∧ (∀ m, m ≤ [0x41, 0, 0xE9, 0x4E2D].length →
          (([0x41, 0, 0xE9, 0x4E2D].take m).flatMap utf8_of_unit).length ≤ 6 - 1 → m ≤ k)
      ∧ moonbit_string_to_bytes (some [0x41, 0, 0xE9, 0x4E2D])
            (([0x41, 0, 0xE9, 0x4E2D] : List Nat).length : Int) (some zeroBuf) ((6 : Nat) : Int)
          = (((((([0x41, 0, 0xE9, 0x4E2D] : List Nat).take k).flatMap utf8_of_unit).length : Nat) : Int),
             some (write_bytes zeroBuf 0
               (([0x41, 0, 0xE9, 0x4E2D].take k).flatMap utf8_of_unit ++ [0]))) :=
  C9_moonbit_string_to_bytes_longest_fit [0x41, 0, 0xE9, 0x4E2D] (by decide) zeroBuf 6
    (by decide)

/-! ### Handles -/

/-- A handle that is negative, too large, or points at an empty slot looks up
to the null pointer. -/
theorem get_db_invalid (t : HandleTable) (h : Int)
    (hbad : h < 0 ∨ (MAX_HANDLES : Int) ≤ h ∨ t h.toNat = NULL) : get_db t h = NULL := by
  unfold get_db
  split_ifs with hr
  · rcases hbad with h1 | h1 | h1
    · omega
    · omega
    · exact h1
  · rfl

/-- A handle looks up to a connection exactly when it is in range and its slot is
occupied. -/
theorem get_db_ne_null_iff (t : HandleTable) (h : Int) :
    get_db t h ≠ NULL ↔ 0 ≤ h ∧ h < (MAX_HANDLES : Int) ∧ t h.toNat ≠ NULL := by
  unfold get_db
  split_ifs with hr
  · exact ⟨fun hne => ⟨hr.1, hr.2, hne⟩, fun hh => hh.2.2⟩
  · constructor
    · intro hne; exact absurd rfl hne
    · intro hh; exact absurd ⟨hh.1, hh.2.1⟩ hr

/-- C2: a handle that is negative, at least 100, or that indexes an empty slot is
rejected by every operation of the SQLite wrapper (exec, exec_prepared, query,
close, errmsg) and of the MySQL wrapper (execute, query, close, errmsg) with the
invalid-handle result: -1, the empty array, the empty string.  The state after
the call is the state before it: no native call is added to the trace and the
handle table is as it was. -/
theorem C2_invalid_handle_rejected (h : Int) :
    (∀ (w : FfiDemoSqlite.World), (h < 0 ∨ 100 ≤ h ∨ w.db_handles h.toNat = NULL) →
      ∀ (sql : MString) (params : List MString) (rc : Int) (em : Ptr)
        (a : FfiDemoSqlite.QueryAnswers) (msg : Option (List Nat)),
        autumn_sqlite3_exec w h sql rc em = (-1, w)
          ∧ autumn_sqlite3_exec_prepared w h sql params rc em = (-1, w)
          ∧ autumn_sqlite3_query w h sql params a = ([], w)
          ∧ autumn_sqlite3_close w h rc = (-1, w)
          ∧ autumn_sqlite3_errmsg w h msg = ([], w))
    ∧ (∀ (w : MysqlDemo.World), (h < 0 ∨ 100 ≤ h ∨ w.mysql_handles h.toNat = NULL) →
      ∀ (sql : MString) (params : List MString) (rc : Int)
        (a : MysqlDemo.QueryAnswers) (msg : Option (List Nat)),
        autumn_mysql_execute w h sql rc = (-1, w)
          ∧ autumn_mysql_query w h sql params a = ([], w)
          ∧ autumn_mysql_close w h = (-1, w)
          ∧ autumn_mysql_errmsg w h msg = ([], w)) := by
  constructor
  · intro w hbad sql params rc em a msg
    have hnull : get_db w.db_handles h = NULL := get_db_invalid _ _ hbad
    simp [autumn_sqlite3_exec, autumn_sqlite3_exec_prepared, autumn_sqlite3_query,
      autumn_sqlite3_close, autumn_sqlite3_errmsg, hnull]
  · intro w hbad sql params rc a msg
    have hnull : get_mysql w.mysql_handles h = NULL := get_db_invalid _ _ hbad
    simp [autumn_mysql_execute, autumn_mysql_query, autumn_mysql_close, autumn_mysql_errmsg,
      hnull]

/-- C2 at concrete inputs: the handles -1, 100 and 3 on the state of a program
that has opened nothing. -/
theorem C2_invalid_handle_rejected_witness :
    (autumn_sqlite3_exec FfiDemoSqlite.World.init (-1) (some [0x61]) 0 0
        = (-1, FfiDemoSqlite.World.init)
      ∧ autumn_sqlite3_close FfiDemoSqlite.World.init 100 0 = (-1, FfiDemoSqlite.World.init)
      ∧ autumn_sqlite3_errmsg FfiDemoSqlite.World.init 3 (some [0x61])
          = ([], FfiDemoSqlite.World.init))
    ∧ (autumn_mysql_execute MysqlDemo.World.init (-1) (some [0x61]) 0
          = (-1, MysqlDemo.World.init)
      ∧ autumn_mysql_close MysqlDemo.World.init 100 = (-1, MysqlDemo.World.init)
      ∧ autumn_mysql_errmsg MysqlDemo.World.init 3 (some [0x61]) = ([], MysqlDemo.World.init)) :=
  ⟨⟨((C2_invalid_handle_rejected (-1)).1 FfiDemoSqlite.World.init (Or.inl (by decide))
        (some [0x61]) [] 0 0 ⟨0, 0, [], [], true⟩ none).1,
    ((C2_invalid_handle_rejected 100).1 FfiDemoSqlite.World.init (Or.inr (Or.inl (by decide)))
        none [] 0 0 ⟨0, 0, [], [], true⟩ none).2.2.2.1,
    ((C2_invalid_handle_rejected 3).1 FfiDemoSqlite.World.init (Or.inr (Or.inr rfl))
        none [] 0 0 ⟨0, 0, [], [], true⟩ (some [0x61])).2.2.2.2⟩,
   ⟨((C2_invalid_handle_rejected (-1)).2 MysqlDemo.World.init (Or.inl (by decide))
        (some [0x61]) [] 0 ⟨0, 0, [], [], true, zeroBuf⟩ none).1,
    ((C2_invalid_handle_rejected 100).2 MysqlDemo.World.init (Or.inr (Or.inl (by decide)))
        none [] 0 ⟨0, 0, [], [], true, zeroBuf⟩ none).2.2.1,
    ((C2_invalid_handle_rejected 3).2 MysqlDemo.World.init (Or.inr (Or.inr rfl))
        none [] 0 ⟨0, 0, [], [], true, zeroBuf⟩ (some [0x61])).2.2.2⟩⟩

/-- Removing a handle that is out of range or whose slot is empty changes
nothing. -/
theorem remove_db_invalid (t : HandleTable) (h : Int)
    (hbad : h < 0 ∨ (MAX_HANDLES : Int) ≤ h ∨ t h.toNat = NULL) : remove_db t h = t := by
  unfold remove_db
  split_ifs with hr
  · rcases hbad with h1 | h1 | h1
    · omega
    · omega
    · rw [← h1]; exact Function.update_eq_self _ _
  · rfl

/-- What `autumn_sqlite3_close` does with a valid handle. -/
theorem autumn_sqlite3_close_valid (w : FfiDemoSqlite.World) (h rc : Int)
    (hv : get_db w.db_handles h ≠ NULL) :
    autumn_sqlite3_close w h rc
      = (rc, { db_handles := Function.update w.db_handles h.toNat NULL,
               utf8_buffer := w.utf8_buffer,
               trace := w.trace ++ [FfiDemoSqlite.Call.sqlite3_close (w.db_handles h.toNat)] }) := by
  obtain ⟨h0, h1, _⟩ := (get_db_ne_null_iff _ _).mp hv
  have hr : 0 ≤ h ∧ h < (MAX_HANDLES : Int) := ⟨h0, h1⟩
  have hg : get_db w.db_handles h = w.db_handles h.toNat := by simp [get_db, hr]
  have hv2 : ¬ w.db_handles h.toNat = NULL := by rw [← hg]; exact hv
  simp [autumn_sqlite3_close, hg, hv2, remove_db, hr]

/-- What `autumn_mysql_close` does with a valid handle. -/
theorem autumn_mysql_close_valid (w : MysqlDemo.World) (h : Int)
    (hv : get_mysql w.mysql_handles h ≠ NULL) :
    autumn_mysql_close w h
      = (0, { mysql_handles := Function.update w.mysql_handles h.toNat NULL,
              static_buffer := w.static_buffer,
              trace := w.trace ++ [MysqlDemo.Call.mysql_close (w.mysql_handles h.toNat)] }) := by
  obtain ⟨h0, h1, _⟩ := (get_db_ne_null_iff _ _).mp hv
  have hr : 0 ≤ h ∧ h < (MAX_HANDLES : Int) := ⟨h0, h1⟩
  have hg : get_mysql w.mysql_handles h = w.mysql_handles h.toNat := by simp [get_mysql, hr]
  have hv2 : ¬ w.mysql_handles h.toNat = NULL := by rw [← hg]; exact hv
  simp [autumn_mysql_close, hg, hv2, remove_mysql, hr]

/-- A slot that has just been cleared looks up to the null pointer. -/
theorem get_db_update_null (t : HandleTable) (h : Int) :
    get_db (Function.update t h.toNat NULL) h = NULL :=
  get_db_invalid _ _ (Or.inr (Or.inr (Function.update_same _ _ _)))

/-- C5: for a valid handle `h` and any value `rc` returned by `sqlite3_close`,
after `autumn_sqlite3_close` the slot of `h` is empty, every other slot is as it
was, and a lookup of `h` gives the null pointer, so that every operation rejects
`h`; the same holds for `autumn_mysql_close`.  `remove_db` and `remove_mysql` on
a handle that is out of range or whose slot is already empty change nothing. -/
theorem C5_close_empties_the_slot :
    (∀ (w : FfiDemoSqlite.World) (h : Int) (rc : Int), get_db w.db_handles h ≠ NULL →
      (autumn_sqlite3_close w h rc).2.db_handles h.toNat = NULL
        ∧ (∀ k, k ≠ h.toNat →
            (autumn_sqlite3_close w h rc).2.db_handles k = w.db_handles k)
        ∧ get_db (autumn_sqlite3_close w h rc).2.db_handles h = NULL)
    ∧ (∀ (w : MysqlDemo.World) (h : Int), get_mysql w.mysql_handles h ≠ NULL →
      (autumn_mysql_close w h).2.mysql_handles h.toNat = NULL
        ∧ (∀ k, k ≠ h.toNat →
            (autumn_mysql_close w h).2.mysql_handles k = w.mysql_handles k)
        ∧ get_mysql (autumn_mysql_close w h).2.mysql_handles h = NULL)
    ∧ (∀ (t : HandleTable) (h : Int), (h < 0 ∨ 100 ≤ h ∨ t h.toNat = NULL) →
        remove_db t h = t ∧ remove_mysql t h = t) := by
  refine ⟨fun w h rc hv => ?_, fun w h hv => ?_, fun t h hbad =>
    ⟨remove_db_invalid t h hbad, remove_db_invalid t h hbad⟩⟩
  · rw [autumn_sqlite3_close_valid w h rc hv]
    exact ⟨Function.update_same _ _ _, fun k hk => Function.update_noteq hk _ _,
      get_db_update_null _ _⟩
  · rw [autumn_mysql_close_valid w h hv]
    exact ⟨Function.update_same _ _ _, fun k hk => Function.update_noteq hk _ _,
      get_db_update_null _ _⟩

/-- C5 at concrete inputs: handle 0 after one open, with the native close
reporting the error code 5; and `remove_db` on the handles -1, 100 and 7 of the
empty table. -/
theorem C5_close_empties_the_slot_witness :
    ((autumn_sqlite3_close (autumn_sqlite3_open FfiDemoSqlite.World.init (some [0x61]) 0 5).2 0 5).2.db_handles
          (0 : Int).toNat = NULL
      ∧ (∀ k, k ≠ (0 : Int).toNat →
          (autumn_sqlite3_close (autumn_sqlite3_open FfiDemoSqlite.World.init (some [0x61]) 0 5).2 0 5).2.db_handles k
            = (autumn_sqlite3_open FfiDemoSqlite.World.init (some [0x61]) 0 5).2.db_handles k)
      ∧ get_db
          (autumn_sqlite3_close (autumn_sqlite3_open FfiDemoSqlite.World.init (some [0x61]) 0 5).2 0 5).2.db_handles
          0 = NULL)
    ∧ ((autumn_mysql_close (autumn_mysql_connect MysqlDemo.World.init (some [0x68]) 3306
          (some [0x75]) (some [0x70]) (some [0x64]) ⟨5, 5, zeroBuf, zeroBuf, zeroBuf, zeroBuf⟩).2
          0).2.mysql_handles (0 : Int).toNat = NULL
      ∧ (∀ k, k ≠ (0 : Int).toNat →
          (autumn_mysql_close (autumn_mysql_connect MysqlDemo.World.init (some [0x68]) 3306
            (some [0x75]) (some [0x70]) (some [0x64]) ⟨5, 5, zeroBuf, zeroBuf, zeroBuf, zeroBuf⟩).2
            0).2.mysql_handles k
          = (autumn_mysql_connect MysqlDemo.World.init (some [0x68]) 3306
            (some [0x75]) (some [0x70]) (some [0x64])
            ⟨5, 5, zeroBuf, zeroBuf, zeroBuf, zeroBuf⟩).2.mysql_handles k)
      ∧ get_mysql (autumn_mysql_close (autumn_mysql_connect MysqlDemo.World.init (some [0x68]) 3306
          (some [0x75]) (some [0x70]) (some [0x64]) ⟨5, 5, zeroBuf, zeroBuf, zeroBuf, zeroBuf⟩).2
          0).2.mysql_handles 0 = NULL)
    ∧ (remove_db emptyTable (-1) = emptyTable ∧ remove_mysql emptyTable (-1) = emptyTable)
    ∧ (remove_db emptyTable 100 = emptyTable ∧ remove_mysql emptyTable 100 = emptyTable)
    ∧ (remove_db emptyTable 7 = emptyTable ∧ remove_mysql emptyTable 7 = emptyTable) :=
  ⟨C5_close_empties_the_slot.1 (autumn_sqlite3_open FfiDemoSqlite.World.init (some [0x61]) 0 5).2
      0 5 (by decide),
   C5_close_empties_the_slot.2.1 (autumn_mysql_connect MysqlDemo.World.init (some [0x68]) 3306
      (some [0x75]) (some [0x70]) (some [0x64]) ⟨5, 5, zeroBuf, zeroBuf, zeroBuf, zeroBuf⟩).2
      0 (by decide),
   C5_close_empties_the_slot.2.2 emptyTable (-1) (Or.inl (by decide)),
   C5_close_empties_the_slot.2.2 emptyTable 100 (Or.inr (Or.inl (by decide))),
   C5_close_empties_the_slot.2.2 emptyTable 7 (Or.inr (Or.inr rfl))⟩

/-- The claim C4 fails on the code: after one open and one close of handle 0, a
second close of handle 0 returns -1, not the success value 0, in
`src/ffi-demo/sqlite_wrapper.c`, in `src/mysql-demo/mysql_wrapper.c` and in
`database_ffi.c`. -/
theorem C4_second_close_returns_minus_one :
    (get_db (autumn_sqlite3_open FfiDemoSqlite.World.init (some [0x61]) 0 5).2.db_handles 0 ≠ NULL
      ∧ (autumn_sqlite3_close (autumn_sqlite3_open FfiDemoSqlite.World.init (some [0x61]) 0 5).2 0 0).1 = 0
      ∧ (autumn_sqlite3_close
          (autumn_sqlite3_close (autumn_sqlite3_open FfiDemoSqlite.World.init (some [0x61]) 0 5).2 0 0).2
          0 0).1 = -1)
    ∧ (autumn_mysql_close
        (autumn_mysql_close (autumn_mysql_connect MysqlDemo.World.init (some [0x68]) 3306
          (some [0x75]) (some [0x70]) (some [0x64]) ⟨5, 5, zeroBuf, zeroBuf, zeroBuf, zeroBuf⟩).2
          0).2 0).1 = -1
    ∧ (DatabaseFfi.autumn_sqlite3_close
        (DatabaseFfi.autumn_sqlite3_close
          (DatabaseFfi.autumn_sqlite3_open DatabaseFfi.World.init [0x61] 0 5).2 0).2 0).1 = -1 := by
  refine ⟨⟨by decide, by decide, by decide⟩, by decide, by decide⟩

/-- C4, amended: for every valid handle `h`, a second `close(h)` right after the
first one changes nothing (no native call, the handle table as it was) and
returns the invalid-handle value -1; this holds for `autumn_sqlite3_close` of
`src/ffi-demo/sqlite_wrapper.c` whatever the native close returned, for
`autumn_mysql_close`, and for `autumn_sqlite3_close` of `database_ffi.c`. -/
theorem C4_second_close_is_rejected_noop :
    (∀ (w : FfiDemoSqlite.World) (h rc rc2 : Int), get_db w.db_handles h ≠ NULL →
      autumn_sqlite3_close (autumn_sqlite3_close w h rc).2 h rc2
        = (-1, (autumn_sqlite3_close w h rc).2))
    ∧ (∀ (w : MysqlDemo.World) (h : Int), get_mysql w.mysql_handles h ≠ NULL →
      autumn_mysql_close (autumn_mysql_close w h).2 h = (-1, (autumn_mysql_close w h).2))
    ∧ (∀ (w : DatabaseFfi.World) (h : Int),
      ¬ (h < 0 ∨ h ≥ (DatabaseFfi.MAX_CONNECTIONS : Int) ∨ w.sqlite_connections h.toNat = NULL) →
      DatabaseFfi.autumn_sqlite3_close (DatabaseFfi.autumn_sqlite3_close w h).2 h
        = (-1, (DatabaseFfi.autumn_sqlite3_close w h).2)) := by
  refine ⟨fun w h rc rc2 hv => ?_, fun w h hv => ?_, fun w h hv => ?_⟩
  · rw [autumn_sqlite3_close_valid w h rc hv]
    simp [autumn_sqlite3_close, get_db_update_null]
  · rw [autumn_mysql_close_valid w h hv]
    have hn : get_mysql (Function.update w.mysql_handles h.toNat NULL) h = NULL :=
      get_db_update_null _ _
    simp [autumn_mysql_close, hn]
  · have h1 : DatabaseFfi.autumn_sqlite3_close w h
        = (0, { sqlite_connections := Function.update w.sqlite_connections h.toNat NULL,
                trace := w.trace
                  ++ [DatabaseFfi.Call.sqlite3_close (w.sqlite_connections h.toNat)] }) := by
      unfold DatabaseFfi.autumn_sqlite3_close
      rw [if_neg hv]
    rw [h1]
    unfold DatabaseFfi.autumn_sqlite3_close
    rw [if_pos (Or.inr (Or.inr (Function.update_same _ _ _)))]

/-- The amended C4 at concrete inputs: handle 0 after one open. -/
theorem C4_second_close_is_rejected_noop_witness :
    autumn_sqlite3_close
        (autumn_sqlite3_close (autumn_sqlite3_open FfiDemoSqlite.World.init (some [0x61]) 0 5).2 0 0).2
        0 0
      = (-1, (autumn_sqlite3_close
          (autumn_sqlite3_open FfiDemoSqlite.World.init (some [0x61]) 0 5).2 0 0).2)
    ∧ autumn_mysql_close
        (autumn_mysql_close (autumn_mysql_connect MysqlDemo.World.init (some [0x68]) 3306
          (some [0x75]) (some [0x70]) (some [0x64]) ⟨5, 5, zeroBuf, zeroBuf, zeroBuf, zeroBuf⟩).2
          0).2 0
      = (-1, (autumn_mysql_close (autumn_mysql_connect MysqlDemo.World.init (some [0x68]) 3306
          (some [0x75]) (some [0x70]) (some [0x64]) ⟨5, 5, zeroBuf, zeroBuf, zeroBuf, zeroBuf⟩).2
          0).2)
    ∧ DatabaseFfi.autumn_sqlite3_close
        (DatabaseFfi.autumn_sqlite3_close
          (DatabaseFfi.autumn_sqlite3_open DatabaseFfi.World.init [0x61] 0 5).2 0).2 0
      = (-1, (DatabaseFfi.autumn_sqlite3_close
          (DatabaseFfi.autumn_sqlite3_open DatabaseFfi.World.init [0x61] 0 5).2 0).2) :=
  ⟨C4_second_close_is_rejected_noop.1
      (autumn_sqlite3_open FfiDemoSqlite.World.init (some [0x61]) 0 5).2 0 0 0 (by decide),
   C4_second_close_is_rejected_noop.2.1
      (autumn_mysql_connect MysqlDemo.World.init (some [0x68]) 3306 (some [0x75]) (some [0x70])
        (some [0x64]) ⟨5, 5, zeroBuf, zeroBuf, zeroBuf, zeroBuf⟩).2 0 (by decide),
   C4_second_close_is_rejected_noop.2.2
      (DatabaseFfi.autumn_sqlite3_open DatabaseFfi.World.init [0x61] 0 5).2 0 (by decide)⟩

/-! ### Stores that succeed -/

/-- A scan that returns a non-negative value has filled the slot it returns. -/
theorem store_scan_success (t : HandleTable) (p : Ptr) :
    ∀ (n i : Nat), 0 ≤ (store_scan t p n i).1 →
      ∃ k, i ≤ k ∧ k < i + n ∧ t k = NULL
        ∧ store_scan t p n i = ((k : Int), Function.update t k p) := by
  intro n
  induction n with
  | zero => intro i h; simp [store_scan] at h
  | succ n ih =>
    intro i h
    by_cases hi : t i = NULL
    · exact ⟨i, le_refl i, by omega, hi, by simp [store_scan, hi]⟩
    · simp only [store_scan, hi, if_false] at h ⊢
      obtain ⟨k, h1, h2, h3, h4⟩ := ih (i + 1) h
      exact ⟨k, by omega, by omega, h3, h4⟩

/-- A store that returns a non-negative handle has put the connection into the
slot of that handle, and the connection is not null. -/
theorem store_db_success (t : HandleTable) (db : Ptr) (h : 0 ≤ (store_db t db).1) :
    db ≠ NULL ∧ ∃ k, k < MAX_HANDLES ∧ t k = NULL
      ∧ store_db t db = ((k : Int), Function.update t k db) := by
  by_cases hdb : db = NULL
  · simp [store_db, hdb] at h
  · refine ⟨hdb, ?_⟩
    simp only [store_db, hdb, if_false] at h ⊢
    obtain ⟨k, _, h2, h3, h4⟩ := store_scan_success t db MAX_HANDLES 0 h
    exact ⟨k, by omega, h3, h4⟩

/-- After a store that succeeds, the handle returned looks up to the connection. -/
theorem get_db_store_db (t : HandleTable) (db : Ptr) (h : 0 ≤ (store_db t db).1) :
    get_db (store_db t db).2 (store_db t db).1 = db := by
  obtain ⟨_, k, hk, _, heq⟩ := store_db_success t db h
  rw [heq]
  have hr : (0 : Int) ≤ (k : Int) ∧ (k : Int) < (MAX_HANDLES : Int) := by
    constructor
    · exact Int.natCast_nonneg k
    · exact_mod_cast hk
  simp [get_db, hr]

/-- An `autumn_sqlite3_open` that returns a non-negative handle has stored the
connection handed out by the native open under that handle. -/
theorem autumn_sqlite3_open_success (w : FfiDemoSqlite.World) (f : MString) (rc : Int) (db : Ptr)
    (h : 0 ≤ (autumn_sqlite3_open w f rc db).1) :
    db ≠ NULL ∧ get_db (autumn_sqlite3_open w f rc db).2.db_handles
      (autumn_sqlite3_open w f rc db).1 = db := by
  by_cases hrc : rc = SQLITE_OK
  · have h2 : 0 ≤ (store_db w.db_handles db).1 := by
      simpa [autumn_sqlite3_open, hrc] using h
    refine ⟨(store_db_success _ _ h2).1, ?_⟩
    simpa [autumn_sqlite3_open, hrc] using get_db_store_db w.db_handles db h2
  · by_cases hdb : db = NULL <;> simp [autumn_sqlite3_open, hrc, hdb] at h

/-! ### Operations on a valid handle -/

/-- The loop over the rows only adds calls to the trace. -/
theorem query_loop_trace_mono (stmt : Ptr) (names : List (Option (List Nat))) :
    ∀ (rows : List (List (Option (List Nat)))) (k : Nat) (acc : List (List Nat))
      (tr : List FfiDemoSqlite.Call) (c : FfiDemoSqlite.Call),
      c ∈ tr → c ∈ (FfiDemoSqlite.query_loop stmt names rows k acc tr).2 := by
  intro rows
  induction rows with
  | nil => intro k acc tr c hc; simp [FfiDemoSqlite.query_loop, hc]
  | cons row rest ih =>
    intro k acc tr c hc
    unfold FfiDemoSqlite.query_loop
    split_ifs
    · exact ih _ _ _ c (by simp [hc])
    · simp [hc]

/-- With a valid handle, `autumn_sqlite3_exec` passes the connection of the slot
to `sqlite3_exec` and returns what `sqlite3_exec` returns. -/
theorem autumn_sqlite3_exec_valid (w : FfiDemoSqlite.World) (h : Int) (sql : MString) (rc : Int)
    (em : Ptr) (hv : get_db w.db_handles h ≠ NULL) :
    (autumn_sqlite3_exec w h sql rc em).1 = rc
      ∧ FfiDemoSqlite.Call.sqlite3_exec (get_db w.db_handles h) (encode w.utf8_buffer sql)
          ∈ (autumn_sqlite3_exec w h sql rc em).2.trace := by
  unfold autumn_sqlite3_exec
  simp only [hv, if_false, encode]
  refine ⟨trivial, ?_⟩
  split_ifs <;> simp

/-- With a valid handle, `autumn_sqlite3_query` passes the connection of the slot
to `sqlite3_prepare_v2`. -/
theorem autumn_sqlite3_query_valid (w : FfiDemoSqlite.World) (h : Int) (sql : MString)
    (params : List MString) (a : FfiDemoSqlite.QueryAnswers)
    (hv : get_db w.db_handles h ≠ NULL) :
    FfiDemoSqlite.Call.sqlite3_prepare_v2 (get_db w.db_handles h) (encode w.utf8_buffer sql)
      ∈ (autumn_sqlite3_query w h sql params a).2.trace := by
  unfold autumn_sqlite3_query
  simp only [hv, if_false, encode]
  split_ifs
  · simp
  · simp
  all_goals
    simp only [List.mem_append, List.mem_singleton]
    left
    exact query_loop_trace_mono _ _ _ _ _ _ _ (by simp)

/-- With a valid handle, `autumn_sqlite3_errmsg` passes the connection of the
slot to `sqlite3_errmsg` and returns the widened message. -/
theorem autumn_sqlite3_errmsg_valid (w : FfiDemoSqlite.World) (h : Int) (msg : Option (List Nat))
    (hv : get_db w.db_handles h ≠ NULL) :
    autumn_sqlite3_errmsg w h msg
      = (errmsg_to_string msg,
          { db_handles := w.db_handles, utf8_buffer := w.utf8_buffer,
            trace := w.trace ++ [FfiDemoSqlite.Call.sqlite3_errmsg (get_db w.db_handles h)] }) := by
  simp [autumn_sqlite3_errmsg, hv]

/-- The claim C6 fails on the code.  The first open hands out connection 5 under
handle 0, handle 0 is closed, the second open hands out connection 6 under
handle 0 again.  An `exec` with the old handle value 0 is not rejected: it
returns the native result 0, not -1, and `sqlite3_exec` is called on
connection 6, the connection of the second open. -/
theorem C6_stale_handle_is_accepted :
    (autumn_sqlite3_open FfiDemoSqlite.World.init (some [0x61]) 0 5).1 = 0
    ∧ (autumn_sqlite3_open
        (autumn_sqlite3_close (autumn_sqlite3_open FfiDemoSqlite.World.init (some [0x61]) 0 5).2
          0 0).2 (some [0x62]) 0 6).1 = 0
    ∧ (autumn_sqlite3_exec
        (autumn_sqlite3_open
          (autumn_sqlite3_close (autumn_sqlite3_open FfiDemoSqlite.World.init (some [0x61]) 0 5).2
            0 0).2 (some [0x62]) 0 6).2 0 (some [0x63]) 0 0).1 ≠ -1
    ∧ FfiDemoSqlite.Call.sqlite3_exec 6
        (encode (autumn_sqlite3_open
          (autumn_sqlite3_close (autumn_sqlite3_open FfiDemoSqlite.World.init (some [0x61]) 0 5).2
            0 0).2 (some [0x62]) 0 6).2.utf8_buffer (some [0x63]))
      ∈ (autumn_sqlite3_exec
        (autumn_sqlite3_open
          (autumn_sqlite3_close (autumn_sqlite3_open FfiDemoSqlite.World.init (some [0x61]) 0 5).2
            0 0).2 (some [0x62]) 0 6).2 0 (some [0x63]) 0 0).2.trace := by
  refine ⟨by decide, by decide, by decide, ?_⟩
  exact (autumn_sqlite3_exec_valid
    (autumn_sqlite3_open
      (autumn_sqlite3_close (autumn_sqlite3_open FfiDemoSqlite.World.init (some [0x61]) 0 5).2
        0 0).2 (some [0x62]) 0 6).2 0 (some [0x63]) 0 0 (by decide)).2

/-- C6, amended: in every sequence open -> `h`, close(`h`), open -> `h'` in which
the second open returns the same integer `h' = h`, an operation issued with the
old handle value `h` is not rejected as an invalid handle.  The lookup of `h`
gives the connection `db2` created by the second open, and `exec`, `query`,
`errmsg` and `close` pass `db2` to the native library: `exec` returns what
`sqlite3_exec` returns, `close` what `sqlite3_close` returns. -/
theorem C6_stale_handle_reaches_new_connection (w : FfiDemoSqlite.World) (f1 f2 : MString)
    (rc1 rc2 rcc : Int) (db1 db2 : Ptr)
    (hopen : 0 ≤ (autumn_sqlite3_open w f1 rc1 db1).1)
    (hsame : (autumn_sqlite3_open
        (autumn_sqlite3_close (autumn_sqlite3_open w f1 rc1 db1).2
          (autumn_sqlite3_open w f1 rc1 db1).1 rcc).2 f2 rc2 db2).1
      = (autumn_sqlite3_open w f1 rc1 db1).1)
    (sql : MString) (params : List MString) (rc : Int) (em : Ptr)
    (a : FfiDemoSqlite.QueryAnswers) (msg : Option (List Nat)) :
    db2 ≠ NULL
    ∧ get_db (autumn_sqlite3_open
        (autumn_sqlite3_close (autumn_sqlite3_open w f1 rc1 db1).2
          (autumn_sqlite3_open w f1 rc1 db1).1 rcc).2 f2 rc2 db2).2.db_handles
        (autumn_sqlite3_open w f1 rc1 db1).1 = db2
    ∧ (autumn_sqlite3_exec (autumn_sqlite3_open
        (autumn_sqlite3_close (autumn_sqlite3_open w f1 rc1 db1).2
          (autumn_sqlite3_open w f1 rc1 db1).1 rcc).2 f2 rc2 db2).2
        (autumn_sqlite3_open w f1 rc1 db1).1 sql rc em).1 = rc
    ∧ FfiDemoSqlite.Call.sqlite3_exec db2
        (encode (autumn_sqlite3_open
          (autumn_sqlite3_close (autumn_sqlite3_open w f1 rc1 db1).2
            (autumn_sqlite3_open w f1 rc1 db1).1 rcc).2 f2 rc2 db2).2.utf8_buffer sql)
      ∈ (autumn_sqlite3_exec (autumn_sqlite3_open
        (autumn_sqlite3_close (autumn_sqlite3_open w f1 rc1 db1).2
          (autumn_sqlite3_open w f1 rc1 db1).1 rcc).2 f2 rc2 db2).2
        (autumn_sqlite3_open w f1 rc1 db1).1 sql rc em).2.trace
    ∧ FfiDemoSqlite.Call.sqlite3_prepare_v2 db2
        (encode (autumn_sqlite3_open
          (autumn_sqlite3_close (autumn_sqlite3_open w f1 rc1 db1).2
            (autumn_sqlite3_open w f1 rc1 db1).1 rcc).2 f2 rc2 db2).2.utf8_buffer sql)
      ∈ (autumn_sqlite3_query (autumn_sqlite3_open
        (autumn_sqlite3_close (autumn_sqlite3_open w f1 rc1 db1).2
          (autumn_sqlite3_open w f1 rc1 db1).1 rcc).2 f2 rc2 db2).2
        (autumn_sqlite3_open w f1 rc1 db1).1 sql params a).2.trace
    ∧ FfiDemoSqlite.Call.sqlite3_errmsg db2
      ∈ (autumn_sqlite3_errmsg (autumn_sqlite3_open
        (autumn_sqlite3_close (autumn_sqlite3_open w f1 rc1 db1).2
          (autumn_sqlite3_open w f1 rc1 db1).1 rcc).2 f2 rc2 db2).2
        (autumn_sqlite3_open w f1 rc1 db1).1 msg).2.trace
    ∧ (autumn_sqlite3_close (autumn_sqlite3_open
        (autumn_sqlite3_close (autumn_sqlite3_open w f1 rc1 db1).2
          (autumn_sqlite3_open w f1 rc1 db1).1 rcc).2 f2 rc2 db2).2
        (autumn_sqlite3_open w f1 rc1 db1).1 rc).1 = rc
    ∧ FfiDemoSqlite.Call.sqlite3_close db2
      ∈ (autumn_sqlite3_close (autumn_sqlite3_open
        (autumn_sqlite3_close (autumn_sqlite3_open w f1 rc1 db1).2
          (autumn_sqlite3_open w f1 rc1 db1).1 rcc).2 f2 rc2 db2).2
        (autumn_sqlite3_open w f1 rc1 db1).1 rc).2.trace := by
  generalize hw2 : (autumn_sqlite3_close (autumn_sqlite3_open w f1 rc1 db1).2
    (autumn_sqlite3_open w f1 rc1 db1).1 rcc).2 = w2 at hsame ⊢
  generalize hh : (autumn_sqlite3_open w f1 rc1 db1).1 = h at hopen hsame ⊢
  have hopen2 : 0 ≤ (autumn_sqlite3_open w2 f2 rc2 db2).1 := by rw [hsame]; exact hopen
  obtain ⟨hnn, hget⟩ := autumn_sqlite3_open_success w2 f2 rc2 db2 hopen2
  rw [hsame] at hget
  generalize autumn_sqlite3_open w2 f2 rc2 db2 = o2 at hget ⊢
  have hv : get_db o2.2.db_handles h ≠ NULL := by rw [hget]; exact hnn
  have hex := autumn_sqlite3_exec_valid o2.2 h sql rc em hv
  have hq := autumn_sqlite3_query_valid o2.2 h sql params a hv
  have herr := autumn_sqlite3_errmsg_valid o2.2 h msg hv
  have hcl := autumn_sqlite3_close_valid o2.2 h rc hv
  have hslot : o2.2.db_handles h.toNat = db2 := by
    have := (get_db_ne_null_iff _ _).mp hv
    have hr : 0 ≤ h ∧ h < (MAX_HANDLES : Int) := ⟨this.1, this.2.1⟩
    simpa [get_db, hr] using hget
  rw [hget] at hex hq herr
  refine ⟨hnn, hget, hex.1, hex.2, hq, ?_, ?_, ?_⟩
  · rw [herr]; simp
  · rw [hcl]
  · rw [hcl, hslot]; simp

/-- The amended C6 at concrete inputs: connections 5 and 6, both under handle 0. -/
theorem C6_stale_handle_reaches_new_connection_witness :
    get_db (autumn_sqlite3_open
        (autumn_sqlite3_close (autumn_sqlite3_open FfiDemoSqlite.World.init (some [0x61]) 0 5).2
          (autumn_sqlite3_open FfiDemoSqlite.World.init (some [0x61]) 0 5).1 0).2
        (some [0x62]) 0 6).2.db_handles
        (autumn_sqlite3_open FfiDemoSqlite.World.init (some [0x61]) 0 5).1 = 6 :=
  (C6_stale_handle_reaches_new_connection FfiDemoSqlite.World.init (some [0x61]) (some [0x62])
    0 0 0 5 6 (by decide) (by decide) (some [0x63]) [] 0 0 ⟨0, 0, [], [], true⟩ none).2.1

/-- C7 fails on the code, at three inputs.
(1) `src/ffi-demo/sqlite_wrapper.c`: all 100 slots are occupied (slot `i` holds
connection `i + 1`) and `sqlite3_open` succeeds with the new connection 1000;
`autumn_sqlite3_open` returns -1 and its only native call is the open:
connection 1000 is never passed to `sqlite3_close`.
(2) `src/mysql-demo/mysql_wrapper.c`: the same with `mysql_init` and
`mysql_real_connect` succeeding; connection 1000 is never passed to
`mysql_close`.
(3) `database_ffi.c`: `sqlite3_open` fails with code 14 and leaves the partially
constructed connection 1000; `autumn_sqlite3_open` returns -1 and never passes
it to `sqlite3_close`. -/
theorem C7_failed_open_keeps_connection_open :
    ((autumn_sqlite3_open
        { db_handles := fun i => i + 1, utf8_buffer := zeroBuf, trace := [] }
        (some [0x61]) SQLITE_OK 1000).1 = -1
      ∧ FfiDemoSqlite.Call.sqlite3_close 1000 ∉
        (autumn_sqlite3_open
          { db_handles := fun i => i + 1, utf8_buffer := zeroBuf, trace := [] }
          (some [0x61]) SQLITE_OK 1000).2.trace)
    ∧ ((autumn_mysql_connect
        { mysql_handles := fun i => i + 1, static_buffer := zeroBuf, trace := [] }
        (some [0x68]) 3306 (some [0x75]) (some [0x70]) (some [0x64])
        ⟨1000, 1000, zeroBuf, zeroBuf, zeroBuf, zeroBuf⟩).1 = -1
      ∧ MysqlDemo.Call.mysql_close 1000 ∉
        (autumn_mysql_connect
          { mysql_handles := fun i => i + 1, static_buffer := zeroBuf, trace := [] }
          (some [0x68]) 3306 (some [0x75]) (some [0x70]) (some [0x64])
          ⟨1000, 1000, zeroBuf, zeroBuf, zeroBuf, zeroBuf⟩).2.trace)
    ∧ ((DatabaseFfi.autumn_sqlite3_open DatabaseFfi.World.init [0x61] 14 1000).1 = -1
      ∧ DatabaseFfi.Call.sqlite3_close 1000 ∉
        (DatabaseFfi.autumn_sqlite3_open DatabaseFfi.World.init [0x61] 14 1000).2.trace) := by
  refine ⟨⟨by decide, ?_⟩, ⟨by decide, ?_⟩, ⟨by decide, ?_⟩⟩
  · simp [autumn_sqlite3_open, SQLITE_OK]
  · simp [autumn_mysql_connect, NULL]
  · simp [DatabaseFfi.autumn_sqlite3_open, SQLITE_OK, DatabaseFfi.World.init]

/-! ### The registry invariant -/

/-- The live connections after more calls. -/
theorem live_append (tr cs : List FfiDemoSqlite.Call) :
    live (tr ++ cs) = cs.foldl live_step (live tr) := by
  simp [live, List.foldl_append]

/-- The live connections after one more call. -/
theorem live_snoc (tr : List FfiDemoSqlite.Call) (c : FfiDemoSqlite.Call) :
    live (tr ++ [c]) = live_step (live tr) c := by
  simp [live_append]

/-- Calls other than open and close leave the live connections as they are. -/
theorem foldl_live_step_neutral (cs : List FfiDemoSqlite.Call)
    (hcs : ∀ c ∈ cs, ∀ l, live_step l c = l) (l : List Ptr) : cs.foldl live_step l = l := by
  induction cs generalizing l with
  | nil => rfl
  | cons c cs ih =>
    simp only [List.foldl_cons, hcs c (List.mem_cons_self _ _)]
    exact ih (fun d hd => hcs d (List.mem_cons_of_mem _ hd)) l

/-- The column accessors of one row leave the live connections as they are. -/
theorem live_row_calls (tr : List FfiDemoSqlite.Call) (stmt : Ptr)
    (names values : List (Option (List Nat))) :
    live (tr ++ row_calls stmt names values) = live tr := by
  rw [live_append]
  apply foldl_live_step_neutral
  intro c hc l
  simp only [row_calls, List.mem_flatMap, List.mem_range] at hc
  obtain ⟨i, _, hi⟩ := hc
  simp only [List.mem_cons, List.mem_singleton, List.not_mem_nil, or_false] at hi
  rcases hi with rfl | rfl <;> rfl

/-- The loop over the rows leaves the live connections as they are. -/
theorem live_query_loop (stmt : Ptr) (names : List (Option (List Nat))) :
    ∀ (rows : List (List (Option (List Nat)))) (k : Nat) (acc : List (List Nat))
      (tr : List FfiDemoSqlite.Call),
      live (FfiDemoSqlite.query_loop stmt names rows k acc tr).2 = live tr := by
  intro rows
  induction rows with
  | nil => intro k acc tr; simp [FfiDemoSqlite.query_loop, live_snoc, live_step]
  | cons row rest ih =>
    intro k acc tr
    unfold FfiDemoSqlite.query_loop
    split_ifs
    · rw [ih, live_row_calls, live_snoc]; rfl
    · simp [live_snoc, live_step]

/-- No live connection is the null pointer. -/
theorem live_ne_null (tr : List FfiDemoSqlite.Call) : ∀ p ∈ live tr, p ≠ NULL := by
  induction tr using List.reverseRecOn with
  | nil => intro p hp; simp [live] at hp
  | append_singleton tr c ih =>
    intro p hp
    rw [live_snoc] at hp
    cases c with
    | sqlite3_open f rc db =>
      simp only [live_step] at hp
      split_ifs at hp with hc
      · rcases List.mem_cons.mp hp with h | h
        · rw [h]; exact hc.2
        · exact ih p h
      · exact ih p hp
    | sqlite3_close db =>
      simp only [live_step] at hp
      exact ih p (List.mem_filter.mp hp).1
    | _ => exact ih p hp

/-- `autumn_sqlite3_exec` keeps the handle table and the live connections. -/
theorem autumn_sqlite3_exec_frame (w : FfiDemoSqlite.World) (h : Int) (sql : MString) (rc : Int)
    (em : Ptr) :
    (autumn_sqlite3_exec w h sql rc em).2.db_handles = w.db_handles
      ∧ live (autumn_sqlite3_exec w h sql rc em).2.trace = live w.trace := by
  unfold autumn_sqlite3_exec
  by_cases hv : get_db w.db_handles h = NULL
  · simp [hv]
  · simp only [hv, if_false, true_and]
    split_ifs <;> simp [live_snoc, live_step, live_append]

/-- `autumn_sqlite3_query` keeps the handle table and the live connections. -/
theorem autumn_sqlite3_query_frame (w : FfiDemoSqlite.World) (h : Int) (sql : MString)
    (params : List MString) (a : FfiDemoSqlite.QueryAnswers) :
    (autumn_sqlite3_query w h sql params a).2.db_handles = w.db_handles
      ∧ live (autumn_sqlite3_query w h sql params a).2.trace = live w.trace := by
  unfold autumn_sqlite3_query
  by_cases hv : get_db w.db_handles h = NULL
  · simp [hv]
  · simp only [hv, if_false]
    split_ifs <;> simp [live_append, live_step, live_query_loop]

/-- `autumn_sqlite3_errmsg` keeps the handle table and the live connections. -/
theorem autumn_sqlite3_errmsg_frame (w : FfiDemoSqlite.World) (h : Int)
    (msg : Option (List Nat)) :
    (autumn_sqlite3_errmsg w h msg).2.db_handles = w.db_handles
      ∧ live (autumn_sqlite3_errmsg w h msg).2.trace = live w.trace := by
  unfold autumn_sqlite3_errmsg
  by_cases hv : get_db w.db_handles h = NULL
  · simp [hv]
  · simp [hv, live_snoc, live_step]

/-- A store either fails and changes nothing, or fills an empty slot with a
non-null connection. -/
theorem store_scan_cases (t : HandleTable) (p : Ptr) :
    ∀ (n i : Nat), store_scan t p n i = (-1, t)
      ∨ ∃ k, t k = NULL ∧ store_scan t p n i = ((k : Int), Function.update t k p) := by
  intro n
  induction n with
  | zero => intro i; exact Or.inl rfl
  | succ n ih =>
    intro i
    by_cases hi : t i = NULL
    · exact Or.inr ⟨i, hi, by simp [store_scan, hi]⟩
    · simp only [store_scan, hi, if_false]
      exact ih (i + 1)

/-- The two outcomes of `store_db`. -/
theorem store_db_cases (t : HandleTable) (db : Ptr) :
    store_db t db = (-1, t)
      ∨ (db ≠ NULL ∧ ∃ k, t k = NULL ∧ store_db t db = ((k : Int), Function.update t k db)) := by
  by_cases hdb : db = NULL
  · left; simp [store_db, hdb]
  · simp only [store_db, hdb, if_false]
    rcases store_scan_cases t db MAX_HANDLES 0 with h | h
    · exact Or.inl h
    · exact Or.inr ⟨hdb, h⟩

/-- `autumn_sqlite3_open` keeps the invariant when the connection handed out by
the native open is fresh. -/
theorem registry_inv_open (w : FfiDemoSqlite.World) (f : MString) (rc : Int) (db : Ptr)
    (hinv : registry_inv w) (hfresh : db ∉ live w.trace) :
    registry_inv (autumn_sqlite3_open w f rc db).2 := by
  obtain ⟨h1, h2⟩ := hinv
  have hslot : ∀ i, i < MAX_HANDLES → w.db_handles i ≠ NULL → w.db_handles i ≠ db := by
    intro i hi hne heq
    exact hfresh (heq ▸ h1 i hi hne)
  unfold autumn_sqlite3_open
  by_cases hrc : rc = SQLITE_OK
  · simp only [hrc, ne_eq, not_true_eq_false, if_false]
    rcases store_db_cases w.db_handles db with hs | ⟨hdb, k, hk, hs⟩
    · rw [hs]
      refine ⟨fun i hi hne => ?_, h2⟩
      simp only [live_snoc, live_step]
      split_ifs
      · exact List.mem_cons_of_mem _ (h1 i hi hne)
      · exact h1 i hi hne
    · rw [hs]
      have hlive : live (w.trace ++ [FfiDemoSqlite.Call.sqlite3_open
          (deref (FfiDemoSqlite.get_c_string w.utf8_buffer f).1
            (FfiDemoSqlite.get_c_string w.utf8_buffer f).2) SQLITE_OK db])
          = db :: live w.trace := by
        simp [live_snoc, live_step, hdb]
      refine ⟨fun i hi hne => ?_, fun i j hi hj hne heq => ?_⟩
      · simp only [hlive]
        simp only at hne ⊢
        by_cases hik : i = k
        · subst hik; simp
        · rw [Function.update_noteq hik] at hne ⊢
          exact List.mem_cons_of_mem _ (h1 i hi hne)
      · simp only at hne heq
        by_cases hik : i = k
        · by_cases hjk : j = k
          · rw [hik, hjk]
          · exfalso
            subst hik
            rw [Function.update_same, Function.update_noteq hjk] at heq
            exact hslot j hj (by rw [← heq]; exact hdb) heq.symm
        · rw [Function.update_noteq hik] at hne heq
          by_cases hjk : j = k
          · exfalso
            subst hjk
            rw [Function.update_same] at heq
            exact hslot i hi hne heq
          · rw [Function.update_noteq hjk] at heq
            exact h2 i j hi hj hne heq
  · simp only [ne_eq, hrc, not_false_eq_true, if_true]
    by_cases hdb : db = NULL
    · simp only [hdb, not_true_eq_false, if_false]
      refine ⟨fun i hi hne => ?_, h2⟩
      simp only [live_snoc, live_step, hrc, false_and, if_false]
      exact h1 i hi hne
    · simp only [hdb, not_false_eq_true, if_true]
      refine ⟨fun i hi hne => ?_, h2⟩
      simp only [live_snoc, live_step, hrc, false_and, if_false]
      exact List.mem_filter.mpr ⟨h1 i hi hne, by simpa using hslot i hi hne⟩

/-- `autumn_sqlite3_close` keeps the invariant. -/
theorem registry_inv_close (w : FfiDemoSqlite.World) (h rc : Int) (hinv : registry_inv w) :
    registry_inv (autumn_sqlite3_close w h rc).2 := by
  by_cases hv : get_db w.db_handles h = NULL
  · simpa [autumn_sqlite3_close, hv] using hinv
  · obtain ⟨h1, h2⟩ := hinv
    obtain ⟨h0, hlt, hne0⟩ := (get_db_ne_null_iff _ _).mp hv
    have hn : h.toNat < MAX_HANDLES := by omega
    rw [autumn_sqlite3_close_valid w h rc hv]
    refine ⟨fun i hi hne => ?_, fun i j hi hj hne heq => ?_⟩
    · simp only at hne ⊢
      have hik : i ≠ h.toNat := by
        intro hik; rw [hik, Function.update_same] at hne; exact hne rfl
      rw [Function.update_noteq hik] at hne ⊢
      simp only [live_snoc, live_step]
      refine List.mem_filter.mpr ⟨h1 i hi hne, ?_⟩
      have : w.db_handles i ≠ w.db_handles h.toNat := fun he => hik (h2 i h.toNat hi hn hne he)
      simpa using this
    · simp only at hne heq
      have hik : i ≠ h.toNat := by
        intro hik; rw [hik, Function.update_same] at hne; exact hne rfl
      rw [Function.update_noteq hik] at hne heq
      have hjk : j ≠ h.toNat := by
        intro hjk; rw [hjk, Function.update_same] at heq; exact hne heq
      rw [Function.update_noteq hjk] at heq
      exact h2 i j hi hj hne heq

/-- Operations that keep the table and the live connections keep the invariant. -/
theorem registry_inv_frame (w w2 : FfiDemoSqlite.World) (hinv : registry_inv w)
    (hf : w2.db_handles = w.db_handles ∧ live w2.trace = live w.trace) : registry_inv w2 := by
  unfold registry_inv
  rw [hf.1, hf.2]
  exact hinv

/-- The invariant holds after every sequence of calls in which the native opens
hand out fresh connections. -/
theorem registry_inv_run :
    ∀ (ops : List FfiDemoSqlite.Op) (w : FfiDemoSqlite.World), registry_inv w → fresh_opens w ops →
      registry_inv (run w ops) := by
  intro ops
  induction ops with
  | nil => intro w hinv _; exact hinv
  | cons op ops ih =>
    intro w hinv hfresh
    cases op with
    | openDb f rc db =>
      exact ih _ (registry_inv_open w f rc db hinv hfresh.1) hfresh.2
    | exec h sql rc em =>
      exact ih _ (registry_inv_frame w _ hinv (autumn_sqlite3_exec_frame w h sql rc em)) hfresh
    | exec_prepared h sql params rc em =>
      exact ih _ (registry_inv_frame w _ hinv (autumn_sqlite3_exec_frame w h sql rc em)) hfresh
    | query h sql params a =>
      exact ih _ (registry_inv_frame w _ hinv (autumn_sqlite3_query_frame w h sql params a)) hfresh
    | close h rc =>
      exact ih _ (registry_inv_close w h rc hinv) hfresh
    | errmsg h msg =>
      exact ih _ (registry_inv_frame w _ hinv (autumn_sqlite3_errmsg_frame w h msg)) hfresh

/-- What `live` lists: the connections stored by an `sqlite3_open` of the trace
that returned `SQLITE_OK`, and not passed to `sqlite3_close` later in the trace. -/
theorem mem_live_iff (tr : List FfiDemoSqlite.Call) (p : Ptr) :
    p ∈ live tr ↔ ∃ pre f post, tr = pre ++ FfiDemoSqlite.Call.sqlite3_open f SQLITE_OK p :: post
      ∧ p ≠ NULL ∧ FfiDemoSqlite.Call.sqlite3_close p ∉ post := by
  induction tr using List.reverseRecOn with
  | nil =>
    constructor
    · intro hp; simp [live] at hp
    · rintro ⟨pre, f, post, h, _⟩
      exact absurd h (by simp)
  | append_singleton tr c ih =>
    rw [live_snoc]
    constructor
    · intro hp
      have hold : p ∈ live tr → c ≠ FfiDemoSqlite.Call.sqlite3_close p →
          ∃ pre f post, tr ++ [c] = pre ++ FfiDemoSqlite.Call.sqlite3_open f SQLITE_OK p :: post
            ∧ p ≠ NULL ∧ FfiDemoSqlite.Call.sqlite3_close p ∉ post := by
        intro hmem hc
        obtain ⟨pre, f, post, h1, h2, h3⟩ := ih.mp hmem
        refine ⟨pre, f, post ++ [c], by simp [h1], h2, ?_⟩
        simp only [List.mem_append, List.mem_singleton, not_or]
        exact ⟨h3, fun h => hc h.symm⟩
      cases c with
      | sqlite3_open f rc db =>
        simp only [live_step] at hp
        split_ifs at hp with hc
        · rcases List.mem_cons.mp hp with h | h
          · subst h
            exact ⟨tr, f, [], by rw [hc.1], hc.2, by simp⟩
          · exact hold h (by simp)
        · exact hold hp (by simp)
      | sqlite3_close db =>
        simp only [live_step] at hp
        have hp2 := List.mem_filter.mp hp
        exact hold hp2.1 (by
          intro h
          have hdb : db = p := by injection h
          have : p ≠ db := by simpa using hp2.2
          exact this hdb.symm)
      | _ => exact hold hp (by simp)
    · rintro ⟨pre, f, post, h1, h2, h3⟩
      rcases List.eq_nil_or_concat post with hpost | ⟨post2, c2, hpost⟩
      · subst hpost
        have h4 : tr ++ [c] = pre ++ [FfiDemoSqlite.Call.sqlite3_open f SQLITE_OK p] := h1
        obtain ⟨_, hc⟩ := List.append_inj' h4 rfl
        have hc2 : c = FfiDemoSqlite.Call.sqlite3_open f SQLITE_OK p := by simpa using hc
        subst hc2
        simp [live_step, h2]
      · subst hpost
        have h4 : tr ++ [c]
            = (pre ++ FfiDemoSqlite.Call.sqlite3_open f SQLITE_OK p :: post2) ++ [c2] := by
          rw [h1]; simp
        obtain ⟨htr, hc⟩ := List.append_inj' h4 rfl
        have hc2 : c = c2 := by simpa using hc
        subst hc2
        have h5 : FfiDemoSqlite.Call.sqlite3_close p ∉ post2 := by
          intro h; exact h3 (by simp [h])
        have h6 : c ≠ FfiDemoSqlite.Call.sqlite3_close p := by
          intro h; exact h3 (by simp [h])
        have hmem : p ∈ live tr := ih.mpr ⟨pre, f, post2, htr, h2, h5⟩
        cases c with
        | sqlite3_open f2 rc db =>
          simp only [live_step]
          split_ifs
          · exact List.mem_cons_of_mem _ hmem
          · exact hmem
        | sqlite3_close db =>
          simp only [live_step]
          refine List.mem_filter.mpr ⟨hmem, ?_⟩
          have : p ≠ db := by
            intro h; exact h6 (by rw [h])
          simpa using this
        | _ => exact hmem

/-! ### The registry invariant of the MySQL wrapper -/

/-- The live connections after one more call. -/
theorem mysql_live_snoc (tr : List MysqlDemo.Call) (c : MysqlDemo.Call) :
    mysql_live (tr ++ [c]) = mysql_live_step (mysql_live tr) c := by
  simp [mysql_live, List.foldl_append]

/-- The live connections after more calls. -/
theorem mysql_live_append (tr cs : List MysqlDemo.Call) :
    mysql_live (tr ++ cs) = cs.foldl mysql_live_step (mysql_live tr) := by
  simp [mysql_live, List.foldl_append]

/-- No live connection is the null pointer. -/
theorem mysql_live_ne_null (tr : List MysqlDemo.Call) : ∀ p ∈ mysql_live tr, p ≠ NULL := by
  induction tr using List.reverseRecOn with
  | nil => intro p hp; simp [mysql_live] at hp
  | append_singleton tr c ih =>
    intro p hp
    rw [mysql_live_snoc] at hp
    cases c with
    | mysql_real_connect m ho us pa da po res =>
      simp only [mysql_live_step] at hp
      split_ifs at hp with hc
      · rcases List.mem_cons.mp hp with h | h
        · rw [h]; exact hc.2
        · exact ih p h
      · exact ih p hp
    | mysql_close m =>
      simp only [mysql_live_step] at hp
      exact ih p (List.mem_filter.mp hp).1
    | _ => exact ih p hp

/-- The loop over the rows leaves the live connections as they are. -/
theorem mysql_live_query_loop (res : Ptr) (names : List (Option (List Nat))) :
    ∀ (rows : List (List (Option (List Nat)))) (k : Nat) (acc : List (List Nat))
      (tr : List MysqlDemo.Call),
      mysql_live (MysqlDemo.query_loop res names rows k acc tr).2 = mysql_live tr := by
  intro rows
  induction rows with
  | nil => intro k acc tr; simp [MysqlDemo.query_loop, mysql_live_snoc, mysql_live_step]
  | cons row rest ih =>
    intro k acc tr
    unfold MysqlDemo.query_loop
    split_ifs
    · rw [ih, mysql_live_snoc]; rfl
    · simp [mysql_live_snoc, mysql_live_step]

/-- `autumn_mysql_execute` keeps the handle table and the live connections. -/
theorem autumn_mysql_execute_frame (w : MysqlDemo.World) (h : Int) (sql : MString) (rc : Int) :
    (autumn_mysql_execute w h sql rc).2.mysql_handles = w.mysql_handles
      ∧ mysql_live (autumn_mysql_execute w h sql rc).2.trace = mysql_live w.trace := by
  unfold autumn_mysql_execute
  by_cases hv : get_mysql w.mysql_handles h = NULL
  · simp [hv]
  · simp [hv, mysql_live_snoc, mysql_live_step]

/-- `autumn_mysql_query` keeps the handle table and the live connections. -/
theorem autumn_mysql_query_frame (w : MysqlDemo.World) (h : Int) (sql : MString)
    (params : List MString) (a : MysqlDemo.QueryAnswers) :
    (autumn_mysql_query w h sql params a).2.mysql_handles = w.mysql_handles
      ∧ mysql_live (autumn_mysql_query w h sql params a).2.trace = mysql_live w.trace := by
  unfold autumn_mysql_query
  by_cases hv : get_mysql w.mysql_handles h = NULL
  · simp [hv]
  · simp only [hv, if_false]
    split_ifs <;> simp [mysql_live_append, mysql_live_step, mysql_live_query_loop]

/-- `autumn_mysql_errmsg` keeps the handle table and the live connections. -/
theorem autumn_mysql_errmsg_frame (w : MysqlDemo.World) (h : Int) (msg : Option (List Nat)) :
    (autumn_mysql_errmsg w h msg).2.mysql_handles = w.mysql_handles
      ∧ mysql_live (autumn_mysql_errmsg w h msg).2.trace = mysql_live w.trace := by
  unfold autumn_mysql_errmsg
  by_cases hv : get_mysql w.mysql_handles h = NULL
  · simp [hv]
  · simp [hv, mysql_live_snoc, mysql_live_step]

/-- `autumn_mysql_connect` keeps the invariant when the connection object handed
out by `mysql_init` is fresh. -/
theorem mysql_registry_inv_connect (w : MysqlDemo.World) (host : MString) (port : Int)
    (user password database : MString) (a : ConnectAnswers)
    (hinv : mysql_registry_inv w) (hfresh : a.mysql ∉ mysql_live w.trace) :
    mysql_registry_inv (autumn_mysql_connect w host port user password database a).2 := by
  obtain ⟨h1, h2⟩ := hinv
  have hslot : ∀ i, i < MAX_HANDLES → w.mysql_handles i ≠ NULL → w.mysql_handles i ≠ a.mysql := by
    intro i hi hne heq
    exact hfresh (heq ▸ h1 i hi hne)
  unfold autumn_mysql_connect
  by_cases hm : a.mysql = NULL
  · simp only [hm, if_true]
    refine ⟨fun i hi hne => ?_, h2⟩
    simp only [mysql_live_snoc, mysql_live_step]
    exact h1 i hi hne
  · simp only [hm, if_false]
    by_cases hres : a.result = NULL
    · simp only [hres, if_true]
      refine ⟨fun i hi hne => ?_, h2⟩
      simp only [mysql_live_append, mysql_live_snoc, mysql_live_step, List.foldl_cons,
        List.foldl_nil, ne_eq, not_true_eq_false, false_and, if_false]
      exact List.mem_filter.mpr ⟨h1 i hi hne, by simpa using hslot i hi hne⟩
    · simp only [hres, if_false]
      have hlive : ∀ (ho us pa da : List Nat),
          mysql_live (w.trace ++ [MysqlDemo.Call.mysql_init a.mysql]
            ++ [MysqlDemo.Call.mysql_real_connect a.mysql ho us pa da port a.result])
          = a.mysql :: mysql_live w.trace := by
        intro ho us pa da
        rw [mysql_live_snoc, mysql_live_snoc]
        simp [mysql_live_step, hres, hm]
      rcases store_db_cases w.mysql_handles a.mysql with hs | ⟨hdb, k, hk, hs⟩
      · have hs2 : store_mysql w.mysql_handles a.mysql = (-1, w.mysql_handles) := hs
        rw [hs2]
        refine ⟨fun i hi hne => ?_, h2⟩
        simp only [hlive]
        exact List.mem_cons_of_mem _ (h1 i hi hne)
      · have hs2 : store_mysql w.mysql_handles a.mysql
            = ((k : Int), Function.update w.mysql_handles k a.mysql) := hs
        rw [hs2]
        refine ⟨fun i hi hne => ?_, fun i j hi hj hne heq => ?_⟩
        · simp only [hlive]
          simp only at hne ⊢
          by_cases hik : i = k
          · subst hik; simp
          · rw [Function.update_noteq hik] at hne ⊢
            exact List.mem_cons_of_mem _ (h1 i hi hne)
        · simp only at hne heq
          by_cases hik : i = k
          · by_cases hjk : j = k
            · rw [hik, hjk]
            · exfalso
              subst hik
              rw [Function.update_same, Function.update_noteq hjk] at heq
              exact hslot j hj (by rw [← heq]; exact hdb) heq.symm
          · rw [Function.update_noteq hik] at hne heq
            by_cases hjk : j = k
            · exfalso
              subst hjk
              rw [Function.update_same] at heq
              exact hslot i hi hne heq
            · rw [Function.update_noteq hjk] at heq
              exact h2 i j hi hj hne heq

/-- `autumn_mysql_close` keeps the invariant. -/
theorem mysql_registry_inv_close (w : MysqlDemo.World) (h : Int) (hinv : mysql_registry_inv w) :
    mysql_registry_inv (autumn_mysql_close w h).2 := by
  by_cases hv : get_mysql w.mysql_handles h = NULL
  · simpa [autumn_mysql_close, hv] using hinv
  · obtain ⟨h1, h2⟩ := hinv
    obtain ⟨h0, hlt, hne0⟩ := (get_db_ne_null_iff _ _).mp hv
    have hn : h.toNat < MAX_HANDLES := by omega
    rw [autumn_mysql_close_valid w h hv]
    refine ⟨fun i hi hne => ?_, fun i j hi hj hne heq => ?_⟩
    · simp only at hne ⊢
      have hik : i ≠ h.toNat := by
        intro hik; rw [hik, Function.update_same] at hne; exact hne rfl
      rw [Function.update_noteq hik] at hne ⊢
      simp only [mysql_live_snoc, mysql_live_step]
      refine List.mem_filter.mpr ⟨h1 i hi hne, ?_⟩
      have : w.mysql_handles i ≠ w.mysql_handles h.toNat :=
        fun he => hik (h2 i h.toNat hi hn hne he)
      simpa using this
    · simp only at hne heq
      have hik : i ≠ h.toNat := by
        intro hik; rw [hik, Function.update_same] at hne; exact hne rfl
      rw [Function.update_noteq hik] at hne heq
      have hjk : j ≠ h.toNat := by
        intro hjk; rw [hjk, Function.update_same] at heq; exact hne heq
      rw [Function.update_noteq hjk] at heq
      exact h2 i j hi hj hne heq

/-- Operations that keep the table and the live connections keep the invariant. -/
theorem mysql_registry_inv_frame (w w2 : MysqlDemo.World) (hinv : mysql_registry_inv w)
    (hf : w2.mysql_handles = w.mysql_handles ∧ mysql_live w2.trace = mysql_live w.trace) :
    mysql_registry_inv w2 := by
  unfold mysql_registry_inv
  rw [hf.1, hf.2]
  exact hinv

/-- The invariant holds after every sequence of calls in which `mysql_init` hands
out fresh connection objects. -/
theorem mysql_registry_inv_run :
    ∀ (ops : List MysqlOp) (w : MysqlDemo.World), mysql_registry_inv w → fresh_connects w ops →
      mysql_registry_inv (mysql_run w ops) := by
  intro ops
  induction ops with
  | nil => intro w hinv _; exact hinv
  | cons op ops ih =>
    intro w hinv hfresh
    cases op with
    | connect host port user password database a =>
      exact ih _ (mysql_registry_inv_connect w host port user password database a hinv hfresh.1)
        hfresh.2
    | execute h sql rc =>
      exact ih _ (mysql_registry_inv_frame w _ hinv (autumn_mysql_execute_frame w h sql rc)) hfresh
    | query h sql params a =>
      exact ih _ (mysql_registry_inv_frame w _ hinv (autumn_mysql_query_frame w h sql params a))
        hfresh
    | close h =>
      exact ih _ (mysql_registry_inv_close w h hinv) hfresh
    | errmsg h msg =>
      exact ih _ (mysql_registry_inv_frame w _ hinv (autumn_mysql_errmsg_frame w h msg)) hfresh

/-- What `mysql_live` lists: the connection objects on which a
`mysql_real_connect` of the trace succeeded, and which were not passed to
`mysql_close` later in the trace. -/
theorem mem_mysql_live_iff (tr : List MysqlDemo.Call) (p : Ptr) :
    p ∈ mysql_live tr ↔ ∃ pre ho us pa da po res post,
      tr = pre ++ MysqlDemo.Call.mysql_real_connect p ho us pa da po res :: post
        ∧ res ≠ NULL ∧ p ≠ NULL ∧ MysqlDemo.Call.mysql_close p ∉ post := by
  induction tr using List.reverseRecOn with
  | nil =>
    constructor
    · intro hp; simp [mysql_live] at hp
    · rintro ⟨pre, ho, us, pa, da, po, res, post, h, _⟩
      exact absurd h (by simp)
  | append_singleton tr c ih =>
    rw [mysql_live_snoc]
    constructor
    · intro hp
      have hold : p ∈ mysql_live tr → c ≠ MysqlDemo.Call.mysql_close p →
          ∃ pre ho us pa da po res post,
            tr ++ [c] = pre ++ MysqlDemo.Call.mysql_real_connect p ho us pa da po res :: post
              ∧ res ≠ NULL ∧ p ≠ NULL ∧ MysqlDemo.Call.mysql_close p ∉ post := by
        intro hmem hc
        obtain ⟨pre, ho, us, pa, da, po, res, post, e1, e2, e3, e4⟩ := ih.mp hmem
        refine ⟨pre, ho, us, pa, da, po, res, post ++ [c], by simp [e1], e2, e3, ?_⟩
        simp only [List.mem_append, List.mem_singleton, not_or]
        exact ⟨e4, fun h => hc h.symm⟩
      cases c with
      | mysql_real_connect m ho us pa da po res =>
        simp only [mysql_live_step] at hp
        split_ifs at hp with hc
        · rcases List.mem_cons.mp hp with h | h
          · subst h
            exact ⟨tr, ho, us, pa, da, po, res, [], rfl, hc.1, hc.2, by simp⟩
          · exact hold h (by simp)
        · exact hold hp (by simp)
      | mysql_close m =>
        simp only [mysql_live_step] at hp
        have hp2 := List.mem_filter.mp hp
        exact hold hp2.1 (by
          intro h
          have hdb : m = p := by injection h
          have : p ≠ m := by simpa using hp2.2
          exact this hdb.symm)
      | _ => exact hold hp (by simp)
    · rintro ⟨pre, ho, us, pa, da, po, res, post, e1, e2, e3, e4⟩
      rcases List.eq_nil_or_concat post with hpost | ⟨post2, c2, hpost⟩
      · subst hpost
        have h4 : tr ++ [c]
            = pre ++ [MysqlDemo.Call.mysql_real_connect p ho us pa da po res] := e1
        obtain ⟨_, hc⟩ := List.append_inj' h4 rfl
        have hc2 : c = MysqlDemo.Call.mysql_real_connect p ho us pa da po res := by simpa using hc
        subst hc2
        simp [mysql_live_step, e2, e3]
      · subst hpost
        have h4 : tr ++ [c]
            = (pre ++ MysqlDemo.Call.mysql_real_connect p ho us pa da po res :: post2) ++ [c2] := by
          rw [e1]; simp
        obtain ⟨htr, hc⟩ := List.append_inj' h4 rfl
        have hc2 : c = c2 := by simpa using hc
        subst hc2
        have h5 : MysqlDemo.Call.mysql_close p ∉ post2 := by
          intro h; exact e4 (by simp [h])
        have h6 : c ≠ MysqlDemo.Call.mysql_close p := by
          intro h; exact e4 (by simp [h])
        have hmem : p ∈ mysql_live tr := ih.mpr ⟨pre, ho, us, pa, da, po, res, post2, htr, e2, e3, h5⟩
        cases c with
        | mysql_real_connect m ho2 us2 pa2 da2 po2 res2 =>
          simp only [mysql_live_step]
          split_ifs
          · exact List.mem_cons_of_mem _ hmem
          · exact hmem
        | mysql_close m =>
          simp only [mysql_live_step]
          refine List.mem_filter.mpr ⟨hmem, ?_⟩
          have : p ≠ m := by
            intro h; exact h6 (by rw [h])
          simpa using this
        | _ => exact hmem

/-- C3: in every state reached from the empty table by a sequence of open, exec,
exec_prepared, query, errmsg and close calls of `src/ffi-demo/sqlite_wrapper.c`,
in which every connection object handed out by a native open is fresh (none of
the connections open at that moment), every occupied slot holds a connection
that an `sqlite3_open` returning `SQLITE_OK` has stored and that has not been
passed to `sqlite3_close` since; no connection occupies two slots; and a handle
is valid exactly when it is in range and its slot holds a live connection.  The
same holds for the connect, execute, query, errmsg and close calls of
`src/mysql-demo/mysql_wrapper.c`, the native open being `mysql_init` followed by
a `mysql_real_connect` that returns a non-null pointer. -/
theorem C3_occupied_slots_hold_live_connections :
    (∀ (ops : List FfiDemoSqlite.Op), fresh_opens FfiDemoSqlite.World.init ops →
      (∀ i, i < MAX_HANDLES → (run FfiDemoSqlite.World.init ops).db_handles i ≠ NULL →
        ∃ pre f post,
          (run FfiDemoSqlite.World.init ops).trace
              = pre ++ FfiDemoSqlite.Call.sqlite3_open f SQLITE_OK
                  ((run FfiDemoSqlite.World.init ops).db_handles i) :: post
            ∧ FfiDemoSqlite.Call.sqlite3_close ((run FfiDemoSqlite.World.init ops).db_handles i)
                ∉ post)
      ∧ (∀ i j, i < MAX_HANDLES → j < MAX_HANDLES →
          (run FfiDemoSqlite.World.init ops).db_handles i ≠ NULL →
          (run FfiDemoSqlite.World.init ops).db_handles i
            = (run FfiDemoSqlite.World.init ops).db_handles j → i = j)
      ∧ (∀ h : Int, get_db (run FfiDemoSqlite.World.init ops).db_handles h ≠ NULL
          ↔ 0 ≤ h ∧ h < 100
            ∧ (run FfiDemoSqlite.World.init ops).db_handles h.toNat
                ∈ live (run FfiDemoSqlite.World.init ops).trace))
    ∧ (∀ (ops : List MysqlOp), fresh_connects MysqlDemo.World.init ops →
      (∀ i, i < MAX_HANDLES → (mysql_run MysqlDemo.World.init ops).mysql_handles i ≠ NULL →
        ∃ pre ho us pa da po res post,
          (mysql_run MysqlDemo.World.init ops).trace
              = pre ++ MysqlDemo.Call.mysql_real_connect
                  ((mysql_run MysqlDemo.World.init ops).mysql_handles i) ho us pa da po res :: post
            ∧ res ≠ NULL
            ∧ MysqlDemo.Call.mysql_close ((mysql_run MysqlDemo.World.init ops).mysql_handles i)
                ∉ post)
      ∧ (∀ i j, i < MAX_HANDLES → j < MAX_HANDLES →
          (mysql_run MysqlDemo.World.init ops).mysql_handles i ≠ NULL →
          (mysql_run MysqlDemo.World.init ops).mysql_handles i
            = (mysql_run MysqlDemo.World.init ops).mysql_handles j → i = j)
      ∧ (∀ h : Int, get_mysql (mysql_run MysqlDemo.World.init ops).mysql_handles h ≠ NULL
          ↔ 0 ≤ h ∧ h < 100
            ∧ (mysql_run MysqlDemo.World.init ops).mysql_handles h.toNat
                ∈ mysql_live (mysql_run MysqlDemo.World.init ops).trace)) := by
  constructor
  · intro ops hfresh
    have hinit : registry_inv FfiDemoSqlite.World.init :=
      ⟨fun i _ hne => absurd rfl hne, fun i _ _ _ hne _ => absurd rfl hne⟩
    obtain ⟨h1, h2⟩ := registry_inv_run ops FfiDemoSqlite.World.init hinit hfresh
    refine ⟨fun i hi hne => ?_, h2, fun h => ?_⟩
    · obtain ⟨pre, f, post, e1, _, e3⟩ := (mem_live_iff _ _).mp (h1 i hi hne)
      exact ⟨pre, f, post, e1, e3⟩
    · rw [get_db_ne_null_iff]
      constructor
      · rintro ⟨a, b, c⟩
        exact ⟨a, b, h1 h.toNat (by omega) c⟩
      · rintro ⟨a, b, c⟩
        exact ⟨a, b, live_ne_null _ _ c⟩
  · intro ops hfresh
    have hinit : mysql_registry_inv MysqlDemo.World.init :=
      ⟨fun i _ hne => absurd rfl hne, fun i _ _ _ hne _ => absurd rfl hne⟩
    obtain ⟨h1, h2⟩ := mysql_registry_inv_run ops MysqlDemo.World.init hinit hfresh
    refine ⟨fun i hi hne => ?_, h2, fun h => ?_⟩
    · obtain ⟨pre, ho, us, pa, da, po, res, post, e1, e2, _, e4⟩ :=
        (mem_mysql_live_iff _ _).mp (h1 i hi hne)
      exact ⟨pre, ho, us, pa, da, po, res, post, e1, e2, e4⟩
    · have hiff := get_db_ne_null_iff (mysql_run MysqlDemo.World.init ops).mysql_handles h
      rw [show get_mysql (mysql_run MysqlDemo.World.init ops).mysql_handles h
        = get_db (mysql_run MysqlDemo.World.init ops).mysql_handles h from rfl, hiff]
      constructor
      · rintro ⟨a, b, c⟩
        exact ⟨a, b, h1 h.toNat (by omega) c⟩
      · rintro ⟨a, b, c⟩
        exact ⟨a, b, mysql_live_ne_null _ _ c⟩

/-- C3 at concrete sequences.  SQLite: open (connection 5, handle 0), exec, close,
open again (the native library hands out the address 5 once more), open
(connection 6), query.  MySQL: connect (connection 5), a connect that fails
(connection 6 is closed at once), execute, close, connect (connection 6). -/
theorem C3_occupied_slots_hold_live_connections_witness :
    (get_db (run FfiDemoSqlite.World.init
        [Op.openDb (some [0x61]) 0 5, Op.exec 0 (some [0x63]) 0 0, Op.close 0 0,
          Op.openDb (some [0x62]) 0 5, Op.openDb (some [0x61]) 0 6,
          Op.query 1 (some [0x63]) [] ⟨0, 9, [some [0x61]], [[some [0x31]]], true⟩]).db_handles 1 ≠ NULL
      ↔ (0 : Int) ≤ 1 ∧ (1 : Int) < 100
        ∧ (run FfiDemoSqlite.World.init
            [Op.openDb (some [0x61]) 0 5, Op.exec 0 (some [0x63]) 0 0, Op.close 0 0,
              Op.openDb (some [0x62]) 0 5, Op.openDb (some [0x61]) 0 6,
              Op.query 1 (some [0x63]) [] ⟨0, 9, [some [0x61]], [[some [0x31]]], true⟩]).db_handles
            (1 : Int).toNat
          ∈ live (run FfiDemoSqlite.World.init
            [Op.openDb (some [0x61]) 0 5, Op.exec 0 (some [0x63]) 0 0, Op.close 0 0,
              Op.openDb (some [0x62]) 0 5, Op.openDb (some [0x61]) 0 6,
              Op.query 1 (some [0x63]) [] ⟨0, 9, [some [0x61]], [[some [0x31]]], true⟩]).trace)
    ∧ (get_mysql (mysql_run MysqlDemo.World.init
        [MysqlOp.connect (some [0x68]) 3306 (some [0x75]) (some [0x70]) (some [0x64])
            ⟨5, 5, zeroBuf, zeroBuf, zeroBuf, zeroBuf⟩,
          MysqlOp.connect (some [0x68]) 3306 (some [0x75]) (some [0x70]) (some [0x64])
            ⟨6, 0, zeroBuf, zeroBuf, zeroBuf, zeroBuf⟩,
          MysqlOp.execute 0 (some [0x63]) 0, MysqlOp.close 0,
          MysqlOp.connect (some [0x68]) 3306 (some [0x75]) (some [0x70]) (some [0x64])
            ⟨6, 6, zeroBuf, zeroBuf, zeroBuf, zeroBuf⟩]).mysql_handles 0 ≠ NULL
      ↔ (0 : Int) ≤ 0 ∧ (0 : Int) < 100
        ∧ (mysql_run MysqlDemo.World.init
            [MysqlOp.connect (some [0x68]) 3306 (some [0x75]) (some [0x70]) (some [0x64])
                ⟨5, 5, zeroBuf, zeroBuf, zeroBuf, zeroBuf⟩,
              MysqlOp.connect (some [0x68]) 3306 (some [0x75]) (some [0x70]) (some [0x64])
                ⟨6, 0, zeroBuf, zeroBuf, zeroBuf, zeroBuf⟩,
              MysqlOp.execute 0 (some [0x63]) 0, MysqlOp.close 0,
              MysqlOp.connect (some [0x68]) 3306 (some [0x75]) (some [0x70]) (some [0x64])
                ⟨6, 6, zeroBuf, zeroBuf, zeroBuf, zeroBuf⟩]).mysql_handles (0 : Int).toNat
          ∈ mysql_live (mysql_run MysqlDemo.World.init
            [MysqlOp.connect (some [0x68]) 3306 (some [0x75]) (some [0x70]) (some [0x64])
                ⟨5, 5, zeroBuf, zeroBuf, zeroBuf, zeroBuf⟩,
              MysqlOp.connect (some [0x68]) 3306 (some [0x75]) (some [0x70]) (some [0x64])
                ⟨6, 0, zeroBuf, zeroBuf, zeroBuf, zeroBuf⟩,
              MysqlOp.execute 0 (some [0x63]) 0, MysqlOp.close 0,
              MysqlOp.connect (some [0x68]) 3306 (some [0x75]) (some [0x70]) (some [0x64])
                ⟨6, 6, zeroBuf, zeroBuf, zeroBuf, zeroBuf⟩]).trace) :=
  ⟨(C3_occupied_slots_hold_live_connections.1
      [Op.openDb (some [0x61]) 0 5, Op.exec 0 (some [0x63]) 0 0, Op.close 0 0,
        Op.openDb (some [0x62]) 0 5, Op.openDb (some [0x61]) 0 6,
        Op.query 1 (some [0x63]) [] ⟨0, 9, [some [0x61]], [[some [0x31]]], true⟩]
      ⟨by decide, by decide, by decide, trivial⟩).2.2 1,
   (C3_occupied_slots_hold_live_connections.2
      [MysqlOp.connect (some [0x68]) 3306 (some [0x75]) (some [0x70]) (some [0x64])
          ⟨5, 5, zeroBuf, zeroBuf, zeroBuf, zeroBuf⟩,
        MysqlOp.connect (some [0x68]) 3306 (some [0x75]) (some [0x70]) (some [0x64])
          ⟨6, 0, zeroBuf, zeroBuf, zeroBuf, zeroBuf⟩,
        MysqlOp.execute 0 (some [0x63]) 0, MysqlOp.close 0,
        MysqlOp.connect (some [0x68]) 3306 (some [0x75]) (some [0x70]) (some [0x64])
          ⟨6, 6, zeroBuf, zeroBuf, zeroBuf, zeroBuf⟩]
      ⟨by decide, by decide, by decide, trivial⟩).2.2 0⟩

/-! ### The encoders on ASCII text -/

/-- The C string read from a buffer into which `bs` and a terminator have been
written is `bs`, when `bs` has no zero byte and fits. -/
theorem c_string_at_write_bytes (buf : CharBuf) (bs : List Nat) (size : Nat)
    (hnz : ∀ b ∈ bs, b ≠ 0) (hlen : bs.length < size) :
    c_string_at (write_bytes buf 0 (bs ++ [0])) size = bs := by
  obtain ⟨d, hd⟩ : ∃ d, size = bs.length + (1 + d) := ⟨size - bs.length - 1, by omega⟩
  have h1 : (List.range bs.length).map (write_bytes buf 0 (bs ++ [0])) = bs := by
    apply List.ext_getElem
    · simp
    · intro i hi1 hi2
      have hi : i < bs.length := hi2
      have hin : 0 ≤ i ∧ i < 0 + (bs ++ [0]).length := by simp; omega
      have hi3 : i < bs.length + 1 := by omega
      simp [write_bytes, hin, List.getD_eq_getElem?_getD, List.getElem?_append_left hi, hi3,
        List.getElem?_eq_getElem hi]
  have h2 : write_bytes buf 0 (bs ++ [0]) bs.length = 0 := by
    have hin : 0 ≤ bs.length ∧ bs.length < 0 + (bs ++ [0]).length := by simp
    simp [write_bytes, hin, List.getD_eq_getElem?_getD]
  unfold c_string_at
  rw [hd, List.range_add, List.map_append, h1, List.takeWhile_append_of_pos]
  · simp [List.range_succ_eq_map, h2]
  · intro b hb
    simpa using hnz b hb

/-- A code unit read past the end of the string is 0. -/
theorem unit_at_end (s : List Nat) (i : Nat) (h : s.length ≤ i) : unit_at s i = 0 := by
  simp [unit_at, List.getD_eq_getElem?_getD, List.getElem?_eq_none h]

/-- The loop of `get_c_string` copies a run of non-zero ASCII units that fits. -/
theorem get_c_string_loop_ascii (str : List Nat) :
    ∀ (us : List Nat) (n i j : Nat) (buf : CharBuf),
      (∀ m, m < us.length → unit_at str (i + m) = us.getD m 0) →
      (∀ u ∈ us, u ≠ 0 ∧ u < 0x80) → j + us.length ≤ 4095 → us.length ≤ n →
      FfiDemoSqlite.get_c_string_loop str n i j buf
        = FfiDemoSqlite.get_c_string_loop str (n - us.length) (i + us.length) (j + us.length)
            (write_bytes buf j us) := by
  intro us
  induction us with
  | nil => intro n i j buf _ _ _ _; simp [write_bytes_nil]
  | cons u us ih =>
    intro n i j buf hread hu hj hn
    obtain ⟨n2, rfl⟩ : ∃ n2, n = n2 + 1 := ⟨n - 1, by simp at hn; omega⟩
    have hu0 : unit_at str i = u := by simpa using hread 0 (by simp)
    have hread2 : ∀ m, m < us.length → unit_at str (i + 1 + m) = us.getD m 0 := by
      intro m hm
      have := hread (m + 1) (by simpa using hm)
      simpa [Nat.add_assoc, Nat.add_comm 1 m] using this
    have hu1 := hu u (List.mem_cons_self _ _)
    have hmod : u % 256 = u := Nat.mod_eq_of_lt (by omega)
    have hjlt : j < 4095 := by simp at hj; omega
    simp only [List.length_cons] at hj hn ⊢
    rw [FfiDemoSqlite.get_c_string_loop]
    simp only [hjlt, if_true, hu0, hu1.1, if_false, hu1.2, hmod]
    rw [ih n2 (i + 1) (j + 1) _ hread2 (fun v hv => hu v (List.mem_cons_of_mem _ hv))
      (by omega) (by omega), write_bytes_cons]
    have e1 : n2 + 1 - (us.length + 1) = n2 - us.length := by omega
    have e2 : i + 1 + us.length = i + (us.length + 1) := by omega
    have e3 : j + 1 + us.length = j + (us.length + 1) := by omega
    rw [e1, e2, e3]

/-- The loop of `get_c_string_to_buffer` copies a run of non-zero ASCII units
that fits. -/
theorem get_c_string_to_buffer_loop_ascii (str : List Nat) (M : Nat) :
    ∀ (us : List Nat) (n i j : Nat) (buf : CharBuf),
      (∀ m, m < us.length → unit_at str (i + m) = us.getD m 0) →
      (∀ u ∈ us, u ≠ 0 ∧ u < 0x80) → j + us.length ≤ M → us.length ≤ n →
      get_c_string_to_buffer_loop str (M : Int) n i j buf
        = get_c_string_to_buffer_loop str (M : Int) (n - us.length) (i + us.length)
            (j + us.length) (write_bytes buf j us) := by
  intro us
  induction us with
  | nil => intro n i j buf _ _ _ _; simp [write_bytes_nil]
  | cons u us ih =>
    intro n i j buf hread hu hj hn
    obtain ⟨n2, rfl⟩ : ∃ n2, n = n2 + 1 := ⟨n - 1, by simp at hn; omega⟩
    have hu0 : unit_at str i = u := by simpa using hread 0 (by simp)
    have hread2 : ∀ m, m < us.length → unit_at str (i + 1 + m) = us.getD m 0 := by
      intro m hm
      have := hread (m + 1) (by simpa using hm)
      simpa [Nat.add_assoc, Nat.add_comm 1 m] using this
    have hu1 := hu u (List.mem_cons_self _ _)
    have hmod : u % 256 = u := Nat.mod_eq_of_lt (by omega)
    simp only [List.length_cons] at hj hn ⊢
    have hjlt : (j : Int) < (M : Int) := by omega
    rw [get_c_string_to_buffer_loop]
    simp only [hjlt, if_true, hu0, hu1.1, if_false, hu1.2, hmod]
    rw [ih n2 (i + 1) (j + 1) _ hread2 (fun v hv => hu v (List.mem_cons_of_mem _ hv))
      (by omega) (by omega), write_bytes_cons]
    have e1 : n2 + 1 - (us.length + 1) = n2 - us.length := by omega
    have e2 : i + 1 + us.length = i + (us.length + 1) := by omega
    have e3 : j + 1 + us.length = j + (us.length + 1) := by omega
    rw [e1, e2, e3]

/-- Reading the units of a string of non-zero ASCII units. -/
theorem unit_at_ascii (s : List Nat) (hs : ∀ u ∈ s, u ≠ 0 ∧ u < 0x80) (m : Nat)
    (hm : m < s.length) : unit_at s (0 + m) = s.getD m 0 := by
  rw [Nat.zero_add]
  exact unit_at_of_lt s (fun u hu => by have := (hs u hu).2; omega) m hm

/-- `get_c_string` of `src/ffi-demo/sqlite_wrapper.c` on non-zero ASCII text of
at most 4095 units: the bytes handed to the caller are the units. -/
theorem encode_ascii (buf : CharBuf) (s : List Nat) (hs : ∀ u ∈ s, u ≠ 0 ∧ u < 0x80)
    (hlen : s.length ≤ 4095) : encode buf (some s) = s := by
  have hloop : FfiDemoSqlite.get_c_string_loop s 4096 0 0 buf = (s.length, write_bytes buf 0 s) := by
    rw [get_c_string_loop_ascii s s 4096 0 0 buf (unit_at_ascii s hs) hs (by omega) (by omega)]
    obtain ⟨n2, hn2⟩ : ∃ n2, 4096 - s.length = n2 + 1 := ⟨4095 - s.length, by omega⟩
    rw [hn2, FfiDemoSqlite.get_c_string_loop]
    simp [unit_at_end s s.length (le_refl _)]
  simp only [encode, FfiDemoSqlite.get_c_string, deref, hloop]
  rw [← Nat.zero_add s.length, ← write_bytes_append_singleton]
  exact c_string_at_write_bytes buf s 4096 (fun b hb => (hs b hb).1) (by omega)

/-- `get_c_string_to_buffer` on non-zero ASCII text that fits the buffer and has
at most 4095 units: the C string left in the buffer is the text. -/
theorem get_c_string_to_buffer_ascii (buf : CharBuf) (buffer_size : Nat) (s : List Nat)
    (hs : ∀ u ∈ s, u ≠ 0 ∧ u < 0x80) (hfit : s.length + 1 ≤ buffer_size)
    (hlen : s.length ≤ 4095) :
    c_string_at (get_c_string_to_buffer (some s) buf buffer_size) buffer_size = s := by
  have hmax : (buffer_size : Int) - 1 = ((buffer_size - 1 : Nat) : Int) := by omega
  have hloop : get_c_string_to_buffer_loop s ((buffer_size : Int) - 1) 4095 0 0 buf
      = (s.length, write_bytes buf 0 s) := by
    rw [hmax, get_c_string_to_buffer_loop_ascii s (buffer_size - 1) s 4095 0 0 buf
      (unit_at_ascii s hs) hs (by omega) (by omega)]
    rcases Nat.eq_zero_or_pos (4095 - s.length) with h0 | hpos
    · rw [h0]; simp [get_c_string_to_buffer_loop]
    · obtain ⟨n2, hn2⟩ : ∃ n2, 4095 - s.length = n2 + 1 := ⟨4095 - s.length - 1, by omega⟩
      rw [hn2, get_c_string_to_buffer_loop]
      simp [unit_at_end s s.length (le_refl _)]
  simp only [get_c_string_to_buffer, hloop]
  rw [← Nat.zero_add s.length, ← write_bytes_append_singleton]
  exact c_string_at_write_bytes buf s buffer_size (fun b hb => (hs b hb).1) (by omega)

/-- The native string without zero byte is its own character sequence. -/
theorem c_chars_of_nonzero (s : List Nat) (hnz : ∀ b ∈ s, b ≠ 0) : c_chars s = s := by
  unfold c_chars
  rw [List.takeWhile_eq_self_iff]
  intro b hb
  simpa using hnz b hb

/-- Widening bytes gives the bytes themselves and one more code unit, 0. -/
theorem widen_bytes (s : List Nat) (hb : ∀ b ∈ s, b < 256) : widen s s.length = s ++ [0] := by
  unfold widen
  congr 1
  apply List.ext_getElem
  · simp
  · intro i hi1 hi2
    have hbi : s[i] < 256 := hb _ (List.getElem_mem hi2)
    simp [List.getD_eq_getElem?_getD, List.getElem?_eq_getElem hi2, Nat.mod_eq_of_lt hbi]

/-- The string made of a native message of non-zero bytes: empty for the empty
message, else the bytes and a trailing code unit 0. -/
theorem errmsg_to_string_bytes (s : List Nat) (hnz : ∀ b ∈ s, b ≠ 0) (hb : ∀ b ∈ s, b < 256) :
    errmsg_to_string (some s) = if s.length = 0 then [] else s ++ [0] := by
  simp only [errmsg_to_string, strlen, c_chars_of_nonzero s hnz]
  split_ifs
  · rfl
  · exact widen_bytes s hb

/-- The string made of a native message starts with the bytes of the message. -/
theorem errmsg_to_string_take (s : List Nat) (hnz : ∀ b ∈ s, b ≠ 0) (hb : ∀ b ∈ s, b < 256) :
    (errmsg_to_string (some s)).take s.length = s := by
  rw [errmsg_to_string_bytes s hnz hb]
  split_ifs with h
  · have : s = [] := List.length_eq_zero.mp h
    simp [this]
  · simp

/-- Reading a unit of the front part of a string. -/
theorem unit_at_append_left (us vs : List Nat) (m : Nat) (hm : m < us.length) :
    unit_at (us ++ vs) m = unit_at us m := by
  simp [unit_at, List.getD_eq_getElem?_getD, List.getElem?_append_left hm]

/-- Reading the unit right behind the front part of a string. -/
theorem unit_at_append_singleton (us : List Nat) (u : Nat) :
    unit_at (us ++ [u]) us.length = u % 65536 := by
  simp [unit_at, List.getD_eq_getElem?_getD]

/-- `get_c_string` of `src/ffi-demo/sqlite_wrapper.c` on 4094 non-zero ASCII
units followed by one unit `u` of the two-byte range: the lead byte of `u` is
written into the last free place and the continuation byte is dropped. -/
theorem encode_cuts_two_byte_unit (buf : CharBuf) (us : List Nat) (u : Nat)
    (hus : ∀ v ∈ us, v ≠ 0 ∧ v < 0x80) (hl : us.length = 4094) (hu1 : 0x80 ≤ u) (hu2 : u < 0x800) :
    encode buf (some (us ++ [u])) = us ++ [0xC0 ||| (u >>> 6)] := by
  have hread : ∀ m, m < us.length → unit_at (us ++ [u]) (0 + m) = us.getD m 0 := by
    intro m hm
    rw [Nat.zero_add, unit_at_append_left us [u] m hm]
    simpa using unit_at_ascii us hus m hm
  have hu : unit_at (us ++ [u]) (0 + us.length) = u := by
    rw [Nat.zero_add, unit_at_append_singleton]
    exact Nat.mod_eq_of_lt (by omega)
  have hloop : FfiDemoSqlite.get_c_string_loop (us ++ [u]) 4096 0 0 buf
      = (0 + us.length + 1,
          Function.update (write_bytes buf 0 us) (0 + us.length) (0xC0 ||| (u >>> 6))) := by
    rw [get_c_string_loop_ascii (us ++ [u]) us 4096 0 0 buf hread hus (by omega) (by omega)]
    have h2 : 4096 - us.length = 1 + 1 := by omega
    have c1 : 0 + us.length < 4095 := by omega
    have c2 : ¬ u = 0 := by omega
    have c3 : ¬ u < 0x80 := by omega
    have c4 : ¬ (0 + us.length + 1 < 4095) := by omega
    rw [h2, FfiDemoSqlite.get_c_string_loop]
    simp only [c1, if_true, hu, c2, if_false, c3, hu2, c4, Nat.mod_eq_of_lt (lead2_lt u hu2)]
    rw [FfiDemoSqlite.get_c_string_loop]
    simp only [c4, if_false]
  simp only [encode, FfiDemoSqlite.get_c_string, deref, hloop]
  rw [← write_bytes_append_singleton]
  have e : 0 + us.length + 1 = 0 + (us ++ [0xC0 ||| (u >>> 6)]).length := by simp
  rw [e, ← write_bytes_append_singleton]
  apply c_string_at_write_bytes
  · intro b hb
    rcases List.mem_append.mp hb with h | h
    · exact (hus b h).1
    · have hb2 : b = 0xC0 ||| (u >>> 6) := by simpa using h
      rw [hb2]
      intro h0
      have h6 := congrArg (fun n => Nat.testBit n 6) h0
      simp only [Nat.testBit_or, Nat.zero_testBit, Bool.or_eq_false_iff] at h6
      exact absurd h6.1 (by decide)
  · simp; omega

/-- `get_c_string_to_buffer` on the same input, with a buffer of 4096 bytes:
the conversion stops before the unit whose two bytes do not fit. -/
theorem get_c_string_to_buffer_stops_before_two_byte_unit (buf : CharBuf) (us : List Nat) (u : Nat)
    (hus : ∀ v ∈ us, v ≠ 0 ∧ v < 0x80) (hl : us.length = 4094) (hu1 : 0x80 ≤ u) (hu2 : u < 0x800) :
    c_string_at (get_c_string_to_buffer (some (us ++ [u])) buf 4096) 4096 = us := by
  have hread : ∀ m, m < us.length → unit_at (us ++ [u]) (0 + m) = us.getD m 0 := by
    intro m hm
    rw [Nat.zero_add, unit_at_append_left us [u] m hm]
    simpa using unit_at_ascii us hus m hm
  have hu : unit_at (us ++ [u]) (0 + us.length) = u := by
    rw [Nat.zero_add, unit_at_append_singleton]
    exact Nat.mod_eq_of_lt (by omega)
  have hmax : ((4096 : Nat) : Int) - 1 = ((4095 : Nat) : Int) := by norm_num
  have hloop : get_c_string_to_buffer_loop (us ++ [u]) (((4096 : Nat) : Int) - 1) 4095 0 0 buf
      = (0 + us.length, write_bytes buf 0 us) := by
    rw [hmax, get_c_string_to_buffer_loop_ascii (us ++ [u]) 4095 us 4095 0 0 buf hread hus
      (by omega) (by omega)]
    have h2 : 4095 - us.length = 0 + 1 := by omega
    have c1 : ((0 + us.length : Nat) : Int) < ((4095 : Nat) : Int) := by omega
    have c2 : ¬ u = 0 := by omega
    have c3 : ¬ u < 0x80 := by omega
    have c4 : ¬ (((0 + us.length + 1 : Nat) : Int) < ((4095 : Nat) : Int)) := by omega
    rw [h2, get_c_string_to_buffer_loop]
    simp only [c1, if_true, hu, c2, if_false, c3, hu2, c4]
  simp only [get_c_string_to_buffer, hloop]
  rw [← write_bytes_append_singleton]
  exact c_string_at_write_bytes buf us 4096 (fun b hb => (hus b hb).1) (by omega)

/-- `get_c_string` stops at a zero code unit: the string of the single unit 0 is
converted to the empty C string. -/
theorem encode_zero_unit (buf : CharBuf) : encode buf (some [0]) = [] := by
  have hloop : FfiDemoSqlite.get_c_string_loop [0] 4096 0 0 buf = (0, buf) := by
    rw [show (4096 : Nat) = 4095 + 1 from rfl, FfiDemoSqlite.get_c_string_loop]
    simp [unit_at]
  simp only [encode, FfiDemoSqlite.get_c_string, deref, hloop]
  have e : Function.update buf 0 0 = write_bytes buf 0 ([] ++ [0]) := by
    rw [write_bytes_append_singleton, write_bytes_nil]; rfl
  rw [e]
  exact c_string_at_write_bytes buf [] 4096 (by simp) (by simp)

/-- `get_c_string` stops when 4095 bytes are written: of a longer ASCII text
only the first 4095 units are converted. -/
theorem encode_truncates (buf : CharBuf) (us rest : List Nat)
    (hus : ∀ v ∈ us, v ≠ 0 ∧ v < 0x80) (hl : us.length = 4095) :
    encode buf (some (us ++ rest)) = us := by
  have hread : ∀ m, m < us.length → unit_at (us ++ rest) (0 + m) = us.getD m 0 := by
    intro m hm
    rw [Nat.zero_add, unit_at_append_left us rest m hm]
    simpa using unit_at_ascii us hus m hm
  have hloop : FfiDemoSqlite.get_c_string_loop (us ++ rest) 4096 0 0 buf
      = (0 + us.length, write_bytes buf 0 us) := by
    rw [get_c_string_loop_ascii (us ++ rest) us 4096 0 0 buf hread hus (by omega) (by omega)]
    have h2 : 4096 - us.length = 0 + 1 := by omega
    have c1 : ¬ (0 + us.length < 4095) := by omega
    rw [h2, FfiDemoSqlite.get_c_string_loop]
    simp only [c1, if_false]
  simp only [encode, FfiDemoSqlite.get_c_string, deref, hloop]
  rw [← write_bytes_append_singleton]
  exact c_string_at_write_bytes buf us 4096 (fun b hb => (hus b hb).1) (by omega)

/-- The claim C8 fails on the code.  The string of the single code unit 0 is an
ASCII string; it is encoded as the empty C string and decoded as the empty
string.  The string `A` comes back with one more code unit, a trailing 0.  The
string of 4096 letters `a` is encoded as 4095 bytes, and the decoded string is
not the string of 4096 letters. -/
theorem C8_round_trip_fails :
    (∀ u ∈ ([0] : List Nat), u < 0x80)
    ∧ decode (encode zeroBuf (some [0])) = []
    ∧ decode (encode zeroBuf (some [0])) ≠ [0]
    ∧ decode (encode zeroBuf (some [0x41])) = [0x41, 0]
    ∧ (∀ u ∈ List.replicate 4096 0x61, u < 0x80)
    ∧ encode zeroBuf (some (List.replicate 4096 0x61)) = List.replicate 4095 0x61
    ∧ decode (encode zeroBuf (some (List.replicate 4096 0x61))) ≠ List.replicate 4096 0x61 := by
  have h1 : decode (encode zeroBuf (some [0])) = [] := by
    rw [encode_zero_unit]; rfl
  have hrep : ∀ v ∈ List.replicate 4095 0x61, v ≠ 0 ∧ v < 0x80 := by
    intro v hv
    rw [List.eq_of_mem_replicate hv]
    decide
  have h2 : encode zeroBuf (some (List.replicate 4096 0x61)) = List.replicate 4095 0x61 := by
    have e : List.replicate 4096 0x61 = List.replicate 4095 0x61 ++ [0x61] := by
      rw [show (4096 : Nat) = 4095 + 1 from rfl, List.replicate_succ']
    rw [e]
    exact encode_truncates zeroBuf _ _ hrep (List.length_replicate _ _)
  have h3 : decode (encode zeroBuf (some [0x41])) = [0x41, 0] := by
    rw [encode_ascii zeroBuf [0x41] (by decide) (by decide)]
    decide
  refine ⟨by decide, h1, by rw [h1]; decide, h3, ?_, h2, ?_⟩
  · intro u hu
    rw [List.eq_of_mem_replicate hu]
    decide
  · rw [h2]
    intro h
    have hlen := congrArg List.length h
    have hd : decode (List.replicate 4095 0x61) = List.replicate 4095 0x61 ++ [0] := by
      unfold decode
      rw [errmsg_to_string_bytes _ (fun b hb => (hrep b hb).1)
        (fun b hb => by have := (hrep b hb).2; omega)]
      rw [if_neg]
      rw [List.length_replicate]
      decide
    rw [hd] at h
    have h0 : (0 : Nat) ∈ List.replicate 4096 0x61 := by
      rw [← h]; exact List.mem_append_right _ (List.mem_singleton.mpr rfl)
    have := List.eq_of_mem_replicate h0
    omega

/-- C8, amended: for every ASCII string `s` that has no zero code unit and at
most 4095 code units, the bytes produced by `get_c_string` are exactly the code
units of `s`, and the string decoded from them starts with exactly the code
units of `s`; the same holds for `get_c_string_to_buffer` with a buffer of more
than `s.length` bytes.  The decoding is what `autumn_sqlite3_errmsg` and
`autumn_mysql_errmsg` return for a valid handle. -/
theorem C8_ascii_round_trip_within_budget (s : List Nat) (hascii : ∀ u ∈ s, u < 0x80)
    (hnz : ∀ u ∈ s, u ≠ 0) (hlen : s.length ≤ 4095) :
    (∀ (buf : CharBuf), encode buf (some s) = s
        ∧ (decode (encode buf (some s))).take s.length = s)
    ∧ (∀ (buf : CharBuf) (buffer_size : Nat), s.length + 1 ≤ buffer_size →
        c_string_at (get_c_string_to_buffer (some s) buf buffer_size) buffer_size = s
        ∧ (decode (c_string_at (get_c_string_to_buffer (some s) buf buffer_size)
            buffer_size)).take s.length = s)
    ∧ (∀ (w : FfiDemoSqlite.World) (h : Int) (bytes : List Nat), get_db w.db_handles h ≠ NULL →
        (autumn_sqlite3_errmsg w h (some bytes)).1 = decode bytes)
    ∧ (∀ (w : MysqlDemo.World) (h : Int) (bytes : List Nat), get_mysql w.mysql_handles h ≠ NULL →
        (autumn_mysql_errmsg w h (some bytes)).1 = decode bytes) := by
  have hs : ∀ u ∈ s, u ≠ 0 ∧ u < 0x80 := fun u hu => ⟨hnz u hu, hascii u hu⟩
  have hdec : (decode s).take s.length = s :=
    errmsg_to_string_take s hnz (fun b hb => by have := hascii b hb; omega)
  refine ⟨fun buf => ?_, fun buf buffer_size hfit => ?_, fun w h bytes hv => ?_,
    fun w h bytes hv => ?_⟩
  · rw [encode_ascii buf s hs hlen]
    exact ⟨rfl, hdec⟩
  · rw [get_c_string_to_buffer_ascii buf buffer_size s hs hfit hlen]
    exact ⟨rfl, hdec⟩
  · simp [autumn_sqlite3_errmsg, hv, decode]
  · simp [autumn_mysql_errmsg, hv, decode]

/-- The amended C8 at a concrete input: the text `SELECT 1`. -/
theorem C8_ascii_round_trip_within_budget_witness :
    encode zeroBuf (some [0x53, 0x45, 0x4C, 0x45, 0x43, 0x54, 0x20, 0x31])
        = [0x53, 0x45, 0x4C, 0x45, 0x43, 0x54, 0x20, 0x31]
      ∧ (decode (encode zeroBuf (some [0x53, 0x45, 0x4C, 0x45, 0x43, 0x54, 0x20, 0x31]))).take
          ([0x53, 0x45, 0x4C, 0x45, 0x43, 0x54, 0x20, 0x31] : List Nat).length
        = [0x53, 0x45, 0x4C, 0x45, 0x43, 0x54, 0x20, 0x31] :=
  (C8_ascii_round_trip_within_budget [0x53, 0x45, 0x4C, 0x45, 0x43, 0x54, 0x20, 0x31]
    (by decide) (by decide) (by decide)).1 zeroBuf

/-- C10 fails on `get_c_string` of `src/ffi-demo/sqlite_wrapper.c`: for 4094
letters `a` followed by U+00E9, whose encoding is the two bytes 0xC3 0xA9, the
bytes produced are the 4094 letters and the lead byte 0xC3 alone.  On the same
input `get_c_string_to_buffer` of `src/mysql-demo/mysql_wrapper.c`, with a
buffer of the same size, stops after the 4094 letters. -/
theorem C10_get_c_string_ends_with_lone_lead_byte :
    utf8_of_unit 0xE9 = [0xC3, 0xA9]
    ∧ encode zeroBuf (some (List.replicate 4094 0x61 ++ [0xE9]))
        = List.replicate 4094 0x61 ++ [0xC3]
    ∧ c_string_at (get_c_string_to_buffer (some (List.replicate 4094 0x61 ++ [0xE9])) zeroBuf 4096)
        4096 = List.replicate 4094 0x61 := by
  have hrep : ∀ v ∈ List.replicate 4094 0x61, v ≠ 0 ∧ v < 0x80 := by
    intro v hv
    rw [List.eq_of_mem_replicate hv]
    decide
  refine ⟨by decide, ?_, ?_⟩
  · exact encode_cuts_two_byte_unit zeroBuf _ 0xE9 hrep (List.length_replicate _ _) (by decide)
      (by decide)
  · exact get_c_string_to_buffer_stops_before_two_byte_unit zeroBuf _ 0xE9 hrep
      (List.length_replicate _ _) (by decide) (by decide)

/-! ### Error messages -/

/-- C12 fails on the code by one code unit.  With a valid handle and the native
message `x` (one byte), `autumn_sqlite3_errmsg` and `autumn_mysql_errmsg` return
a string of two code units, the byte 0x78 and a trailing 0: the string is made
by `moonbit_make_string_raw(len + 1)`.  For a null or empty native message both
return the empty string, and the first code unit is the first byte. -/
theorem C12_errmsg_has_one_more_unit :
    get_db (autumn_sqlite3_open FfiDemoSqlite.World.init (some [0x61]) 0 5).2.db_handles 0 ≠ NULL
    ∧ (autumn_sqlite3_errmsg (autumn_sqlite3_open FfiDemoSqlite.World.init (some [0x61]) 0 5).2 0
        (some [0x78])).1 = [0x78, 0]
    ∧ (autumn_sqlite3_errmsg (autumn_sqlite3_open FfiDemoSqlite.World.init (some [0x61]) 0 5).2 0
        (some [0x78])).1.length = 2
    ∧ (autumn_sqlite3_errmsg (autumn_sqlite3_open FfiDemoSqlite.World.init (some [0x61]) 0 5).2 0
        none).1 = []
    ∧ (autumn_sqlite3_errmsg (autumn_sqlite3_open FfiDemoSqlite.World.init (some [0x61]) 0 5).2 0
        (some [])).1 = []
    ∧ (autumn_mysql_errmsg (autumn_mysql_connect MysqlDemo.World.init (some [0x68]) 3306
        (some [0x75]) (some [0x70]) (some [0x64]) ⟨5, 5, zeroBuf, zeroBuf, zeroBuf, zeroBuf⟩).2 0
        (some [0x78])).1 = [0x78, 0] := by
  refine ⟨by decide, by decide, by decide, by decide, by decide, by decide⟩

/-- For every valid handle and every native message of `len ≥ 1` non-zero bytes,
the string returned by `autumn_sqlite3_errmsg` has `len + 1` code units. -/
theorem autumn_sqlite3_errmsg_length (w : FfiDemoSqlite.World) (h : Int) (msg : List Nat)
    (hv : get_db w.db_handles h ≠ NULL) (hnz : ∀ b ∈ msg, b ≠ 0) (hb : ∀ b ∈ msg, b < 256)
    (hlen : msg.length ≠ 0) :
    (autumn_sqlite3_errmsg w h (some msg)).1 = msg ++ [0] := by
  rw [autumn_sqlite3_errmsg_valid w h (some msg) hv]
  simp only [errmsg_to_string_bytes msg hnz hb, hlen, if_false]

/-! ### The SQLite functions of `database_ffi.c` -/

/-- C20 fails on `autumn_sqlite3_exec` of `database_ffi.c`.  With a valid handle,
when `sqlite3_exec` fails with code 21 and leaves `errmsg` null, the function
returns 0, the success value; with a non-null `errmsg` it returns 21.
`autumn_sqlite3_exec` of `src/ffi-demo/sqlite_wrapper.c` returns 21 in both
cases. -/
theorem C20_exec_reports_failure_as_success :
    (DatabaseFfi.autumn_sqlite3_exec
        (DatabaseFfi.autumn_sqlite3_open DatabaseFfi.World.init [0x61] 0 5).2 0 [0x78] 21 NULL).1 = 0
    ∧ (DatabaseFfi.autumn_sqlite3_exec
        (DatabaseFfi.autumn_sqlite3_open DatabaseFfi.World.init [0x61] 0 5).2 0 [0x78] 21 7).1 = 21
    ∧ DatabaseFfi.Call.sqlite3_exec 5 [0x78]
        ∈ (DatabaseFfi.autumn_sqlite3_exec
            (DatabaseFfi.autumn_sqlite3_open DatabaseFfi.World.init [0x61] 0 5).2 0 [0x78] 21
            NULL).2.trace
    ∧ (autumn_sqlite3_exec (autumn_sqlite3_open FfiDemoSqlite.World.init (some [0x61]) 0 5).2 0
        (some [0x78]) 21 NULL).1 = 21
    ∧ (autumn_sqlite3_exec (autumn_sqlite3_open FfiDemoSqlite.World.init (some [0x61]) 0 5).2 0
        (some [0x78]) 21 7).1 = 21 := by
  refine ⟨by decide, by decide, by decide, by decide, by decide⟩

/-- The bind loop issues one bind call for each index from `i` on, in increasing
order. -/
theorem bind_loop_eq (stmt : Ptr) (params : List (Option (List Nat))) :
    ∀ (n i : Nat) (tr : List DatabaseFfi.Call),
      DatabaseFfi.bind_loop stmt params n i tr
        = tr ++ (List.range' i n).map (DatabaseFfi.bind_call stmt params) := by
  intro n
  induction n with
  | zero => intro i tr; simp [DatabaseFfi.bind_loop]
  | succ n ih =>
    intro i tr
    simp only [DatabaseFfi.bind_loop, ih, List.range'_succ, List.map_cons, List.append_assoc,
      List.singleton_append, DatabaseFfi.bind_call]

/-- The column loop of `database_ffi.c` only adds calls that are no bind calls. -/
theorem col_loop_trace (stmt : Ptr) (values : List (Option (List Nat))) :
    ∀ (n i : Nat) (text : List Nat) (tr : List DatabaseFfi.Call),
      ∃ extra, (DatabaseFfi.col_loop stmt values n i text tr).2 = tr ++ extra
        ∧ ∀ c ∈ extra, DatabaseFfi.is_bind c = false := by
  intro n
  induction n with
  | zero => intro i text tr; exact ⟨[], by simp [DatabaseFfi.col_loop], by simp⟩
  | succ n ih =>
    intro i text tr
    simp only [DatabaseFfi.col_loop]
    obtain ⟨extra, h1, h2⟩ := ih (i + 1)
      (match values.getD i none with
        | some value => (if 0 < i then text ++ [9] else text) ++ c_chars value
        | none => if 0 < i then text ++ [9] else text)
      (tr ++ [DatabaseFfi.Call.sqlite3_column_text stmt i])
    refine ⟨DatabaseFfi.Call.sqlite3_column_text stmt i :: extra, ?_, ?_⟩
    · rw [h1]; simp
    · intro c hc
      rcases List.mem_cons.mp hc with h | h
      · rw [h]; rfl
      · exact h2 c h

/-- The row loop of `database_ffi.c` starts with a step and adds no bind call. -/
theorem row_loop_trace (stmt : Ptr) (cc : Nat) :
    ∀ (rows : List (List (Option (List Nat)))) (text : List Nat) (tr : List DatabaseFfi.Call),
      ∃ rest, (DatabaseFfi.row_loop stmt cc rows text tr).2
          = tr ++ DatabaseFfi.Call.sqlite3_step stmt :: rest
        ∧ ∀ c ∈ rest, DatabaseFfi.is_bind c = false := by
  intro rows
  induction rows with
  | nil => intro text tr; exact ⟨[], by simp [DatabaseFfi.row_loop], by simp⟩
  | cons row rows ih =>
    intro text tr
    simp only [DatabaseFfi.row_loop]
    obtain ⟨extra, h1, h2⟩ := col_loop_trace stmt row cc 0 text
      (tr ++ [DatabaseFfi.Call.sqlite3_step stmt, DatabaseFfi.Call.sqlite3_column_count stmt])
    obtain ⟨rest, h3, h4⟩ := ih
      ((DatabaseFfi.col_loop stmt row cc 0 text
        (tr ++ [DatabaseFfi.Call.sqlite3_step stmt,
          DatabaseFfi.Call.sqlite3_column_count stmt])).1 ++ [10])
      (DatabaseFfi.col_loop stmt row cc 0 text
        (tr ++ [DatabaseFfi.Call.sqlite3_step stmt,
          DatabaseFfi.Call.sqlite3_column_count stmt])).2
    refine ⟨DatabaseFfi.Call.sqlite3_column_count stmt :: extra
      ++ DatabaseFfi.Call.sqlite3_step stmt :: rest, ?_, ?_⟩
    · rw [h3, h1]; simp
    · intro c hc
      simp only [List.cons_append, List.mem_cons, List.mem_append] at hc
      rcases hc with h | h | h | h
      · rw [h]; rfl
      · exact h2 c h
      · rw [h]; rfl
      · exact h4 c h

/-- C18: with a valid handle, a statement that prepares successfully and a list
`params` of `param_count` texts, `autumn_sqlite3_exec_prepared` of
`database_ffi.c` issues, right after the prepare call, exactly the bind calls
`sqlite3_bind_text(stmt, i + 1, params[i])` for `i = 0, ..., param_count - 1` in
this order, then the step and the finalize call; `autumn_sqlite3_query` issues
the same bind calls right after the prepare call, then the first step, and no
bind call after it. -/
theorem C18_binds_every_parameter_in_order (w : DatabaseFfi.World) (h : Int) (sql : List Nat)
    (params : List (Option (List Nat)))
    (hv : ¬ (h < 0 ∨ h ≥ (DatabaseFfi.MAX_CONNECTIONS : Int) ∨ w.sqlite_connections h.toNat = NULL)) :
    (∀ (a : DatabaseFfi.PreparedAnswers), a.prepare_rc = SQLITE_OK →
      (DatabaseFfi.autumn_sqlite3_exec_prepared w h sql params (params.length : Int) a).2.trace
        = w.trace ++ [DatabaseFfi.Call.sqlite3_prepare_v2 (w.sqlite_connections h.toNat) (c_chars sql)]
          ++ (List.range params.length).map
              (fun (i : Nat) => DatabaseFfi.Call.sqlite3_bind_text a.stmt ((i : Int) + 1)
                ((params.getD i none).map c_chars))
          ++ [DatabaseFfi.Call.sqlite3_step a.stmt, DatabaseFfi.Call.sqlite3_finalize a.stmt])
    ∧ (∀ (a : DatabaseFfi.QueryAnswers), a.prepare_rc = SQLITE_OK →
      ∃ rest,
        (DatabaseFfi.autumn_sqlite3_query w h sql params (params.length : Int) a).2.trace
          = w.trace ++ [DatabaseFfi.Call.sqlite3_prepare_v2 (w.sqlite_connections h.toNat) (c_chars sql)]
            ++ (List.range params.length).map
                (fun (i : Nat) => DatabaseFfi.Call.sqlite3_bind_text a.stmt ((i : Int) + 1)
                  ((params.getD i none).map c_chars))
            ++ DatabaseFfi.Call.sqlite3_step a.stmt :: rest
          ∧ ∀ c ∈ rest, DatabaseFfi.is_bind c = false) := by
  have hmap : ∀ (stmt : Ptr), (List.range' 0 params.length).map (DatabaseFfi.bind_call stmt params)
      = (List.range params.length).map
          (fun (i : Nat) => DatabaseFfi.Call.sqlite3_bind_text stmt ((i : Int) + 1)
            ((params.getD i none).map c_chars)) := by
    intro stmt
    rw [← List.range_eq_range']
    rfl
  constructor
  · intro a ha
    unfold DatabaseFfi.autumn_sqlite3_exec_prepared
    rw [if_neg hv]
    simp only [ha, ne_eq, not_true_eq_false, if_false, Int.toNat_ofNat, bind_loop_eq, hmap]
  · intro a ha
    unfold DatabaseFfi.autumn_sqlite3_query
    rw [if_neg hv]
    simp only [ha, ne_eq, not_true_eq_false, if_false, Int.toNat_ofNat, bind_loop_eq, hmap]
    obtain ⟨rest, h1, h2⟩ := row_loop_trace a.stmt a.column_count a.rows []
      (w.trace ++ [DatabaseFfi.Call.sqlite3_prepare_v2 (w.sqlite_connections h.toNat) (c_chars sql)]
        ++ (List.range params.length).map
            (fun (i : Nat) => DatabaseFfi.Call.sqlite3_bind_text a.stmt ((i : Int) + 1)
              ((params.getD i none).map c_chars)))
    refine ⟨rest ++ [DatabaseFfi.Call.sqlite3_finalize a.stmt], ?_, ?_⟩
    · rw [h1]; simp
    · intro c hc
      rcases List.mem_append.mp hc with h | h
      · exact h2 c h
      · have hc2 : c = DatabaseFfi.Call.sqlite3_finalize a.stmt := by simpa using h
        rw [hc2]; rfl

/-- C18 at a concrete input: handle 0 after one open, the statement 9 and the
two parameters `hello` and a null pointer. -/
theorem C18_binds_every_parameter_in_order_witness :
    (DatabaseFfi.autumn_sqlite3_exec_prepared
        (DatabaseFfi.autumn_sqlite3_open DatabaseFfi.World.init [0x61] 0 5).2 0 [0x78]
        [some [0x68, 0x65, 0x6C, 0x6C, 0x6F], none]
        (([some [0x68, 0x65, 0x6C, 0x6C, 0x6F], none] : List (Option (List Nat))).length : Int)
        ⟨0, 9, 101, 2⟩).2.trace
      = (DatabaseFfi.autumn_sqlite3_open DatabaseFfi.World.init [0x61] 0 5).2.trace
        ++ [DatabaseFfi.Call.sqlite3_prepare_v2
            ((DatabaseFfi.autumn_sqlite3_open DatabaseFfi.World.init [0x61] 0 5).2.sqlite_connections
              (0 : Int).toNat) (c_chars [0x78])]
        ++ (List.range ([some [0x68, 0x65, 0x6C, 0x6C, 0x6F], none] : List (Option (List Nat))).length).map
            (fun (i : Nat) => DatabaseFfi.Call.sqlite3_bind_text 9 ((i : Int) + 1)
              ((([some [0x68, 0x65, 0x6C, 0x6C, 0x6F], none] : List (Option (List Nat))).getD i
                none).map c_chars))
        ++ [DatabaseFfi.Call.sqlite3_step 9, DatabaseFfi.Call.sqlite3_finalize 9] :=
  (C18_binds_every_parameter_in_order
    (DatabaseFfi.autumn_sqlite3_open DatabaseFfi.World.init [0x61] 0 5).2 0 [0x78]
    [some [0x68, 0x65, 0x6C, 0x6C, 0x6F], none] (by decide)).1 ⟨0, 9, 101, 2⟩ rfl

/-- The claim C19 fails on the code.  The statement 9 has two placeholders and
one parameter is supplied.  `autumn_sqlite3_exec_prepared` of `database_ffi.c`
binds the parameter, steps the statement and, the step returning `SQLITE_DONE`,
returns the success value 0.  `autumn_sqlite3_exec_prepared` of
`src/ffi-demo/sqlite_wrapper.c` returns what `sqlite3_exec` returns, here 0. -/
theorem C19_mismatch_is_not_reported :
    (DatabaseFfi.autumn_sqlite3_exec_prepared
        (DatabaseFfi.autumn_sqlite3_open DatabaseFfi.World.init [0x61] 0 5).2 0 [0x3F, 0x3F]
        [some [0x78]] 1 ⟨0, 9, 101, 2⟩).1 = 0
    ∧ DatabaseFfi.Call.sqlite3_step 9
        ∈ (DatabaseFfi.autumn_sqlite3_exec_prepared
            (DatabaseFfi.autumn_sqlite3_open DatabaseFfi.World.init [0x61] 0 5).2 0 [0x3F, 0x3F]
            [some [0x78]] 1 ⟨0, 9, 101, 2⟩).2.trace
    ∧ (autumn_sqlite3_exec_prepared
        (autumn_sqlite3_open FfiDemoSqlite.World.init (some [0x61]) 0 5).2 0 (some [0x3F, 0x3F])
        [some [0x78]] 0 0).1 = 0 := by
  refine ⟨by decide, by decide, by decide⟩

/-- C19, amended: with a valid handle and a statement that prepares, whatever the
number of placeholders of the statement and the number of supplied parameters,
`autumn_sqlite3_exec_prepared` of `database_ffi.c` reports no parameter mismatch:
it steps the statement and returns 0 when the step returned `SQLITE_DONE` and
the code of the step otherwise, and the number of placeholders has no influence
on the value returned or on the native calls.  `autumn_sqlite3_exec_prepared` of
`src/ffi-demo/sqlite_wrapper.c` is `autumn_sqlite3_exec`, whatever the
parameters. -/
theorem C19_placeholder_count_is_never_inspected (w : DatabaseFfi.World) (h : Int)
    (sql : List Nat) (params : List (Option (List Nat))) (a : DatabaseFfi.PreparedAnswers)
    (hv : ¬ (h < 0 ∨ h ≥ (DatabaseFfi.MAX_CONNECTIONS : Int) ∨ w.sqlite_connections h.toNat = NULL))
    (hprep : a.prepare_rc = SQLITE_OK) (_hmis : a.placeholder_count ≠ params.length) :
    (DatabaseFfi.autumn_sqlite3_exec_prepared w h sql params (params.length : Int) a).1
        = (if a.step_rc = DatabaseFfi.SQLITE_DONE then 0 else a.step_rc)
    ∧ DatabaseFfi.Call.sqlite3_step a.stmt
        ∈ (DatabaseFfi.autumn_sqlite3_exec_prepared w h sql params (params.length : Int) a).2.trace
    ∧ (∀ k : Nat,
        DatabaseFfi.autumn_sqlite3_exec_prepared w h sql params (params.length : Int)
            { prepare_rc := a.prepare_rc, stmt := a.stmt, step_rc := a.step_rc,
              placeholder_count := k }
          = DatabaseFfi.autumn_sqlite3_exec_prepared w h sql params (params.length : Int) a)
    ∧ (∀ (w2 : FfiDemoSqlite.World) (h2 : Int) (sql2 : MString) (params2 : List MString)
        (rc : Int) (em : Ptr),
        autumn_sqlite3_exec_prepared w2 h2 sql2 params2 rc em
          = autumn_sqlite3_exec w2 h2 sql2 rc em) := by
  refine ⟨?_, ?_, fun k => rfl, fun w2 h2 sql2 params2 rc em => rfl⟩
  · unfold DatabaseFfi.autumn_sqlite3_exec_prepared
    rw [if_neg hv]
    simp only [hprep, ne_eq, not_true_eq_false, if_false]
  · unfold DatabaseFfi.autumn_sqlite3_exec_prepared
    rw [if_neg hv]
    simp [hprep]

/-- The amended C19 at a concrete input: two placeholders, one parameter. -/
theorem C19_placeholder_count_is_never_inspected_witness :
    (DatabaseFfi.autumn_sqlite3_exec_prepared
        (DatabaseFfi.autumn_sqlite3_open DatabaseFfi.World.init [0x61] 0 5).2 0 [0x3F, 0x3F]
        [some [0x78]] (([some [0x78]] : List (Option (List Nat))).length : Int)
        ⟨0, 9, 101, 2⟩).1
      = (if (101 : Int) = DatabaseFfi.SQLITE_DONE then 0 else 101) :=
  (C19_placeholder_count_is_never_inspected
    (DatabaseFfi.autumn_sqlite3_open DatabaseFfi.World.init [0x61] 0 5).2 0 [0x3F, 0x3F]
    [some [0x78]] ⟨0, 9, 101, 2⟩ (by decide) rfl (by decide)).1

/-! ### The rows returned by a query -/

/-- The loop over the rows of `autumn_sqlite3_query` collects the strings of the
rows it meets, in order, until `MAX_ROWS` strings are collected. -/
theorem sqlite_query_loop_rows (stmt : Ptr) (names : List (Option (List Nat))) :
    ∀ (rows : List (List (Option (List Nat)))) (k : Nat) (acc : List (List Nat))
      (tr : List FfiDemoSqlite.Call),
      (FfiDemoSqlite.query_loop stmt names rows k acc tr).1
        = acc ++ (rows.take (MAX_ROWS - k)).map
            (fun row => row_string (FfiDemoSqlite.serialize_row names row)) := by
  intro rows
  induction rows with
  | nil => intro k acc tr; simp [FfiDemoSqlite.query_loop]
  | cons row rest ih =>
    intro k acc tr
    unfold FfiDemoSqlite.query_loop
    split_ifs with hk
    · rw [ih]
      have e : MAX_ROWS - k = (MAX_ROWS - (k + 1)) + 1 := by omega
      rw [e, List.take_succ_cons, List.map_cons, List.append_assoc, List.singleton_append]
    · have e : MAX_ROWS - k = 0 := by omega
      rw [e, List.take_zero, List.map_nil, List.append_nil]

/-- The loop over the rows of `autumn_mysql_query` collects the strings of the
rows it meets, in order, until `MAX_ROWS` strings are collected. -/
theorem mysql_query_loop_rows (res : Ptr) (names : List (Option (List Nat))) :
    ∀ (rows : List (List (Option (List Nat)))) (k : Nat) (acc : List (List Nat))
      (tr : List MysqlDemo.Call),
      (MysqlDemo.query_loop res names rows k acc tr).1
        = acc ++ (rows.take (MAX_ROWS - k)).map
            (fun row => row_string (MysqlDemo.serialize_row names row)) := by
  intro rows
  induction rows with
  | nil => intro k acc tr; simp [MysqlDemo.query_loop]
  | cons row rest ih =>
    intro k acc tr
    unfold MysqlDemo.query_loop
    split_ifs with hk
    · rw [ih]
      have e : MAX_ROWS - k = (MAX_ROWS - (k + 1)) + 1 := by omega
      rw [e, List.take_succ_cons, List.map_cons, List.append_assoc, List.singleton_append]
    · have e : MAX_ROWS - k = 0 := by omega
      rw [e, List.take_zero, List.map_nil, List.append_nil]

/-- The value of `autumn_sqlite3_query` for a valid handle and a statement that
prepares: the strings of the first `MAX_ROWS` rows when the array is made, else
the empty array. -/
theorem autumn_sqlite3_query_value (w : FfiDemoSqlite.World) (h : Int) (sql : MString)
    (params : List MString) (a : FfiDemoSqlite.QueryAnswers)
    (hv : get_db w.db_handles h ≠ NULL) (hprep : a.prepare_rc = SQLITE_OK) :
    (autumn_sqlite3_query w h sql params a).1
      = if a.array_ok = true then
          (a.rows.take MAX_ROWS).map
            (fun row => row_string (FfiDemoSqlite.serialize_row a.column_names row))
        else [] := by
  unfold autumn_sqlite3_query
  simp only [hv, if_false, hprep, ne_eq, not_true_eq_false, sqlite_query_loop_rows,
    List.nil_append, Nat.sub_zero]
  split_ifs with h1 h2 h3
  · exact (List.length_eq_zero.mp h1).symm
  · rfl
  · rfl
  · rfl

/-- The value of `autumn_mysql_query` for a valid handle, a query that the server
accepts and a result set that is stored: the strings of the first `MAX_ROWS`
rows when the array is made, else the empty array. -/
theorem autumn_mysql_query_value (w : MysqlDemo.World) (h : Int) (sql : MString)
    (params : List MString) (a : MysqlDemo.QueryAnswers)
    (hv : get_mysql w.mysql_handles h ≠ NULL) (hq : a.query_rc = 0) (hres : a.res ≠ NULL) :
    (autumn_mysql_query w h sql params a).1
      = if a.array_ok = true then
          (a.rows.take MAX_ROWS).map
            (fun row => row_string (MysqlDemo.serialize_row a.field_names row))
        else [] := by
  unfold autumn_mysql_query
  simp only [hv, if_false, hq, ne_eq, not_true_eq_false, hres, mysql_query_loop_rows,
    List.nil_append, Nat.sub_zero]
  split_ifs with h1 h2
  · rfl
  · rfl
  · have h0 : ((a.rows.take MAX_ROWS).map
        (fun row => row_string (MysqlDemo.serialize_row a.field_names row))).length = 0 := by
      omega
    exact (List.length_eq_zero.mp h0).symm
  · rfl

/-- The claim C16 fails on the code: for a cursor of 1001 rows and for the cursor
of its first 1000 rows `autumn_sqlite3_query` and `autumn_mysql_query` return the
same value. -/
theorem C16_truncated_result_equals_untruncated :
    1000 < (List.replicate 1001 [some [0x31]] : List (List (Option (List Nat)))).length
    ∧ (List.replicate 1001 [some [0x31]] : List (List (Option (List Nat)))).take 1000
        = List.replicate 1000 [some [0x31]]
    ∧ (autumn_sqlite3_query (autumn_sqlite3_open FfiDemoSqlite.World.init (some [0x61]) 0 5).2 0
        (some [0x63]) [] ⟨0, 9, [some [0x61]], List.replicate 1001 [some [0x31]], true⟩).1
      = (autumn_sqlite3_query (autumn_sqlite3_open FfiDemoSqlite.World.init (some [0x61]) 0 5).2 0
        (some [0x63]) [] ⟨0, 9, [some [0x61]], List.replicate 1000 [some [0x31]], true⟩).1
    ∧ (autumn_mysql_query (autumn_mysql_connect MysqlDemo.World.init (some [0x68]) 3306
        (some [0x75]) (some [0x70]) (some [0x64]) ⟨5, 5, zeroBuf, zeroBuf, zeroBuf, zeroBuf⟩).2 0
        (some [0x63]) []
        ⟨0, 9, [some [0x61]], List.replicate 1001 [some [0x31]], true, zeroBuf⟩).1
      = (autumn_mysql_query (autumn_mysql_connect MysqlDemo.World.init (some [0x68]) 3306
        (some [0x75]) (some [0x70]) (some [0x64]) ⟨5, 5, zeroBuf, zeroBuf, zeroBuf, zeroBuf⟩).2 0
        (some [0x63]) []
        ⟨0, 9, [some [0x61]], List.replicate 1000 [some [0x31]], true, zeroBuf⟩).1 := by
  have ht : (List.replicate 1001 [some [0x31]] : List (List (Option (List Nat)))).take MAX_ROWS
      = (List.replicate 1000 [some [0x31]] : List (List (Option (List Nat)))).take MAX_ROWS := by
    rw [List.take_replicate, List.take_replicate]; rfl
  refine ⟨by rw [List.length_replicate]; decide, by rw [List.take_replicate]; rfl, ?_, ?_⟩
  · rw [autumn_sqlite3_query_value _ _ _ _ _ (by decide) rfl,
      autumn_sqlite3_query_value _ _ _ _ _ (by decide) rfl]
    simp only [ht]
  · rw [autumn_mysql_query_value _ _ _ _ _ (by decide) rfl (by decide),
      autumn_mysql_query_value _ _ _ _ _ (by decide) rfl (by decide)]
    simp only [ht]

/-- C16, amended: the value returned by `autumn_sqlite3_query` and by
`autumn_mysql_query` carries no truncation indication: for every cursor, also one
of more than 1000 rows, it is the value returned for the cursor that consists of
the first 1000 rows only. -/
theorem C16_no_truncation_indication :
    (∀ (w : FfiDemoSqlite.World) (h : Int) (sql : MString) (params : List MString)
        (a : FfiDemoSqlite.QueryAnswers),
        (autumn_sqlite3_query w h sql params a).1
          = (autumn_sqlite3_query w h sql params
              { prepare_rc := a.prepare_rc, stmt := a.stmt, column_names := a.column_names,
                rows := a.rows.take 1000, array_ok := a.array_ok }).1)
    ∧ (∀ (w : MysqlDemo.World) (h : Int) (sql : MString) (params : List MString)
        (a : MysqlDemo.QueryAnswers),
        (autumn_mysql_query w h sql params a).1
          = (autumn_mysql_query w h sql params
              { query_rc := a.query_rc, res := a.res, field_names := a.field_names,
                rows := a.rows.take 1000, array_ok := a.array_ok, sql_buffer := a.sql_buffer }).1) := by
  have htt : ∀ (rows : List (List (Option (List Nat)))),
      (rows.take 1000).take MAX_ROWS = rows.take MAX_ROWS := by
    intro rows
    rw [List.take_take]
    rfl
  constructor
  · intro w h sql params a
    by_cases hv : get_db w.db_handles h = NULL
    · simp [autumn_sqlite3_query, hv]
    · by_cases hprep : a.prepare_rc = SQLITE_OK
      · have h2 := autumn_sqlite3_query_value w h sql params
          { prepare_rc := a.prepare_rc, stmt := a.stmt, column_names := a.column_names,
            rows := a.rows.take 1000, array_ok := a.array_ok } hv hprep
        rw [autumn_sqlite3_query_value w h sql params a hv hprep, h2]
        simp only [htt]
      · unfold autumn_sqlite3_query
        simp only [hv, if_false, ne_eq, hprep, not_false_eq_true, if_true]
  · intro w h sql params a
    by_cases hv : get_mysql w.mysql_handles h = NULL
    · simp [autumn_mysql_query, hv]
    · by_cases hq : a.query_rc = 0
      · by_cases hres : a.res = NULL
        · simp [autumn_mysql_query, hv, hq, hres]
        · have h2 := autumn_mysql_query_value w h sql params
            { query_rc := a.query_rc, res := a.res, field_names := a.field_names,
              rows := a.rows.take 1000, array_ok := a.array_ok, sql_buffer := a.sql_buffer }
            hv hq hres
          rw [autumn_mysql_query_value w h sql params a hv hq hres, h2]
          simp only [htt]
      · simp [autumn_mysql_query, hv, hq]

/-- The claim C17 fails on the code in its second half.  On the state after one
open, with the valid handle 0 and a statement that prepares and yields no row,
`autumn_sqlite3_query` returns the empty array; it returns the same empty array
for the invalid handle 7 and for a statement that the backend cannot prepare
(code 1).  `autumn_mysql_query` does the same for a query that the server
rejects (code 1). -/
theorem C17_empty_result_equals_failure :
    (autumn_sqlite3_query (autumn_sqlite3_open FfiDemoSqlite.World.init (some [0x61]) 0 5).2 0
        (some [0x63]) [] ⟨0, 9, [some [0x61]], [], true⟩).1 = []
    ∧ (autumn_sqlite3_query (autumn_sqlite3_open FfiDemoSqlite.World.init (some [0x61]) 0 5).2 7
        (some [0x63]) [] ⟨0, 9, [some [0x61]], [], true⟩).1 = []
    ∧ (autumn_sqlite3_query (autumn_sqlite3_open FfiDemoSqlite.World.init (some [0x61]) 0 5).2 0
        (some [0x63]) [] ⟨1, 0, [], [], true⟩).1 = []
    ∧ (autumn_mysql_query (autumn_mysql_connect MysqlDemo.World.init (some [0x68]) 3306
        (some [0x75]) (some [0x70]) (some [0x64]) ⟨5, 5, zeroBuf, zeroBuf, zeroBuf, zeroBuf⟩).2 0
        (some [0x63]) [] ⟨0, 9, [some [0x61]], [], true, zeroBuf⟩).1 = []
    ∧ (autumn_mysql_query (autumn_mysql_connect MysqlDemo.World.init (some [0x68]) 3306
        (some [0x75]) (some [0x70]) (some [0x64]) ⟨5, 5, zeroBuf, zeroBuf, zeroBuf, zeroBuf⟩).2 0
        (some [0x63]) [] ⟨1, 0, [], [], true, zeroBuf⟩).1 = [] := by
  refine ⟨by decide, by decide, by decide, by decide, by decide⟩

/-- C17, amended: with a valid handle and a statement that prepares and yields no
row, `autumn_sqlite3_query` and `autumn_mysql_query` return the empty array; and
the empty array is also the value they return for a failed query: for an invalid
handle, for a statement that the backend cannot prepare, for a query that the
MySQL server rejects and for a result set that cannot be stored.  The caller
cannot tell the empty result from the failure. -/
theorem C17_empty_result_is_empty_array :
    (∀ (w : FfiDemoSqlite.World) (h : Int) (sql : MString) (params : List MString)
        (a : FfiDemoSqlite.QueryAnswers),
        get_db w.db_handles h ≠ NULL → a.prepare_rc = SQLITE_OK → a.rows = [] →
        (autumn_sqlite3_query w h sql params a).1 = []
          ∧ (∀ (h2 : Int) (a2 : FfiDemoSqlite.QueryAnswers), get_db w.db_handles h2 = NULL →
              (autumn_sqlite3_query w h2 sql params a2).1
                = (autumn_sqlite3_query w h sql params a).1)
          ∧ (∀ (a2 : FfiDemoSqlite.QueryAnswers), a2.prepare_rc ≠ SQLITE_OK →
              (autumn_sqlite3_query w h sql params a2).1
                = (autumn_sqlite3_query w h sql params a).1))
    ∧ (∀ (w : MysqlDemo.World) (h : Int) (sql : MString) (params : List MString)
        (a : MysqlDemo.QueryAnswers),
        get_mysql w.mysql_handles h ≠ NULL → a.query_rc = 0 → a.res ≠ NULL → a.rows = [] →
        (autumn_mysql_query w h sql params a).1 = []
          ∧ (∀ (h2 : Int) (a2 : MysqlDemo.QueryAnswers), get_mysql w.mysql_handles h2 = NULL →
              (autumn_mysql_query w h2 sql params a2).1
                = (autumn_mysql_query w h sql params a).1)
          ∧ (∀ (a2 : MysqlDemo.QueryAnswers), a2.query_rc ≠ 0 ∨ a2.res = NULL →
              (autumn_mysql_query w h sql params a2).1
                = (autumn_mysql_query w h sql params a).1)) := by
  constructor
  · intro w h sql params a hv hprep hrows
    have h0 : (autumn_sqlite3_query w h sql params a).1 = [] := by
      rw [autumn_sqlite3_query_value w h sql params a hv hprep, hrows]
      simp
    refine ⟨h0, fun h2 a2 hbad => ?_, fun a2 hfail => ?_⟩
    · rw [h0]; simp [autumn_sqlite3_query, hbad]
    · rw [h0]
      unfold autumn_sqlite3_query
      simp only [hv, if_false, hfail, if_true]
      split_ifs <;> rfl
  · intro w h sql params a hv hq hres hrows
    have h0 : (autumn_mysql_query w h sql params a).1 = [] := by
      rw [autumn_mysql_query_value w h sql params a hv hq hres, hrows]
      simp
    refine ⟨h0, fun h2 a2 hbad => ?_, fun a2 hfail => ?_⟩
    · rw [h0]; simp [autumn_mysql_query, hbad]
    · rw [h0]
      unfold autumn_mysql_query
      simp only [hv, if_false]
      by_cases hq2 : a2.query_rc = 0
      · have hr2 : a2.res = NULL := by
          rcases hfail with hf | hf
          · exact absurd hq2 hf
          · exact hf
        simp [hq2, hr2]
      · simp [hq2]

/-- The amended C17 at a concrete input: handle 0 after one open, a statement
with one column and no row. -/
theorem C17_empty_result_is_empty_array_witness :
    (autumn_sqlite3_query (autumn_sqlite3_open FfiDemoSqlite.World.init (some [0x61]) 0 5).2 0
        (some [0x63]) [] ⟨0, 9, [some [0x61]], [], true⟩).1 = []
    ∧ (autumn_mysql_query (autumn_mysql_connect MysqlDemo.World.init (some [0x68]) 3306
        (some [0x75]) (some [0x70]) (some [0x64]) ⟨5, 5, zeroBuf, zeroBuf, zeroBuf, zeroBuf⟩).2 0
        (some [0x63]) [] ⟨0, 9, [some [0x61]], [], true, zeroBuf⟩).1 = [] :=
  ⟨(C17_empty_result_is_empty_array.1
      (autumn_sqlite3_open FfiDemoSqlite.World.init (some [0x61]) 0 5).2 0 (some [0x63]) []
      ⟨0, 9, [some [0x61]], [], true⟩ (by decide) rfl rfl).1,
   (C17_empty_result_is_empty_array.2
      (autumn_mysql_connect MysqlDemo.World.init (some [0x68]) 3306 (some [0x75]) (some [0x70])
        (some [0x64]) ⟨5, 5, zeroBuf, zeroBuf, zeroBuf, zeroBuf⟩).2 0 (some [0x63]) []
      ⟨0, 9, [some [0x61]], [], true, zeroBuf⟩ (by decide) rfl (by decide) rfl).1⟩

/-! ### Texts longer than the conversion buffer -/

/-- The characters taken from the front of a list end before any index that
holds a character failing the test. -/
theorem takeWhile_length_le {α : Type} (p : α → Bool) :
    ∀ (l : List α) (j : Nat) (x : α), l[j]? = some x → p x = false →
      (l.takeWhile p).length ≤ j := by
  intro l
  induction l with
  | nil => intro j x h _; simp at h
  | cons y ys ih =>
    intro j x h hp
    by_cases hy : p y = true
    · cases j with
      | zero =>
        simp only [List.getElem?_cons_zero, Option.some.injEq] at h
        rw [h, hp] at hy
        exact absurd hy (by decide)
      | succ j =>
        simp only [List.getElem?_cons_succ] at h
        simp only [List.takeWhile_cons, hy, if_true, List.length_cons]
        exact Nat.succ_le_succ (ih j x h hp)
    · simp [List.takeWhile_cons, hy]

/-- The C string in a buffer ends at or before any index that holds a zero. -/
theorem c_string_at_length_le (buf : CharBuf) (size j : Nat) (hj : j < size) (h0 : buf j = 0) :
    (c_string_at buf size).length ≤ j := by
  unfold c_string_at
  apply takeWhile_length_le _ _ j 0
  · simp [hj, h0]
  · simp

/-- The loop of `get_c_string` never moves the write index past 4095. -/
theorem get_c_string_loop_le (str : List Nat) :
    ∀ (n i j : Nat) (buf : CharBuf), j ≤ 4095 →
      (FfiDemoSqlite.get_c_string_loop str n i j buf).1 ≤ 4095 := by
  intro n
  induction n with
  | zero => intro i j buf hj; simpa [FfiDemoSqlite.get_c_string_loop] using hj
  | succ n ih =>
    intro i j buf hj
    rw [FfiDemoSqlite.get_c_string_loop]
    simp only []
    split_ifs
    all_goals first
      | exact hj
      | exact ih _ _ _ (by omega)

/-- The loop of `get_c_string_to_buffer` never moves the write index past
`max_len`. -/
theorem get_c_string_to_buffer_loop_le (str : List Nat) (M : Nat) :
    ∀ (n i j : Nat) (buf : CharBuf), j ≤ M →
      (get_c_string_to_buffer_loop str (M : Int) n i j buf).1 ≤ M := by
  intro n
  induction n with
  | zero => intro i j buf hj; simpa [get_c_string_to_buffer_loop] using hj
  | succ n ih =>
    intro i j buf hj
    rw [get_c_string_to_buffer_loop]
    simp only []
    split_ifs
    all_goals first
      | exact hj
      | exact ih _ _ _ (by omega)

/-- The C string produced by `get_c_string` of `src/ffi-demo/sqlite_wrapper.c`
has at most 4095 bytes, whatever the text. -/
theorem encode_length_le (buf : CharBuf) (sql : MString) : (encode buf sql).length ≤ 4095 := by
  cases sql with
  | none => simp [encode, FfiDemoSqlite.get_c_string, deref]
  | some s =>
    have hj := get_c_string_loop_le s 4096 0 0 buf (Nat.zero_le _)
    simp only [encode, FfiDemoSqlite.get_c_string, deref]
    exact le_trans (c_string_at_length_le _ 4096 _ (by omega) (Function.update_same _ _ _)) hj

/-- The C string produced by `get_c_string` of `src/mysql-demo/mysql_wrapper.c`
has at most 4095 bytes, whatever the text. -/
theorem mysql_get_c_string_length_le (buf : CharBuf) (sql : MString) :
    (c_string_at (MysqlDemo.get_c_string buf sql) 4096).length ≤ 4095 := by
  cases sql with
  | none =>
    have := c_string_at_length_le (Function.update buf 0 0) 4096 0 (by omega)
      (Function.update_same _ _ _)
    simp only [MysqlDemo.get_c_string, get_c_string_to_buffer]
    omega
  | some s =>
    have hmax : ((4096 : Nat) : Int) - 1 = ((4095 : Nat) : Int) := by norm_num
    have hj := get_c_string_to_buffer_loop_le s 4095 4095 0 0 buf (Nat.zero_le _)
    simp only [MysqlDemo.get_c_string, get_c_string_to_buffer, hmax]
    exact le_trans (c_string_at_length_le _ 4096 _ (by omega) (Function.update_same _ _ _)) hj

/-- `get_c_string_to_buffer` with a buffer of 4096 bytes stops when 4095 bytes
are written: of a longer ASCII text only the first 4095 units are converted. -/
theorem get_c_string_to_buffer_truncates (buf : CharBuf) (us rest : List Nat)
    (hus : ∀ v ∈ us, v ≠ 0 ∧ v < 0x80) (hl : us.length = 4095) :
    c_string_at (get_c_string_to_buffer (some (us ++ rest)) buf 4096) 4096 = us := by
  have hread : ∀ m, m < us.length → unit_at (us ++ rest) (0 + m) = us.getD m 0 := by
    intro m hm
    rw [Nat.zero_add, unit_at_append_left us rest m hm]
    simpa using unit_at_ascii us hus m hm
  have hmax : ((4096 : Nat) : Int) - 1 = ((4095 : Nat) : Int) := by norm_num
  have hloop : get_c_string_to_buffer_loop (us ++ rest) (((4096 : Nat) : Int) - 1) 4095 0 0 buf
      = (0 + us.length, write_bytes buf 0 us) := by
    rw [hmax, get_c_string_to_buffer_loop_ascii (us ++ rest) 4095 us 4095 0 0 buf hread hus
      (by omega) (by omega)]
    have h2 : 4095 - us.length = 0 := by omega
    rw [h2, get_c_string_to_buffer_loop]
  simp only [get_c_string_to_buffer, hloop]
  rw [← write_bytes_append_singleton]
  exact c_string_at_write_bytes buf us 4096 (fun b hb => (hus b hb).1) (by omega)

/-- With a valid handle, `autumn_mysql_execute` passes the connection of the slot
and the converted text to `mysql_real_query` and returns what it returns. -/
theorem autumn_mysql_execute_valid (w : MysqlDemo.World) (h : Int) (sql : MString) (rc : Int)
    (hv : get_mysql w.mysql_handles h ≠ NULL) :
    (autumn_mysql_execute w h sql rc).1 = rc
      ∧ (autumn_mysql_execute w h sql rc).2.trace
          = w.trace ++ [MysqlDemo.Call.mysql_real_query (get_mysql w.mysql_handles h)
              (c_string_at (MysqlDemo.get_c_string w.static_buffer sql) 4096)
              (c_string_at (MysqlDemo.get_c_string w.static_buffer sql) 4096).length] := by
  simp [autumn_mysql_execute, hv]

/-- The claim C11 fails on the code.  The SQL text of 4096 letters `a` needs 4096
bytes.  With the valid handle 0 and a native library that accepts what it gets,
`autumn_sqlite3_exec` returns 0, no error, and `sqlite3_exec` has received the
first 4095 letters; `autumn_mysql_execute` returns 0 and `mysql_real_query` has
received the first 4095 letters. -/
theorem C11_overlong_statement_is_truncated_silently :
    (autumn_sqlite3_exec (autumn_sqlite3_open FfiDemoSqlite.World.init (some [0x61]) 0 5).2 0
        (some (List.replicate 4096 0x61)) 0 0).1 = 0
    ∧ FfiDemoSqlite.Call.sqlite3_exec 5 (List.replicate 4095 0x61)
        ∈ (autumn_sqlite3_exec (autumn_sqlite3_open FfiDemoSqlite.World.init (some [0x61]) 0 5).2 0
            (some (List.replicate 4096 0x61)) 0 0).2.trace
    ∧ (autumn_mysql_execute (autumn_mysql_connect MysqlDemo.World.init (some [0x68]) 3306
        (some [0x75]) (some [0x70]) (some [0x64]) ⟨5, 5, zeroBuf, zeroBuf, zeroBuf, zeroBuf⟩).2 0
        (some (List.replicate 4096 0x61)) 0).1 = 0
    ∧ MysqlDemo.Call.mysql_real_query 5 (List.replicate 4095 0x61) 4095
        ∈ (autumn_mysql_execute (autumn_mysql_connect MysqlDemo.World.init (some [0x68]) 3306
            (some [0x75]) (some [0x70]) (some [0x64])
            ⟨5, 5, zeroBuf, zeroBuf, zeroBuf, zeroBuf⟩).2 0
            (some (List.replicate 4096 0x61)) 0).2.trace := by
  have hrep : ∀ v ∈ List.replicate 4095 0x61, v ≠ 0 ∧ v < 0x80 := by
    intro v hv
    rw [List.eq_of_mem_replicate hv]
    decide
  have e : List.replicate 4096 0x61 = List.replicate 4095 0x61 ++ [0x61] := by
    rw [show (4096 : Nat) = 4095 + 1 from rfl, List.replicate_succ']
  have hs := autumn_sqlite3_exec_valid
    (autumn_sqlite3_open FfiDemoSqlite.World.init (some [0x61]) 0 5).2 0
    (some (List.replicate 4096 0x61)) 0 0 (by decide)
  have hm := autumn_mysql_execute_valid
    (autumn_mysql_connect MysqlDemo.World.init (some [0x68]) 3306 (some [0x75]) (some [0x70])
      (some [0x64]) ⟨5, 5, zeroBuf, zeroBuf, zeroBuf, zeroBuf⟩).2 0
    (some (List.replicate 4096 0x61)) 0 (by decide)
  refine ⟨hs.1, ?_, hm.1, ?_⟩
  · have h2 := hs.2
    rw [e, encode_truncates _ _ _ hrep (List.length_replicate _ _)] at h2
    rw [e]
    exact h2
  · rw [hm.2]
    have h3 : c_string_at (MysqlDemo.get_c_string
        (autumn_mysql_connect MysqlDemo.World.init (some [0x68]) 3306 (some [0x75]) (some [0x70])
          (some [0x64]) ⟨5, 5, zeroBuf, zeroBuf, zeroBuf, zeroBuf⟩).2.static_buffer
        (some (List.replicate 4096 0x61))) 4096 = List.replicate 4095 0x61 := by
      rw [e]
      exact get_c_string_to_buffer_truncates _ _ _ hrep (List.length_replicate _ _)
    rw [h3, List.length_replicate]
    exact List.mem_append_right _ (List.mem_singleton.mpr rfl)

/-- C11, amended: with a valid handle, `autumn_sqlite3_exec` and
`autumn_mysql_execute` report no overflow of the conversion buffer.  They return
what the native execution call returns, and the text they pass to the native
library has at most 4095 bytes: for a text that starts with 4095 non-zero ASCII
characters `us` it is exactly `us`, whatever follows in the text. -/
theorem C11_exec_passes_the_truncated_statement (us rest : List Nat)
    (hus : ∀ v ∈ us, v ≠ 0 ∧ v < 0x80) (hl : us.length = 4095) :
    (∀ (w : FfiDemoSqlite.World) (h : Int) (rc : Int) (em : Ptr), get_db w.db_handles h ≠ NULL →
      (autumn_sqlite3_exec w h (some (us ++ rest)) rc em).1 = rc
        ∧ FfiDemoSqlite.Call.sqlite3_exec (get_db w.db_handles h) us
            ∈ (autumn_sqlite3_exec w h (some (us ++ rest)) rc em).2.trace)
    ∧ (∀ (w : MysqlDemo.World) (h : Int) (rc : Int), get_mysql w.mysql_handles h ≠ NULL →
      (autumn_mysql_execute w h (some (us ++ rest)) rc).1 = rc
        ∧ (autumn_mysql_execute w h (some (us ++ rest)) rc).2.trace
            = w.trace ++ [MysqlDemo.Call.mysql_real_query (get_mysql w.mysql_handles h) us 4095])
    ∧ (∀ (w : FfiDemoSqlite.World) (h : Int) (sql : MString) (rc : Int) (em : Ptr),
        get_db w.db_handles h ≠ NULL →
        (autumn_sqlite3_exec w h sql rc em).1 = rc
          ∧ FfiDemoSqlite.Call.sqlite3_exec (get_db w.db_handles h) (encode w.utf8_buffer sql)
              ∈ (autumn_sqlite3_exec w h sql rc em).2.trace
          ∧ (encode w.utf8_buffer sql).length ≤ 4095)
    ∧ (∀ (w : MysqlDemo.World) (h : Int) (sql : MString) (rc : Int),
        get_mysql w.mysql_handles h ≠ NULL →
        (autumn_mysql_execute w h sql rc).1 = rc
          ∧ (autumn_mysql_execute w h sql rc).2.trace
              = w.trace ++ [MysqlDemo.Call.mysql_real_query (get_mysql w.mysql_handles h)
                  (c_string_at (MysqlDemo.get_c_string w.static_buffer sql) 4096)
                  (c_string_at (MysqlDemo.get_c_string w.static_buffer sql) 4096).length]
          ∧ (c_string_at (MysqlDemo.get_c_string w.static_buffer sql) 4096).length ≤ 4095) := by
  refine ⟨fun w h rc em hv => ?_, fun w h rc hv => ?_, fun w h sql rc em hv => ?_,
    fun w h sql rc hv => ?_⟩
  · have hs := autumn_sqlite3_exec_valid w h (some (us ++ rest)) rc em hv
    rw [encode_truncates _ us rest hus hl] at hs
    exact hs
  · have hm := autumn_mysql_execute_valid w h (some (us ++ rest)) rc hv
    have h3 : c_string_at (MysqlDemo.get_c_string w.static_buffer (some (us ++ rest))) 4096 = us :=
      get_c_string_to_buffer_truncates _ us rest hus hl
    rw [h3, hl] at hm
    exact hm
  · have hs := autumn_sqlite3_exec_valid w h sql rc em hv
    exact ⟨hs.1, hs.2, encode_length_le _ _⟩
  · have hm := autumn_mysql_execute_valid w h sql rc hv
    exact ⟨hm.1, hm.2, mysql_get_c_string_length_le _ _⟩

/-- The amended C11 at a concrete input: 4095 letters `a` followed by `bc`, on
handle 0 after one open. -/
theorem C11_exec_passes_the_truncated_statement_witness :
    (autumn_sqlite3_exec (autumn_sqlite3_open FfiDemoSqlite.World.init (some [0x61]) 0 5).2 0
        (some (List.replicate 4095 0x61 ++ [0x62, 0x63])) 0 0).1 = 0
    ∧ FfiDemoSqlite.Call.sqlite3_exec
        (get_db (autumn_sqlite3_open FfiDemoSqlite.World.init (some [0x61]) 0 5).2.db_handles 0)
        (List.replicate 4095 0x61)
      ∈ (autumn_sqlite3_exec (autumn_sqlite3_open FfiDemoSqlite.World.init (some [0x61]) 0 5).2 0
          (some (List.replicate 4095 0x61 ++ [0x62, 0x63])) 0 0).2.trace :=
  (C11_exec_passes_the_truncated_statement (List.replicate 4095 0x61) [0x62, 0x63]
    (fun v hv => by rw [List.eq_of_mem_replicate hv]; decide) (List.length_replicate _ _)).1
    (autumn_sqlite3_open FfiDemoSqlite.World.init (some [0x61]) 0 5).2 0 0 0 (by decide)

/-! ### The row buffer -/

/-- Reading behind a list that is padded with zeros gives what reading the list
gives. -/
theorem getD_append_replicate_zero (bs : List Nat) (k m : Nat) :
    (bs ++ List.replicate k 0).getD m 0 = bs.getD m 0 := by
  simp only [List.getD_eq_getElem?_getD]
  by_cases hm : m < bs.length
  · rw [List.getElem?_append_left hm]
  · rw [List.getElem?_append_right (by omega), List.getElem?_eq_none (l := bs) (by omega)]
    by_cases hk : m - bs.length < k
    · simp [List.getElem?_replicate, hk]
    · simp [List.getElem?_replicate, hk]

/-- Writing bytes, and zeros behind them, right behind the text of a buffer that
is zero elsewhere gives the buffer of the longer text. -/
theorem write_bytes_behind_text (acc bs : List Nat) (k pos : Nat) (hpos : pos = acc.length) :
    write_bytes (write_bytes zeroBuf 0 acc) pos (bs ++ List.replicate k 0)
      = write_bytes zeroBuf 0 (acc ++ bs) := by
  subst hpos
  funext x
  simp only [write_bytes, Nat.zero_le, true_and, Nat.zero_add, Nat.sub_zero, List.length_append,
    List.length_replicate, getD_append_replicate_zero]
  by_cases h1 : x < acc.length
  · have h2 : ¬ (acc.length ≤ x ∧ x < acc.length + (bs.length + k)) := by omega
    have h3 : x < acc.length + bs.length := by omega
    simp [h1, h2, h3, List.getD_eq_getElem?_getD, List.getElem?_append_left h1]
  · by_cases h4 : x < acc.length + bs.length
    · have h5 : acc.length ≤ x ∧ x < acc.length + (bs.length + k) := by omega
      simp [h1, h4, h5, List.getD_eq_getElem?_getD,
        List.getElem?_append_right (Nat.le_of_not_lt h1)]
    · by_cases h6 : x < acc.length + (bs.length + k)
      · have h5 : acc.length ≤ x ∧ x < acc.length + (bs.length + k) := by omega
        simp [h1, h4, h5, List.getD_eq_getElem?_getD, zeroBuf,
          List.getElem?_eq_none (l := bs) (by omega : bs.length ≤ x - acc.length)]
      · have h5 : ¬ (acc.length ≤ x ∧ x < acc.length + (bs.length + k)) := by omega
        simp [h1, h4, h5, zeroBuf]

/-- Storing one byte right behind the text. -/
theorem update_behind_text (acc : List Nat) (b pos : Nat) (hpos : pos = acc.length) :
    Function.update (write_bytes zeroBuf 0 acc) pos b = write_bytes zeroBuf 0 (acc ++ [b]) := by
  subst hpos
  rw [write_bytes_append_singleton, Nat.zero_add]

/-- `strcpy` right behind the text. -/
theorem strcpy_behind_text (acc s : List Nat) (pos : Nat) (hpos : pos = acc.length) :
    strcpy (write_bytes zeroBuf 0 acc) pos s = write_bytes zeroBuf 0 (acc ++ c_chars s) := by
  unfold strcpy
  exact write_bytes_behind_text acc (c_chars s) 1 pos hpos

/-- `strncpy` right behind the text, of a string that fits. -/
theorem strncpy_behind_text (acc s : List Nat) (pos n : Nat) (hpos : pos = acc.length)
    (hn : strlen s ≤ n) :
    strncpy (write_bytes zeroBuf 0 acc) pos s n = write_bytes zeroBuf 0 (acc ++ c_chars s) := by
  unfold strncpy
  have ht : (c_chars s).take n = c_chars s := List.take_of_length_le hn
  rw [ht]
  exact write_bytes_behind_text acc (c_chars s) _ pos hpos

/-- The value step of the column loop on a buffer that holds a text and zeros. -/
theorem value_stage_text (a2 value : List Nat) :
    (if a2.length + strlen value < 4096 then
        (a2.length + strlen value,
          strncpy (write_bytes zeroBuf 0 a2) a2.length value (4096 - a2.length - 1))
      else (a2.length, write_bytes zeroBuf 0 a2))
      = ((if a2.length + strlen value < 4096 then a2 ++ c_chars value else a2).length,
         write_bytes zeroBuf 0 (if a2.length + strlen value < 4096 then a2 ++ c_chars value else a2)) := by
  split_ifs with h
  · rw [strncpy_behind_text a2 value a2.length _ rfl (by omega), List.length_append]
    rfl
  · rfl

/-- The name step of the column loop of `sqlite_wrapper.c` on a buffer that holds
a text and zeros. -/
theorem sqlite_name_stage_text (a1 name : List Nat) :
    (if a1.length + strlen name + 1 < 4096 then
        (a1.length + strlen name + 1,
          Function.update (strcpy (write_bytes zeroBuf 0 a1) a1.length name)
            (a1.length + strlen name) 61)
      else (a1.length, write_bytes zeroBuf 0 a1))
      = ((if a1.length + strlen name + 1 < 4096 then a1 ++ c_chars name ++ [61] else a1).length,
         write_bytes zeroBuf 0
           (if a1.length + strlen name + 1 < 4096 then a1 ++ c_chars name ++ [61] else a1)) := by
  split_ifs with h
  · rw [strcpy_behind_text a1 name a1.length rfl,
      update_behind_text (a1 ++ c_chars name) 61 _ (by rw [List.length_append]; rfl),
      List.length_append, List.length_append]
    rfl
  · rfl

/-- The name step of the column loop of `mysql_wrapper.c` on a buffer that holds
a text and zeros. -/
theorem mysql_name_stage_text (a1 name : List Nat) :
    (if a1.length + strlen name + 1 < 4096 then
        (a1.length + strlen name + 1,
          Function.update (strncpy (write_bytes zeroBuf 0 a1) a1.length name (4096 - a1.length - 1))
            (a1.length + strlen name) 61)
      else (a1.length, write_bytes zeroBuf 0 a1))
      = ((if a1.length + strlen name + 1 < 4096 then a1 ++ c_chars name ++ [61] else a1).length,
         write_bytes zeroBuf 0
           (if a1.length + strlen name + 1 < 4096 then a1 ++ c_chars name ++ [61] else a1)) := by
  split_ifs with h
  · rw [strncpy_behind_text a1 name a1.length _ rfl (by omega),
      update_behind_text (a1 ++ c_chars name) 61 _ (by rw [List.length_append]; rfl),
      List.length_append, List.length_append]
    rfl
  · rfl

/-- The tab step of the column loop on a buffer that holds a text and zeros. -/
theorem tab_stage_text (acc : List Nat) (i : Nat) :
    (if 0 < i then (acc.length + 1, Function.update (write_bytes zeroBuf 0 acc) acc.length 9)
      else (acc.length, write_bytes zeroBuf 0 acc))
      = ((if 0 < i then acc ++ [9] else acc).length,
         write_bytes zeroBuf 0 (if 0 < i then acc ++ [9] else acc)) := by
  split_ifs
  · rw [update_behind_text acc 9 acc.length rfl, List.length_append]; rfl
  · rfl

/-- The column loop of `autumn_sqlite3_query` on a buffer that holds the text
`acc` and zeros: it leaves the text of `row_text_loop` and zeros. -/
theorem sqlite_row_loop_text (names values : List (Option (List Nat))) :
    ∀ (n i : Nat) (acc : List Nat),
      FfiDemoSqlite.row_loop names values n i acc.length (write_bytes zeroBuf 0 acc)
        = ((row_text_loop names values n i acc).1,
           (row_text_loop names values n i acc).2.length,
           write_bytes zeroBuf 0 (row_text_loop names values n i acc).2) := by
  intro n
  induction n with
  | zero => intro i acc; rfl
  | succ n ih =>
    intro i acc
    rw [FfiDemoSqlite.row_loop, row_text_loop]
    by_cases hpos : acc.length < 4095
    · simp only [hpos, if_true, and_true]
      rw [← ih (i + 1) (column_pass names values i acc)]
      unfold column_pass tab_step
      simp only [hpos, and_true]
      rw [tab_stage_text acc i]
      generalize (if 0 < i then acc ++ [9] else acc) = a1
      simp only []
      cases hn : names.getD i none with
      | none =>
        simp only [name_step]
        cases hv : values.getD i none with
        | none => simp only [value_step]
        | some value => simp only [value_step]; rw [value_stage_text a1 value]
      | some name =>
        simp only [name_step]
        rw [sqlite_name_stage_text a1 name]
        generalize (if a1.length + strlen name + 1 < 4096 then a1 ++ c_chars name ++ [61] else a1) = a2
        simp only []
        cases hv : values.getD i none with
        | none => simp only [value_step]
        | some value => simp only [value_step]; rw [value_stage_text a2 value]
    · simp only [hpos, if_false]

/-- The column loop of `autumn_mysql_query` on a buffer that holds the text
`acc` and zeros: it leaves the text of `row_text_loop` and zeros. -/
theorem mysql_row_loop_text (names values : List (Option (List Nat))) :
    ∀ (n i : Nat) (acc : List Nat),
      MysqlDemo.row_loop names values n i acc.length (write_bytes zeroBuf 0 acc)
        = ((row_text_loop names values n i acc).1,
           (row_text_loop names values n i acc).2.length,
           write_bytes zeroBuf 0 (row_text_loop names values n i acc).2) := by
  intro n
  induction n with
  | zero => intro i acc; rfl
  | succ n ih =>
    intro i acc
    rw [MysqlDemo.row_loop, row_text_loop]
    by_cases hpos : acc.length < 4095
    · simp only [hpos, if_true, and_true]
      rw [← ih (i + 1) (column_pass names values i acc)]
      unfold column_pass tab_step
      simp only [hpos, and_true]
      rw [tab_stage_text acc i]
      generalize (if 0 < i then acc ++ [9] else acc) = a1
      simp only []
      cases hn : names.getD i none with
      | none =>
        simp only [name_step]
        cases hv : values.getD i none with
        | none => simp only [value_step]
        | some value => simp only [value_step]; rw [value_stage_text a1 value]
      | some name =>
        simp only [name_step]
        rw [mysql_name_stage_text a1 name]
        generalize (if a1.length + strlen name + 1 < 4096 then a1 ++ c_chars name ++ [61] else a1) = a2
        simp only []
        cases hv : values.getD i none with
        | none => simp only [value_step]
        | some value => simp only [value_step]; rw [value_stage_text a2 value]
    · simp only [hpos, if_false]

/-- No byte of `c_chars s` is zero. -/
theorem c_chars_nonzero (s : List Nat) : ∀ b ∈ c_chars s, b ≠ 0 := by
  intro b hb
  have h := List.mem_takeWhile_imp hb
  simpa using h

/-- The tab step appends a tab, for a column other than the first, or nothing. -/
theorem tab_step_eq (i : Nat) (acc : List Nat) :
    ∃ t : List Nat, tab_step i acc = acc ++ t ∧ (t = [] ∨ (0 < i ∧ t = [9]))
      ∧ (acc.length ≤ 4095 → (acc ++ t).length ≤ 4095) := by
  unfold tab_step
  by_cases h : 0 < i ∧ acc.length < 4095
  · exact ⟨[9], by rw [if_pos h], Or.inr ⟨h.1, rfl⟩, fun _ => by
      rw [List.length_append, List.length_singleton]; omega⟩
  · exact ⟨[], by rw [if_neg h, List.append_nil], Or.inl rfl, fun h2 => by
      rw [List.append_nil]; exact h2⟩

/-- The name step appends the whole name and `=`, or nothing. -/
theorem name_step_eq (name : Option (List Nat)) (a1 : List Nat) :
    ∃ nm : List Nat, name_step name a1 = a1 ++ nm
      ∧ (nm = [] ∨ name.map (fun s => c_chars s ++ [61]) = some nm)
      ∧ (a1.length ≤ 4095 → (a1 ++ nm).length ≤ 4095) := by
  cases name with
  | none => exact ⟨[], by simp [name_step], Or.inl rfl, fun h => by simpa using h⟩
  | some s =>
    simp only [name_step]
    by_cases h : a1.length + strlen s + 1 < 4096
    · refine ⟨c_chars s ++ [61], by rw [if_pos h, List.append_assoc], Or.inr rfl, fun _ => ?_⟩
      rw [List.length_append, List.length_append, List.length_singleton]
      unfold strlen at h
      omega
    · exact ⟨[], by rw [if_neg h, List.append_nil], Or.inl rfl, fun h2 => by
        rw [List.append_nil]; exact h2⟩

/-- The value step appends the whole value, or nothing. -/
theorem value_step_eq (value : Option (List Nat)) (a2 : List Nat) :
    ∃ v : List Nat, value_step value a2 = a2 ++ v
      ∧ (v = [] ∨ value.map c_chars = some v)
      ∧ (a2.length ≤ 4095 → (a2 ++ v).length ≤ 4095) := by
  cases value with
  | none => exact ⟨[], by simp [value_step], Or.inl rfl, fun h => by simpa using h⟩
  | some s =>
    simp only [value_step]
    by_cases h : a2.length + strlen s < 4096
    · refine ⟨c_chars s, by rw [if_pos h], Or.inr rfl, fun _ => ?_⟩
      rw [List.length_append]
      unfold strlen at h
      omega
    · exact ⟨[], by rw [if_neg h, List.append_nil], Or.inl rfl, fun h2 => by
        rw [List.append_nil]; exact h2⟩

/-- One pass of the column loop appends to the text: a tab or nothing, the name
and `=` or nothing, the value or nothing; and it keeps the text within 4095
bytes. -/
theorem column_pass_eq (names values : List (Option (List Nat))) (i : Nat) (acc : List Nat) :
    ∃ t nm v : List Nat,
      column_pass names values i acc = acc ++ (t ++ nm ++ v)
        ∧ (t = [] ∨ (0 < i ∧ t = [9]))
        ∧ (nm = [] ∨ (names.getD i none).map (fun s => c_chars s ++ [61]) = some nm)
        ∧ (v = [] ∨ (values.getD i none).map c_chars = some v)
        ∧ (acc.length ≤ 4095 → (column_pass names values i acc).length ≤ 4095) := by
  obtain ⟨t, ht, ht2, ht3⟩ := tab_step_eq i acc
  obtain ⟨nm, hn, hn2, hn3⟩ := name_step_eq (names.getD i none) (acc ++ t)
  obtain ⟨v, hv, hv2, hv3⟩ := value_step_eq (values.getD i none) (acc ++ t ++ nm)
  have he : column_pass names values i acc = acc ++ (t ++ nm ++ v) := by
    unfold column_pass
    rw [ht, hn, hv]
    simp only [List.append_assoc]
  refine ⟨t, nm, v, he, ht2, hn2, hv2, fun h => ?_⟩
  rw [he]
  have h3 := hv3 (hn3 (ht3 h))
  simpa only [List.append_assoc] using h3

/-- A pass of the column loop adds no zero byte. -/
theorem column_pass_nonzero (names values : List (Option (List Nat))) (i : Nat) (acc : List Nat)
    (hacc : ∀ b ∈ acc, b ≠ 0) : ∀ b ∈ column_pass names values i acc, b ≠ 0 := by
  obtain ⟨t, nm, v, he, ht, hn, hv, _⟩ := column_pass_eq names values i acc
  rw [he]
  intro b hb
  simp only [List.mem_append] at hb
  rcases hb with hb | (hb | hb) | hb
  · exact hacc b hb
  · rcases ht with ht | ⟨_, ht⟩
    · rw [ht] at hb; simp at hb
    · rw [ht] at hb; simp at hb; omega
  · rcases hn with hn | hn
    · rw [hn] at hb; simp at hb
    · cases hnm : names.getD i none with
      | none => rw [hnm] at hn; simp at hn
      | some s =>
        rw [hnm] at hn
        simp only [Option.map_some', Option.some.injEq] at hn
        rw [← hn, List.mem_append] at hb
        rcases hb with hb | hb
        · exact c_chars_nonzero s b hb
        · simp at hb; omega
  · rcases hv with hv | hv
    · rw [hv] at hb; simp at hb
    · cases hvl : values.getD i none with
      | none => rw [hvl] at hv; simp at hv
      | some s =>
        rw [hvl] at hv
        simp only [Option.map_some', Option.some.injEq] at hv
        rw [← hv] at hb
        exact c_chars_nonzero s b hb

/-- The column loop keeps a text without a zero byte and within 4095 bytes so. -/
theorem row_text_loop_bounds (names values : List (Option (List Nat))) :
    ∀ (n i : Nat) (acc : List Nat), (∀ b ∈ acc, b ≠ 0) → acc.length ≤ 4095 →
      (∀ b ∈ (row_text_loop names values n i acc).2, b ≠ 0)
        ∧ (row_text_loop names values n i acc).2.length ≤ 4095 := by
  intro n
  induction n with
  | zero => intro i acc h1 h2; exact ⟨h1, h2⟩
  | succ n ih =>
    intro i acc h1 h2
    rw [row_text_loop]
    split_ifs with h
    · obtain ⟨_, _, _, _, _, _, _, hl⟩ := column_pass_eq names values i acc
      exact ih (i + 1) _ (column_pass_nonzero names values i acc h1) (hl h2)
    · exact ⟨h1, h2⟩

/-- The text in a buffer that holds `bs`, free of zero bytes and shorter than the
buffer, and zeros. -/
theorem c_string_at_text (bs : List Nat) (size : Nat)
    (hnz : ∀ b ∈ bs, b ≠ 0) (hlen : bs.length < size) :
    c_string_at (write_bytes zeroBuf 0 bs) size = bs := by
  have h := write_bytes_behind_text [] bs 1 0 rfl
  rw [write_bytes_nil, List.nil_append] at h
  rw [← h]
  exact c_string_at_write_bytes zeroBuf bs size hnz hlen

/-- The row buffer of `autumn_sqlite3_query` holds the text of `row_text_loop`. -/
theorem sqlite_serialize_row_text (names values : List (Option (List Nat))) :
    c_string_at (FfiDemoSqlite.serialize_row names values) 4096
      = (row_text_loop names values names.length 0 []).2 := by
  unfold FfiDemoSqlite.serialize_row
  have h := sqlite_row_loop_text names values names.length 0 []
  rw [List.length_nil, write_bytes_nil] at h
  rw [h]
  have hb := row_text_loop_bounds names values names.length 0 [] (by simp) (by simp)
  exact c_string_at_text _ 4096 hb.1 (by omega)

/-- The row buffer of `autumn_mysql_query` holds the text of `row_text_loop`. -/
theorem mysql_serialize_row_text (names values : List (Option (List Nat))) :
    c_string_at (MysqlDemo.serialize_row names values) 4096
      = (row_text_loop names values names.length 0 []).2 := by
  unfold MysqlDemo.serialize_row
  have h := mysql_row_loop_text names values names.length 0 []
  rw [List.length_nil, write_bytes_nil] at h
  rw [h]
  have hb := row_text_loop_bounds names values names.length 0 [] (by simp) (by simp)
  exact c_string_at_text _ 4096 hb.1 (by omega)

/-- Joining with a separator, one more item at the end. -/
theorem intercalate_snoc (sep : List Nat) :
    ∀ (l : List (List Nat)) (x : List Nat),
      List.intercalate sep (l ++ [x])
        = (if 0 < l.length then List.intercalate sep l ++ sep else List.intercalate sep l) ++ x := by
  intro l
  induction l with
  | nil => intro x; simp [List.intercalate]
  | cons y ys ih =>
    intro x
    cases ys with
    | nil => simp [List.intercalate]
    | cons z zs =>
      have h := ih x
      simp only [List.length_cons, Nat.zero_lt_succ, if_true] at h
      simp only [List.intercalate, List.cons_append, List.intersperse_cons₂, List.flatten_cons,
        List.length_cons, Nat.zero_lt_succ, if_true, List.append_assoc] at h ⊢
      rw [h]

/-- The text of a row with one more column at the end. -/
theorem row_text_snoc (pre : List (List Nat × Option (List Nat))) (c : List Nat × Option (List Nat)) :
    row_text (pre ++ [c])
      = (if 0 < pre.length then row_text pre ++ [9] else row_text pre) ++ column_text c := by
  unfold row_text
  rw [List.map_append, List.map_singleton, intercalate_snoc, List.length_map]

/-- The text of a row is at least as long as the text of its first columns. -/
theorem row_text_length_mono (post : List (List Nat × Option (List Nat))) :
    ∀ pre : List (List Nat × Option (List Nat)),
      (row_text pre).length ≤ (row_text (pre ++ post)).length := by
  induction post with
  | nil => intro pre; rw [List.append_nil]
  | cons c rest ih =>
    intro pre
    have h1 := ih (pre ++ [c])
    rw [List.append_assoc, List.singleton_append] at h1
    have h2 : (row_text pre).length < (row_text (pre ++ [c])).length := by
      rw [row_text_snoc]
      unfold column_text
      split_ifs <;> simp only [List.length_append, List.length_singleton] <;> omega
    omega

/-- The item right behind a first part of a list. -/
theorem getD_append_cons {α : Type} (l1 : List α) (x : α) (l2 : List α) (d : α) :
    (l1 ++ x :: l2).getD l1.length d = x := by
  induction l1 with
  | nil => rfl
  | cons y ys ih => simpa using ih

/-- The name step and the value step write a whole column when it fits. -/
theorem column_steps_whole (a1 : List Nat) (c : List Nat × Option (List Nat))
    (hn : ∀ b ∈ c.1, b ≠ 0) (hv : ∀ v, c.2 = some v → ∀ b ∈ v, b ≠ 0)
    (hlen : (a1 ++ column_text c).length ≤ 4095) :
    value_step c.2 (name_step (some c.1) a1) = a1 ++ column_text c := by
  obtain ⟨name, value⟩ := c
  simp only [column_text, List.length_append, List.length_singleton] at hlen ⊢
  simp only at hn hv
  have hs : strlen name = name.length := by unfold strlen; rw [c_chars_of_nonzero name hn]
  have h1 : a1.length + strlen name + 1 < 4096 := by omega
  simp only [name_step, if_pos h1, c_chars_of_nonzero name hn]
  cases value with
  | none => simp [value_step]
  | some v =>
    have hvz := hv v rfl
    have hs2 : strlen v = v.length := by unfold strlen; rw [c_chars_of_nonzero v hvz]
    simp only [Option.getD_some] at hlen ⊢
    simp only [value_step, c_chars_of_nonzero v hvz, List.append_assoc]
    rw [if_pos (by simp only [List.length_append, List.length_singleton]; omega)]

/-- One pass of the column loop writes a whole column, and the tab before it,
when the row fits so far. -/
theorem column_pass_whole (names values : List (Option (List Nat)))
    (pre : List (List Nat × Option (List Nat))) (c : List Nat × Option (List Nat))
    (hname : names.getD pre.length none = some c.1) (hvalue : values.getD pre.length none = c.2)
    (hn : ∀ b ∈ c.1, b ≠ 0) (hv : ∀ v, c.2 = some v → ∀ b ∈ v, b ≠ 0)
    (hlen : (row_text (pre ++ [c])).length ≤ 4095) :
    column_pass names values pre.length (row_text pre) = row_text (pre ++ [c]) := by
  rw [row_text_snoc] at hlen ⊢
  unfold column_pass
  rw [hname, hvalue]
  have hc : 1 ≤ (column_text c).length := by
    unfold column_text; simp only [List.length_append, List.length_singleton]; omega
  have ht : tab_step pre.length (row_text pre)
      = (if 0 < pre.length then row_text pre ++ [9] else row_text pre) := by
    unfold tab_step
    by_cases h0 : 0 < pre.length
    · have h1 : (row_text pre).length < 4095 := by
        rw [if_pos h0] at hlen
        simp only [List.length_append, List.length_singleton] at hlen
        omega
      rw [if_pos ⟨h0, h1⟩, if_pos h0]
    · rw [if_neg (fun h => h0 h.1), if_neg h0]
  rw [ht]
  exact column_steps_whole _ c hn hv hlen

/-- The column loop over columns that fit: after the passes for the columns
`mid` the text is the text of the row so far. -/
theorem row_text_loop_whole (cols : List (List Nat × Option (List Nat)))
    (hn : ∀ c ∈ cols, ∀ b ∈ c.1, b ≠ 0) (hv : ∀ c ∈ cols, ∀ v, c.2 = some v → ∀ b ∈ v, b ≠ 0) :
    ∀ (mid pre rest : List (List Nat × Option (List Nat))) (n : Nat),
      cols = pre ++ mid ++ rest → (row_text (pre ++ mid)).length ≤ 4095 →
      row_text_loop (cols.map (fun c => some c.1)) (cols.map (fun c => c.2))
          (mid.length + n) pre.length (row_text pre)
        = row_text_loop (cols.map (fun c => some c.1)) (cols.map (fun c => c.2))
          n (pre ++ mid).length (row_text (pre ++ mid)) := by
  intro mid
  induction mid with
  | nil => intro pre rest n _ _; simp
  | cons c m ih =>
    intro pre rest n hcols hlen
    have hsplit : pre ++ c :: m = (pre ++ [c]) ++ m := by simp
    rw [hsplit] at hcols hlen ⊢
    have hmem : c ∈ cols := by rw [hcols]; simp
    have hl1 : (row_text (pre ++ [c])).length ≤ 4095 :=
      Nat.le_trans (row_text_length_mono m (pre ++ [c])) hlen
    have hl0 : (row_text pre).length < 4095 := by
      have h := hl1
      rw [row_text_snoc] at h
      unfold column_text at h
      split_ifs at h <;> simp only [List.length_append, List.length_singleton] at h <;> omega
    have hname : (cols.map (fun c => some c.1)).getD pre.length none = some c.1 := by
      rw [hcols]
      simp only [List.map_append, List.map_cons, List.map_nil, List.append_assoc,
        List.singleton_append]
      have h := getD_append_cons (pre.map (fun c => some c.1)) (some c.1)
        (m.map (fun c => some c.1) ++ rest.map (fun c => some c.1)) none
      rw [List.length_map] at h
      exact h
    have hvalue : (cols.map (fun c => c.2)).getD pre.length none = c.2 := by
      rw [hcols]
      simp only [List.map_append, List.map_cons, List.map_nil, List.append_assoc,
        List.singleton_append]
      have h := getD_append_cons (pre.map (fun c => c.2)) c.2
        (m.map (fun c => c.2) ++ rest.map (fun c => c.2)) none
      rw [List.length_map] at h
      exact h
    have hstep := column_pass_whole _ _ pre c hname hvalue (hn c hmem) (hv c hmem) hl1
    have hlenm : (c :: m).length + n = (m.length + n) + 1 := by simp; omega
    rw [hlenm, row_text_loop, if_pos hl0, hstep]
    have h2 := ih (pre ++ [c]) rest n hcols hlen
    rw [List.length_append, List.length_singleton] at h2
    exact h2

/-- The text of no column. -/
theorem row_text_nil : row_text [] = [] := rfl

/-- The column loop over a whole row that fits leaves the text of the row. -/
theorem row_text_loop_fits (cols : List (List Nat × Option (List Nat)))
    (hn : ∀ c ∈ cols, ∀ b ∈ c.1, b ≠ 0) (hv : ∀ c ∈ cols, ∀ b ∈ c.2.getD [], b ≠ 0)
    (hlen : (row_text cols).length ≤ 4095) :
    (row_text_loop (cols.map (fun c => some c.1)) (cols.map (fun c => c.2)) cols.length 0 []).2
      = row_text cols := by
  have hv2 : ∀ c ∈ cols, ∀ v, c.2 = some v → ∀ b ∈ v, b ≠ 0 := by
    intro c hc v hcv b hb
    have h := hv c hc b
    rw [hcv] at h
    exact h hb
  have h := row_text_loop_whole cols hn hv2 cols [] [] 0 (by simp) (by simpa using hlen)
  rw [List.length_nil, row_text_nil, List.nil_append, Nat.add_zero] at h
  rw [h]
  rfl

/-- C13: for a row whose columns `(name, value)` hold no zero byte and whose full
serialization has at most 4095 bytes, the text that `autumn_sqlite3_query` and
`autumn_mysql_query` build in the row buffer is `name=value` for each column in
order, one tab between two columns and none at the end; a NULL value gives
nothing behind its `=`. -/
theorem C13_row_text_is_tab_separated (cols : List (List Nat × Option (List Nat)))
    (hn : ∀ c ∈ cols, ∀ b ∈ c.1, b ≠ 0) (hv : ∀ c ∈ cols, ∀ b ∈ c.2.getD [], b ≠ 0)
    (hlen : (row_text cols).length ≤ 4095) :
    c_string_at (FfiDemoSqlite.serialize_row (cols.map (fun c => some c.1))
        (cols.map (fun c => c.2))) 4096 = row_text cols
      ∧ c_string_at (MysqlDemo.serialize_row (cols.map (fun c => some c.1))
        (cols.map (fun c => c.2))) 4096 = row_text cols := by
  rw [sqlite_serialize_row_text, mysql_serialize_row_text, List.length_map]
  exact ⟨row_text_loop_fits cols hn hv hlen, row_text_loop_fits cols hn hv hlen⟩

/-- C13 at the row `id=1`, `n=NULL`: the text is `id=1<TAB>n=`. -/
theorem C13_row_text_is_tab_separated_witness :
    (row_text [([105, 100], some [49]), ([110], none)]).length ≤ 4095
      ∧ c_string_at (FfiDemoSqlite.serialize_row [some [105, 100], some [110]]
          [some [49], none]) 4096 = [105, 100, 61, 49, 9, 110, 61]
      ∧ c_string_at (MysqlDemo.serialize_row [some [105, 100], some [110]]
          [some [49], none]) 4096 = [105, 100, 61, 49, 9, 110, 61] :=
  ⟨by decide,
   C13_row_text_is_tab_separated [([105, 100], some [49]), ([110], none)]
     (by decide) (by decide) (by decide)⟩

/-- The column loop only appends, one piece for each pass: a tab or nothing, a
whole name and `=` or nothing, a whole value or nothing. -/
theorem row_text_loop_pieces (names values : List (Option (List Nat))) :
    ∀ (n i : Nat) (acc : List Nat),
      ∃ pieces : List (List Nat × List Nat × List Nat),
        pieces.length ≤ n
          ∧ (row_text_loop names values n i acc).2
              = acc ++ (pieces.map (fun p => p.1 ++ p.2.1 ++ p.2.2)).flatten
          ∧ ∀ (j : Nat) (p : List Nat × List Nat × List Nat), pieces[j]? = some p →
              (p.1 = [] ∨ (0 < i + j ∧ p.1 = [9]))
                ∧ (p.2.1 = [] ∨ (names.getD (i + j) none).map (fun s => c_chars s ++ [61]) = some p.2.1)
                ∧ (p.2.2 = [] ∨ (values.getD (i + j) none).map c_chars = some p.2.2) := by
  intro n
  induction n with
  | zero =>
    intro i acc
    exact ⟨[], Nat.le_refl _, by simp [row_text_loop], fun j p h => by simp at h⟩
  | succ n ih =>
    intro i acc
    rw [row_text_loop]
    split_ifs with hpos
    · obtain ⟨t, nm, v, he, ht, hn, hv, _⟩ := column_pass_eq names values i acc
      obtain ⟨ps, hps1, hps2, hps3⟩ := ih (i + 1) (column_pass names values i acc)
      refine ⟨(t, nm, v) :: ps, by simp only [List.length_cons]; omega, ?_, ?_⟩
      · rw [hps2, he]
        simp only [List.map_cons, List.flatten_cons, List.append_assoc]
      · intro j p hj
        cases j with
        | zero =>
          simp only [List.getElem?_cons_zero, Option.some.injEq] at hj
          subst hj
          exact ⟨ht, hn, hv⟩
        | succ j =>
          simp only [List.getElem?_cons_succ] at hj
          have h := hps3 j p hj
          have e : i + 1 + j = i + (j + 1) := by omega
          rw [e] at h
          exact h
    · exact ⟨[], Nat.zero_le _, by simp, fun j p h => by simp at h⟩

/-- C14 (counterexample): the first column is `a` with a value of 4095 bytes, so
the pair does not fit in the empty row buffer; the second column is `b=1`.  The
row buffer of both wrappers holds `a=<TAB>b=1` and not the empty serialization of
the columns before the first: the name `a` is there without its value, and the
later column `b` is there. -/
theorem C14_name_without_value_and_later_column :
    4095 < (column_text ([97], some (List.replicate 4095 120))).length
      ∧ row_text (List.take 0 [([97], some (List.replicate 4095 120)), ([98], some [49])]) = []
      ∧ c_string_at (FfiDemoSqlite.serialize_row [some [97], some [98]]
          [some (List.replicate 4095 120), some [49]]) 4096 = [97, 61, 9, 98, 61, 49]
      ∧ c_string_at (MysqlDemo.serialize_row [some [97], some [98]]
          [some (List.replicate 4095 120), some [49]]) 4096 = [97, 61, 9, 98, 61, 49] := by
  have hlen : strlen (List.replicate 4095 120) = 4095 := by
    unfold strlen
    rw [c_chars_of_nonzero _ (fun b hb => by rw [List.eq_of_mem_replicate hb]; decide)]
    exact List.length_replicate _ _
  have key : ∀ v : List Nat, strlen v = 4095 →
      (row_text_loop [some [97], some [98]] [some v, some [49]] 2 0 []).2
        = [97, 61, 9, 98, 61, 49] := by
    intro v hv
    have h1 : strlen [97] = 1 := by decide
    have h2 : strlen [98] = 1 := by decide
    have h3 : strlen [49] = 1 := by decide
    have c1 : c_chars [97] = [97] := by decide
    have c2 : c_chars [98] = [98] := by decide
    have c3 : c_chars [49] = [49] := by decide
    simp [row_text_loop, column_pass, tab_step, name_step, value_step, hv, h1, h2, h3, c1, c2, c3]
  refine ⟨?_, rfl, ?_, ?_⟩
  · simp only [column_text, List.length_append, List.length_replicate, List.length_singleton,
      Option.getD_some]
    decide
  · rw [sqlite_serialize_row_text]
    exact key _ hlen
  · rw [mysql_serialize_row_text]
    exact key _ hlen

/-- For a row whose names and values hold no zero byte, the row
buffer of both wrappers holds the same text of at most 4095 bytes; the
serialization of the first `k` columns, when it fits in 4095 bytes, is the
beginning of that text; and the text is made of one piece for each column the
loop went through, in order: a tab or nothing (nothing for the first column),
the whole name and `=` or nothing, the whole value or nothing. -/
theorem row_text_fitting_columns_and_pieces
    (cols : List (List Nat × Option (List Nat))) (k : Nat)
    (hn : ∀ c ∈ cols, ∀ b ∈ c.1, b ≠ 0) (hv : ∀ c ∈ cols, ∀ b ∈ c.2.getD [], b ≠ 0)
    (hfit : (row_text (cols.take k)).length ≤ 4095) :
    c_string_at (MysqlDemo.serialize_row (cols.map (fun c => some c.1))
        (cols.map (fun c => c.2))) 4096
        = c_string_at (FfiDemoSqlite.serialize_row (cols.map (fun c => some c.1))
            (cols.map (fun c => c.2))) 4096
      ∧ (c_string_at (FfiDemoSqlite.serialize_row (cols.map (fun c => some c.1))
            (cols.map (fun c => c.2))) 4096).length ≤ 4095
      ∧ row_text (cols.take k) <+:
          c_string_at (FfiDemoSqlite.serialize_row (cols.map (fun c => some c.1))
            (cols.map (fun c => c.2))) 4096
      ∧ ∃ pieces : List (List Nat × List Nat × List Nat),
          pieces.length ≤ cols.length
            ∧ c_string_at (FfiDemoSqlite.serialize_row (cols.map (fun c => some c.1))
                (cols.map (fun c => c.2))) 4096
                = (pieces.map (fun p => p.1 ++ p.2.1 ++ p.2.2)).flatten
            ∧ ∀ (j : Nat) (p : List Nat × List Nat × List Nat), pieces[j]? = some p →
                ∃ c, cols[j]? = some c
                  ∧ (p.1 = [] ∨ (0 < j ∧ p.1 = [9]))
                  ∧ (p.2.1 = [] ∨ p.2.1 = c.1 ++ [61])
                  ∧ (p.2.2 = [] ∨ p.2.2 = c.2.getD []) := by
  rw [sqlite_serialize_row_text, mysql_serialize_row_text, List.length_map]
  have hv2 : ∀ c ∈ cols, ∀ v, c.2 = some v → ∀ b ∈ v, b ≠ 0 := by
    intro c hc v hcv b hb
    have h := hv c hc b
    rw [hcv] at h
    exact h hb
  refine ⟨rfl, ?_, ?_, ?_⟩
  · exact (row_text_loop_bounds _ _ cols.length 0 [] (by simp) (by simp)).2
  · have hsplit : cols = [] ++ cols.take k ++ cols.drop k := by simp
    have hcount : cols.length = (cols.take k).length + (cols.length - (cols.take k).length) := by
      have h : (cols.take k).length = min k cols.length := List.length_take k cols
      omega
    have h := row_text_loop_whole cols hn hv2 (cols.take k) [] (cols.drop k)
      (cols.length - (cols.take k).length) hsplit (by simpa using hfit)
    rw [← hcount, List.length_nil, row_text_nil, List.nil_append] at h
    rw [h]
    obtain ⟨ps, _, hps, _⟩ := row_text_loop_pieces (cols.map (fun c => some c.1))
      (cols.map (fun c => c.2)) (cols.length - (cols.take k).length) (cols.take k).length
      (row_text (cols.take k))
    rw [hps]
    exact List.prefix_append _ _
  · obtain ⟨ps, hps1, hps2, hps3⟩ := row_text_loop_pieces (cols.map (fun c => some c.1))
      (cols.map (fun c => c.2)) cols.length 0 []
    refine ⟨ps, hps1, by rw [hps2, List.nil_append], ?_⟩
    intro j p hj
    have hjlt : j < ps.length := by
      by_contra hcon
      rw [List.getElem?_eq_none (by omega)] at hj
      exact Option.noConfusion hj
    have hjc : j < cols.length := by omega
    obtain ⟨h1, h2, h3⟩ := hps3 j p hj
    rw [Nat.zero_add] at h1 h2 h3
    have hmem : cols[j] ∈ cols := List.getElem_mem hjc
    refine ⟨cols[j], List.getElem?_eq_getElem hjc, h1, ?_, ?_⟩
    · rcases h2 with h2 | h2
      · exact Or.inl h2
      · right
        have e : (cols.map (fun c => some c.1)).getD j none = some (cols[j]).1 := by
          simp [List.getD_eq_getElem?_getD, List.getElem?_eq_getElem hjc]
        rw [e] at h2
        simp only [Option.map_some', Option.some.injEq] at h2
        rw [← h2, c_chars_of_nonzero _ (hn _ hmem)]
    · rcases h3 with h3 | h3
      · exact Or.inl h3
      · right
        have e : (cols.map (fun c => c.2)).getD j none = (cols[j]).2 := by
          simp [List.getD_eq_getElem?_getD, List.getElem?_eq_getElem hjc]
        rw [e] at h3
        cases hc2 : (cols[j]).2 with
        | none => rw [hc2] at h3; simp at h3
        | some v =>
          rw [hc2] at h3
          simp only [Option.map_some', Option.some.injEq] at h3
          rw [← h3, c_chars_of_nonzero _ (hv2 _ hmem v hc2)]
          rfl

/-- A column adds nothing to a text of 4095 bytes or more. -/
theorem amended_column_full (first : Bool) (c : List Nat × Option (List Nat)) (text : List Nat)
    (h : 4095 ≤ text.length) : amended_column first c text = text := by
  unfold amended_column
  have h1 : ¬ (first = false ∧ text.length + 1 ≤ 4095) := by omega
  have h2 : ¬ (text.length + c.1.length + 1 ≤ 4095) := by omega
  simp only [if_neg h1, if_neg h2]
  split_ifs with h3
  · have h4 : (c.2.getD []).length = 0 := by omega
    rw [List.length_eq_zero.mp h4, List.append_nil]
  · rfl

/-- Columns add nothing to a text of 4095 bytes or more. -/
theorem amended_row_text_from_full :
    ∀ (cols : List (List Nat × Option (List Nat))) (first : Bool) (text : List Nat),
      4095 ≤ text.length → amended_row_text_from cols first text = text := by
  intro cols
  induction cols with
  | nil => intro first text _; rfl
  | cons c rest ih =>
    intro first text h
    rw [amended_row_text_from, amended_column_full first c text h]
    exact ih false text h

/-- One pass of the column loop, for a column with a name and without a zero
byte, writes what the amended description says. -/
theorem column_pass_amended (names values : List (Option (List Nat))) (i : Nat)
    (c : List Nat × Option (List Nat)) (acc : List Nat)
    (hname : names.getD i none = some c.1) (hvalue : values.getD i none = c.2)
    (hn : ∀ b ∈ c.1, b ≠ 0) (hv : ∀ b ∈ c.2.getD [], b ≠ 0) :
    column_pass names values i acc = amended_column (decide (i = 0)) c acc := by
  obtain ⟨name, value⟩ := c
  simp only at hname hvalue hn hv
  have hsn : strlen name = name.length := by unfold strlen; rw [c_chars_of_nonzero name hn]
  have hcn : c_chars name = name := c_chars_of_nonzero name hn
  unfold column_pass amended_column tab_step
  rw [hname, hvalue]
  have htab : (0 < i ∧ acc.length < 4095) ↔ (decide (i = 0) = false ∧ acc.length + 1 ≤ 4095) := by
    simp only [decide_eq_false_iff_not]
    omega
  simp only [htab, name_step, hsn, hcn]
  generalize (if decide (i = 0) = false ∧ acc.length + 1 ≤ 4095 then acc ++ [9] else acc) = a1
  have hname2 : (a1.length + name.length + 1 < 4096) ↔ (a1.length + name.length + 1 ≤ 4095) := by
    omega
  simp only [hname2]
  generalize (if a1.length + name.length + 1 ≤ 4095 then a1 ++ name ++ [61] else a1) = a2
  cases value with
  | none => simp [value_step]
  | some v =>
    simp only [Option.getD_some] at hv ⊢
    have hsv : strlen v = v.length := by unfold strlen; rw [c_chars_of_nonzero v hv]
    have hval : (a2.length + v.length < 4096) ↔ (a2.length + v.length ≤ 4095) := by omega
    simp only [value_step, hsv, c_chars_of_nonzero v hv, hval]

/-- The column loop over the columns `post` of a row writes what the amended
description says. -/
theorem row_text_loop_amended (cols : List (List Nat × Option (List Nat)))
    (hn : ∀ c ∈ cols, ∀ b ∈ c.1, b ≠ 0) (hv : ∀ c ∈ cols, ∀ b ∈ c.2.getD [], b ≠ 0) :
    ∀ (post pre : List (List Nat × Option (List Nat))) (acc : List Nat),
      cols = pre ++ post →
      (row_text_loop (cols.map (fun c => some c.1)) (cols.map (fun c => c.2))
          post.length pre.length acc).2
        = amended_row_text_from post (decide (pre.length = 0)) acc := by
  intro post
  induction post with
  | nil => intro pre acc _; rfl
  | cons c rest ih =>
    intro pre acc hcols
    have hcols2 : cols = (pre ++ [c]) ++ rest := by rw [hcols]; simp
    have hmem : c ∈ cols := by rw [hcols]; simp
    rw [List.length_cons, row_text_loop]
    by_cases hacc : acc.length < 4095
    · rw [if_pos hacc]
      have hname : (cols.map (fun c => some c.1)).getD pre.length none = some c.1 := by
        rw [hcols]
        simp only [List.map_append, List.map_cons]
        have h := getD_append_cons (pre.map (fun c => some c.1)) (some c.1)
          (rest.map (fun c => some c.1)) none
        rw [List.length_map] at h
        exact h
      have hvalue : (cols.map (fun c => c.2)).getD pre.length none = c.2 := by
        rw [hcols]
        simp only [List.map_append, List.map_cons]
        have h := getD_append_cons (pre.map (fun c => c.2)) c.2 (rest.map (fun c => c.2)) none
        rw [List.length_map] at h
        exact h
      rw [column_pass_amended _ _ pre.length c acc hname hvalue (hn c hmem) (hv c hmem)]
      have h2 := ih (pre ++ [c]) (amended_column (decide (pre.length = 0)) c acc) hcols2
      rw [List.length_append, List.length_singleton] at h2
      rw [h2, amended_row_text_from]
      have hf : decide (pre.length + 1 = 0) = false := by simp
      rw [hf]
    · rw [if_neg hacc]
      exact (amended_row_text_from_full (c :: rest) _ acc (by omega)).symm

/-- The row buffer of both wrappers holds the text of the amended description. -/
theorem serialize_row_amended (cols : List (List Nat × Option (List Nat)))
    (hn : ∀ c ∈ cols, ∀ b ∈ c.1, b ≠ 0) (hv : ∀ c ∈ cols, ∀ b ∈ c.2.getD [], b ≠ 0) :
    c_string_at (FfiDemoSqlite.serialize_row (cols.map (fun c => some c.1))
        (cols.map (fun c => c.2))) 4096 = amended_row_text cols
      ∧ c_string_at (MysqlDemo.serialize_row (cols.map (fun c => some c.1))
        (cols.map (fun c => c.2))) 4096 = amended_row_text cols := by
  rw [sqlite_serialize_row_text, mysql_serialize_row_text, List.length_map]
  have h := row_text_loop_amended cols hn hv cols [] [] (by simp)
  exact ⟨h, h⟩

/-- The amended description at a row whose first column has a name of one byte
and a value of 4095 bytes and whose second column has a name and a value of one
byte: the name of the first column, the tab and the second column. -/
theorem amended_row_text_truncated (a b x : Nat) (v : List Nat) (hv : v.length = 4095) :
    amended_row_text [([a], some v), ([b], some [x])] = [a, 61, 9, b, 61, x] := by
  simp [amended_row_text, amended_row_text_from, amended_column, hv]

/-- C14 (amended): for a row whose names and values hold no zero byte, the text
that `autumn_sqlite3_query` and `autumn_mysql_query` build in the row buffer is
the text of the amended description: column by column, a piece is written
exactly when the text stays within 4095 bytes with it, first the tab (not before
the first column), then the whole name and `=`, then the whole value, each
checked on its own.  The text has at most 4095 bytes, and the serialization of
the first `k` columns, when it fits in 4095 bytes, is the beginning of it. -/
theorem C14_each_piece_is_written_exactly_when_it_fits
    (cols : List (List Nat × Option (List Nat)))
    (hn : ∀ c ∈ cols, ∀ b ∈ c.1, b ≠ 0) (hv : ∀ c ∈ cols, ∀ b ∈ c.2.getD [], b ≠ 0) :
    c_string_at (FfiDemoSqlite.serialize_row (cols.map (fun c => some c.1))
        (cols.map (fun c => c.2))) 4096 = amended_row_text cols
      ∧ c_string_at (MysqlDemo.serialize_row (cols.map (fun c => some c.1))
        (cols.map (fun c => c.2))) 4096 = amended_row_text cols
      ∧ (amended_row_text cols).length ≤ 4095
      ∧ (∀ k : Nat, (row_text (cols.take k)).length ≤ 4095 →
          row_text (cols.take k) <+: amended_row_text cols) := by
  obtain ⟨h1, h2⟩ := serialize_row_amended cols hn hv
  refine ⟨h1, h2, ?_, fun k hk => ?_⟩
  · rw [← h1]
    exact (row_text_fitting_columns_and_pieces cols 0 hn hv (by simp [row_text_nil])).2.1
  · rw [← h1]
    exact (row_text_fitting_columns_and_pieces cols k hn hv hk).2.2.1

/-- The amended C14 at the row of the counterexample, the column `a` with a value
of 4095 bytes and the column `b` = `1`: the text of both wrappers is
`a=<TAB>b=1`. -/
theorem C14_each_piece_is_written_exactly_when_it_fits_witness :
    c_string_at (FfiDemoSqlite.serialize_row [some [97], some [98]]
        [some (List.replicate 4095 120), some [49]]) 4096 = [97, 61, 9, 98, 61, 49]
      ∧ c_string_at (MysqlDemo.serialize_row [some [97], some [98]]
        [some (List.replicate 4095 120), some [49]]) 4096 = [97, 61, 9, 98, 61, 49] :=
  ⟨(C14_each_piece_is_written_exactly_when_it_fits
      [([97], some (List.replicate 4095 120)), ([98], some [49])]
      (by decide)
      (fun c hc b hb => by
        simp only [List.mem_cons, List.mem_singleton, List.not_mem_nil, or_false] at hc
        rcases hc with rfl | rfl
        · rw [List.eq_of_mem_replicate hb]; decide
        · simp only [Option.getD_some, List.mem_singleton] at hb
          rw [hb]; decide)).1.trans
      (amended_row_text_truncated 97 98 49 _ (List.length_replicate _ _)),
   (C14_each_piece_is_written_exactly_when_it_fits
      [([97], some (List.replicate 4095 120)), ([98], some [49])]
      (by decide)
      (fun c hc b hb => by
        simp only [List.mem_cons, List.mem_singleton, List.not_mem_nil, or_false] at hc
        rcases hc with rfl | rfl
        · rw [List.eq_of_mem_replicate hb]; decide
        · simp only [Option.getD_some, List.mem_singleton] at hb
          rw [hb]; decide)).2.1.trans
      (amended_row_text_truncated 97 98 49 _ (List.length_replicate _ _))⟩

/-! ### Parameters of `autumn_sqlite3_exec_prepared` in the ffi-demo wrapper -/

/-- C22: `autumn_sqlite3_exec_prepared` of `src/ffi-demo/sqlite_wrapper.c` returns,
for every handle, SQL text and parameter list, the value of
`autumn_sqlite3_exec(handle, sql)` and leaves the same state (handle table,
conversion buffer, native calls); two parameter lists give the same outcome; and
the native calls it adds are `sqlite3_exec` and `sqlite3_free` only, so no
statement is prepared and no parameter is bound. -/
theorem C22_exec_prepared_is_exec :
    (∀ (w : FfiDemoSqlite.World) (handle : Int) (sql : MString) (params : List MString)
        (rc : Int) (errmsg : Ptr),
        autumn_sqlite3_exec_prepared w handle sql params rc errmsg
          = autumn_sqlite3_exec w handle sql rc errmsg)
    ∧ (∀ (w : FfiDemoSqlite.World) (handle : Int) (sql : MString) (params params2 : List MString)
        (rc : Int) (errmsg : Ptr),
        autumn_sqlite3_exec_prepared w handle sql params rc errmsg
          = autumn_sqlite3_exec_prepared w handle sql params2 rc errmsg)
    ∧ (∀ (w : FfiDemoSqlite.World) (handle : Int) (sql : MString) (params : List MString)
        (rc : Int) (errmsg : Ptr),
        (autumn_sqlite3_exec_prepared w handle sql params rc errmsg).2.db_handles = w.db_handles
          ∧ ∃ added : List FfiDemoSqlite.Call,
            (autumn_sqlite3_exec_prepared w handle sql params rc errmsg).2.trace = w.trace ++ added
              ∧ ∀ c ∈ added,
                  (∃ db text, c = FfiDemoSqlite.Call.sqlite3_exec db text)
                    ∨ (∃ p, c = FfiDemoSqlite.Call.sqlite3_free p)) := by
  refine ⟨fun w handle sql params rc errmsg => rfl,
    fun w handle sql params params2 rc errmsg => rfl, fun w handle sql params rc errmsg => ?_⟩
  unfold autumn_sqlite3_exec_prepared autumn_sqlite3_exec
  simp only []
  by_cases hdb : get_db w.db_handles handle = NULL
  · rw [if_pos hdb]
    exact ⟨rfl, [], by simp, fun c hc => by simp at hc⟩
  · rw [if_neg hdb]
    refine ⟨rfl, ?_⟩
    by_cases h1 : rc ≠ SQLITE_OK ∧ errmsg ≠ NULL
    · rw [if_pos h1]
      refine ⟨[FfiDemoSqlite.Call.sqlite3_exec (get_db w.db_handles handle)
          (deref (FfiDemoSqlite.get_c_string w.utf8_buffer sql).1
            (FfiDemoSqlite.get_c_string w.utf8_buffer sql).2),
          FfiDemoSqlite.Call.sqlite3_free errmsg],
        by rw [List.append_assoc]; rfl, fun c hc => ?_⟩
      simp only [List.mem_cons, List.mem_singleton, List.not_mem_nil, or_false] at hc
      rcases hc with hc | hc
      · exact Or.inl ⟨_, _, hc⟩
      · exact Or.inr ⟨_, hc⟩
    · rw [if_neg h1]
      by_cases h2 : errmsg ≠ NULL
      · rw [if_pos h2]
        refine ⟨[FfiDemoSqlite.Call.sqlite3_exec (get_db w.db_handles handle)
            (deref (FfiDemoSqlite.get_c_string w.utf8_buffer sql).1
              (FfiDemoSqlite.get_c_string w.utf8_buffer sql).2),
            FfiDemoSqlite.Call.sqlite3_free errmsg],
          by rw [List.append_assoc]; rfl, fun c hc => ?_⟩
        simp only [List.mem_cons, List.mem_singleton, List.not_mem_nil, or_false] at hc
        rcases hc with hc | hc
        · exact Or.inl ⟨_, _, hc⟩
        · exact Or.inr ⟨_, hc⟩
      · rw [if_neg h2]
        refine ⟨[FfiDemoSqlite.Call.sqlite3_exec _ _], rfl, fun c hc => ?_⟩
        simp only [List.mem_singleton] at hc
        exact Or.inl ⟨_, _, hc⟩

/-! ### Framing of the row text -/

/-- C23: the row text has no escaping and is not injective.  The row with the
single column `a` of value `1<TAB>b=2` and the row with the two columns `a` = `1`
and `b` = `2` are different, and `autumn_sqlite3_query` and `autumn_mysql_query`
build the same text `a=1<TAB>b=2` in the row buffer, hence the same row string,
for both. -/
theorem C23_row_text_is_not_injective :
    (([some [97]], [some [49, 9, 98, 61, 50]])
        : List (Option (List Nat)) × List (Option (List Nat)))
      ≠ ([some [97], some [98]], [some [49], some [50]])
    ∧ c_string_at (FfiDemoSqlite.serialize_row [some [97]] [some [49, 9, 98, 61, 50]]) 4096
        = [97, 61, 49, 9, 98, 61, 50]
    ∧ c_string_at (FfiDemoSqlite.serialize_row [some [97], some [98]] [some [49], some [50]]) 4096
        = [97, 61, 49, 9, 98, 61, 50]
    ∧ c_string_at (MysqlDemo.serialize_row [some [97]] [some [49, 9, 98, 61, 50]]) 4096
        = [97, 61, 49, 9, 98, 61, 50]
    ∧ c_string_at (MysqlDemo.serialize_row [some [97], some [98]] [some [49], some [50]]) 4096
        = [97, 61, 49, 9, 98, 61, 50]
    ∧ row_string (FfiDemoSqlite.serialize_row [some [97]] [some [49, 9, 98, 61, 50]])
        = row_string (FfiDemoSqlite.serialize_row [some [97], some [98]] [some [49], some [50]])
    ∧ row_string (MysqlDemo.serialize_row [some [97]] [some [49, 9, 98, 61, 50]])
        = row_string (MysqlDemo.serialize_row [some [97], some [98]] [some [49], some [50]]) := by
  have h1 : c_string_at (FfiDemoSqlite.serialize_row [some [97]] [some [49, 9, 98, 61, 50]]) 4096
      = [97, 61, 49, 9, 98, 61, 50] := by
    rw [sqlite_serialize_row_text]; decide
  have h2 : c_string_at (FfiDemoSqlite.serialize_row [some [97], some [98]]
      [some [49], some [50]]) 4096 = [97, 61, 49, 9, 98, 61, 50] := by
    rw [sqlite_serialize_row_text]; decide
  have h3 : c_string_at (MysqlDemo.serialize_row [some [97]] [some [49, 9, 98, 61, 50]]) 4096
      = [97, 61, 49, 9, 98, 61, 50] := by
    rw [mysql_serialize_row_text]; decide
  have h4 : c_string_at (MysqlDemo.serialize_row [some [97], some [98]]
      [some [49], some [50]]) 4096 = [97, 61, 49, 9, 98, 61, 50] := by
    rw [mysql_serialize_row_text]; decide
  refine ⟨by decide, h1, h2, h3, h4, ?_, ?_⟩
  · unfold row_string; rw [h1, h2]
  · unfold row_string; rw [h3, h4]

/-! ### Bounds of the row serializer -/

/-- The bytes `strncpy` writes are `n` bytes. -/
theorem strncpy_bytes_length (s : List Nat) (n : Nat) :
    ((c_chars s).take n ++ List.replicate (n - ((c_chars s).take n).length) 0).length = n := by
  have h := List.length_take_le n (c_chars s)
  rw [List.length_append, List.length_replicate]
  omega

/-- `strncpy` leaves the bytes outside of its `n` bytes as they were. -/
theorem strncpy_outside (b : CharBuf) (pos : Nat) (s : List Nat) (n k : Nat)
    (h : k < pos ∨ pos + n ≤ k) : strncpy b pos s n k = b k := by
  unfold strncpy
  exact write_bytes_outside b pos _ k (by rw [strncpy_bytes_length]; exact h)

/-- `strncpy` of a string that fits writes zero bytes behind the string. -/
theorem strncpy_zero_behind (b : CharBuf) (pos : Nat) (s : List Nat) (n k : Nat)
    (hn : strlen s ≤ n) (h1 : pos + strlen s ≤ k) (h2 : k < pos + n) :
    strncpy b pos s n k = 0 := by
  unfold strncpy
  have ht : (c_chars s).take n = c_chars s := List.take_of_length_le hn
  obtain ⟨m, rfl⟩ : ∃ m, k = pos + m := ⟨k - pos, by omega⟩
  rw [write_bytes_inside b pos _ m (by rw [strncpy_bytes_length]; omega), ht,
    getD_append_replicate_zero]
  unfold strlen at h1
  exact List.getD_eq_default _ _ (by omega)

/-- `strcpy` leaves the bytes outside of the string and its terminator as they
were. -/
theorem strcpy_outside (b : CharBuf) (pos : Nat) (s : List Nat) (k : Nat)
    (h : k < pos ∨ pos + strlen s + 1 ≤ k) : strcpy b pos s k = b k := by
  unfold strcpy
  refine write_bytes_outside b pos _ k ?_
  rw [List.length_append, List.length_singleton]
  unfold strlen at h
  omega

/-- The tab step keeps the state of the row serializer safe. -/
theorem tab_stage_inv (mem : CharBuf) (i pos : Nat) (b : CharBuf) (h : row_inv mem (pos, b)) :
    row_inv mem (if 0 < i ∧ pos < 4095 then (pos + 1, Function.update b pos 9) else (pos, b)) := by
  obtain ⟨h1, h2, h3⟩ := h
  simp only at h1 h2 h3
  split_ifs with hc
  · refine ⟨by simp only; omega, fun k hk => ?_, fun k hk1 hk2 => ?_⟩
    · simp only
      rw [Function.update_noteq (by omega)]
      exact h2 k hk
    · simp only at hk1 ⊢
      rw [Function.update_noteq (by omega)]
      exact h3 k (by omega) hk2
  · exact ⟨h1, h2, h3⟩

/-- The name step of `sqlite_wrapper.c` keeps the state of the row serializer
safe. -/
theorem sqlite_name_stage_inv (mem : CharBuf) (name : List Nat) (s1 : Nat × CharBuf)
    (h : row_inv mem s1) :
    row_inv mem (if s1.1 + strlen name + 1 < 4096 then
        (s1.1 + strlen name + 1,
          Function.update (strcpy s1.2 s1.1 name) (s1.1 + strlen name) 61)
      else s1) := by
  obtain ⟨h1, h2, h3⟩ := h
  split_ifs with hc
  · refine ⟨by simp only; omega, fun k hk => ?_, fun k hk1 hk2 => ?_⟩
    · simp only
      rw [Function.update_noteq (by omega), strcpy_outside _ _ _ _ (by omega)]
      exact h2 k hk
    · simp only at hk1 ⊢
      rw [Function.update_noteq (by omega), strcpy_outside _ _ _ _ (by omega)]
      exact h3 k (by omega) hk2
  · exact ⟨h1, h2, h3⟩

/-- The name step of `mysql_wrapper.c` keeps the state of the row serializer
safe. -/
theorem mysql_name_stage_inv (mem : CharBuf) (name : List Nat) (s1 : Nat × CharBuf)
    (h : row_inv mem s1) :
    row_inv mem (if s1.1 + strlen name + 1 < 4096 then
        (s1.1 + strlen name + 1,
          Function.update (strncpy s1.2 s1.1 name (4096 - s1.1 - 1)) (s1.1 + strlen name) 61)
      else s1) := by
  obtain ⟨h1, h2, h3⟩ := h
  split_ifs with hc
  · refine ⟨by simp only; omega, fun k hk => ?_, fun k hk1 hk2 => ?_⟩
    · simp only
      rw [Function.update_noteq (by omega), strncpy_outside _ _ _ _ _ (by omega)]
      exact h2 k hk
    · simp only at hk1 ⊢
      rw [Function.update_noteq (by omega)]
      by_cases hk3 : k < s1.1 + (4096 - s1.1 - 1)
      · exact strncpy_zero_behind _ _ _ _ _ (by omega) (by omega) hk3
      · rw [strncpy_outside _ _ _ _ _ (by omega)]
        exact h3 k (by omega) hk2
  · exact ⟨h1, h2, h3⟩

/-- The value step keeps the state of the row serializer safe. -/
theorem value_stage_inv (mem : CharBuf) (value : List Nat) (s2 : Nat × CharBuf)
    (h : row_inv mem s2) :
    row_inv mem (if s2.1 + strlen value < 4096 then
        (s2.1 + strlen value, strncpy s2.2 s2.1 value (4096 - s2.1 - 1))
      else s2) := by
  obtain ⟨h1, h2, h3⟩ := h
  split_ifs with hc
  · refine ⟨by simp only; omega, fun k hk => ?_, fun k hk1 hk2 => ?_⟩
    · simp only
      rw [strncpy_outside _ _ _ _ _ (by omega)]
      exact h2 k hk
    · simp only at hk1 ⊢
      by_cases hk3 : k < s2.1 + (4096 - s2.1 - 1)
      · exact strncpy_zero_behind _ _ _ _ _ (by omega) (by omega) hk3
      · rw [strncpy_outside _ _ _ _ _ (by omega)]
        exact h3 k (by omega) hk2
  · exact ⟨h1, h2, h3⟩

/-- The column loop of `autumn_sqlite3_query` keeps the state of the row
serializer safe. -/
theorem sqlite_row_loop_inv (names values : List (Option (List Nat))) (mem : CharBuf) :
    ∀ (n i pos : Nat) (b : CharBuf), row_inv mem (pos, b) →
      row_inv mem (FfiDemoSqlite.row_loop names values n i pos b).2 := by
  intro n
  induction n with
  | zero => intro i pos b h; exact h
  | succ n ih =>
    intro i pos b h
    rw [FfiDemoSqlite.row_loop]
    by_cases hpos : pos < 4095
    · rw [if_pos hpos]
      simp only []
      have hs1 := tab_stage_inv mem i pos b h
      generalize (if 0 < i ∧ pos < 4095 then (pos + 1, Function.update b pos 9) else (pos, b))
        = s1 at hs1 ⊢
      cases hn : names.getD i none with
      | none =>
        simp only []
        cases hv : values.getD i none with
        | none => simp only []; exact ih _ _ _ hs1
        | some value => simp only []; exact ih _ _ _ (value_stage_inv mem value s1 hs1)
      | some name =>
        simp only []
        have hs2 := sqlite_name_stage_inv mem name s1 hs1
        generalize (if s1.1 + strlen name + 1 < 4096 then
            (s1.1 + strlen name + 1,
              Function.update (strcpy s1.2 s1.1 name) (s1.1 + strlen name) 61)
          else s1) = s2 at hs2 ⊢
        cases hv : values.getD i none with
        | none => simp only []; exact ih _ _ _ hs2
        | some value => simp only []; exact ih _ _ _ (value_stage_inv mem value s2 hs2)
    · rw [if_neg hpos]
      exact h

/-- The column loop of `autumn_mysql_query` keeps the state of the row
serializer safe. -/
theorem mysql_row_loop_inv (names values : List (Option (List Nat))) (mem : CharBuf) :
    ∀ (n i pos : Nat) (b : CharBuf), row_inv mem (pos, b) →
      row_inv mem (MysqlDemo.row_loop names values n i pos b).2 := by
  intro n
  induction n with
  | zero => intro i pos b h; exact h
  | succ n ih =>
    intro i pos b h
    rw [MysqlDemo.row_loop]
    by_cases hpos : pos < 4095
    · rw [if_pos hpos]
      simp only []
      have hs1 := tab_stage_inv mem i pos b h
      generalize (if 0 < i ∧ pos < 4095 then (pos + 1, Function.update b pos 9) else (pos, b))
        = s1 at hs1 ⊢
      cases hn : names.getD i none with
      | none =>
        simp only []
        cases hv : values.getD i none with
        | none => simp only []; exact ih _ _ _ hs1
        | some value => simp only []; exact ih _ _ _ (value_stage_inv mem value s1 hs1)
      | some name =>
        simp only []
        have hs2 := mysql_name_stage_inv mem name s1 hs1
        generalize (if s1.1 + strlen name + 1 < 4096 then
            (s1.1 + strlen name + 1,
              Function.update (strncpy s1.2 s1.1 name (4096 - s1.1 - 1)) (s1.1 + strlen name) 61)
          else s1) = s2 at hs2 ⊢
        cases hv : values.getD i none with
        | none => simp only []; exact ih _ _ _ hs2
        | some value => simp only []; exact ih _ _ _ (value_stage_inv mem value s2 hs2)
    · rw [if_neg hpos]
      exact h

/-- C24: the row buffer of 4096 bytes lies in a memory `mem` and is zero as the
column loop is entered (`char row_buffer[4096] = {0}`, `pos = 0`).  After any
number `n` of columns, whatever the names and the values are, the write position
of `autumn_sqlite3_query` and of `autumn_mysql_query` is at most 4095, the
memory behind the row buffer is as it was (no byte is written outside of the row
buffer), the last byte of the row buffer is zero, and the C string in the row
buffer has at most 4095 bytes. -/
theorem C24_row_serializer_stays_in_buffer (names values : List (Option (List Nat))) (n : Nat)
    (mem : CharBuf) (hzero : ∀ k, k < 4096 → mem k = 0) :
    ((FfiDemoSqlite.row_loop names values n 0 0 mem).2.1 ≤ 4095
      ∧ (∀ k, 4096 ≤ k → (FfiDemoSqlite.row_loop names values n 0 0 mem).2.2 k = mem k)
      ∧ (FfiDemoSqlite.row_loop names values n 0 0 mem).2.2 4095 = 0
      ∧ (c_string_at (FfiDemoSqlite.row_loop names values n 0 0 mem).2.2 4096).length ≤ 4095)
    ∧ ((MysqlDemo.row_loop names values n 0 0 mem).2.1 ≤ 4095
      ∧ (∀ k, 4096 ≤ k → (MysqlDemo.row_loop names values n 0 0 mem).2.2 k = mem k)
      ∧ (MysqlDemo.row_loop names values n 0 0 mem).2.2 4095 = 0
      ∧ (c_string_at (MysqlDemo.row_loop names values n 0 0 mem).2.2 4096).length ≤ 4095) := by
  have h0 : row_inv mem (0, mem) := ⟨Nat.zero_le _, fun _ _ => rfl, fun k _ hk => hzero k hk⟩
  obtain ⟨a1, a2, a3⟩ := sqlite_row_loop_inv names values mem n 0 0 mem h0
  obtain ⟨b1, b2, b3⟩ := mysql_row_loop_inv names values mem n 0 0 mem h0
  have a4 := a3 4095 a1 (by decide)
  have b4 := b3 4095 b1 (by decide)
  exact ⟨⟨a1, a2, a4, c_string_at_length_le _ 4096 4095 (by decide) a4⟩,
    ⟨b1, b2, b4, c_string_at_length_le _ 4096 4095 (by decide) b4⟩⟩

/-- C24 at a concrete row: the column `a` with a value of 5000 bytes and the
column `b` = `1`, in a memory that is zero. -/
theorem C24_row_serializer_stays_in_buffer_witness :
    (FfiDemoSqlite.row_loop [some [97], some [98]]
        [some (List.replicate 5000 120), some [49]] 2 0 0 zeroBuf).2.1 ≤ 4095
      ∧ (∀ k, 4096 ≤ k → (FfiDemoSqlite.row_loop [some [97], some [98]]
          [some (List.replicate 5000 120), some [49]] 2 0 0 zeroBuf).2.2 k = zeroBuf k)
      ∧ (MysqlDemo.row_loop [some [97], some [98]]
          [some (List.replicate 5000 120), some [49]] 2 0 0 zeroBuf).2.1 ≤ 4095 :=
  ⟨(C24_row_serializer_stays_in_buffer [some [97], some [98]]
      [some (List.replicate 5000 120), some [49]] 2 zeroBuf (fun _ _ => rfl)).1.1,
   (C24_row_serializer_stays_in_buffer [some [97], some [98]]
      [some (List.replicate 5000 120), some [49]] 2 zeroBuf (fun _ _ => rfl)).1.2.1,
   (C24_row_serializer_stays_in_buffer [some [97], some [98]]
      [some (List.replicate 5000 120), some [49]] 2 zeroBuf (fun _ _ => rfl)).2.1⟩

/-! ### The result buffer of `database_ffi.c` -/

/-- `autumn_sqlite3_query` of `database_ffi.c` on a result set of one row with one
value: the text is the value and a newline. -/
theorem sqlite_query_one_value (w : DatabaseFfi.World) (h : Int) (sql : List Nat) (stmt : Ptr)
    (v : List Nat)
    (hv : ¬ (h < 0 ∨ h ≥ (DatabaseFfi.MAX_CONNECTIONS : Int) ∨ w.sqlite_connections h.toNat = NULL)) :
    (DatabaseFfi.autumn_sqlite3_query w h sql [] 0 ⟨0, stmt, 1, [[some v]]⟩).1
      = some (c_chars v ++ [10]) := by
  unfold DatabaseFfi.autumn_sqlite3_query
  rw [if_neg hv]
  simp [DatabaseFfi.row_loop, DatabaseFfi.col_loop, SQLITE_OK]

/-- `autumn_mysql_query` of `database_ffi.c` on a result set of one row with one
value: the text is the value and a newline. -/
theorem mysql_query_one_value (w : DatabaseFfi.MysqlWorld) (h : Int) (sql : List Nat)
    (result : Ptr) (v : List Nat)
    (hv : ¬ (h < 0 ∨ h ≥ (DatabaseFfi.MAX_CONNECTIONS : Int) ∨ w.mysql_connections h.toNat = NULL))
    (hres : result ≠ NULL) :
    (DatabaseFfi.autumn_mysql_query w h sql [] 0 ⟨0, result, 1, [[some v]]⟩).1
      = some (c_chars v ++ [10]) := by
  unfold DatabaseFfi.autumn_mysql_query
  rw [if_neg hv]
  simp [DatabaseFfi.mysql_row_loop, DatabaseFfi.mysql_col_loop, hres]

/-- `autumn_pg_query` of `database_ffi.c` on a result set of one row with one
value: the text is the value and a newline. -/
theorem pg_query_one_value (w : DatabaseFfi.PgWorld) (h : Int) (sql : List Nat)
    (res : Ptr) (v : List Nat)
    (hv : ¬ (h < 0 ∨ h ≥ (DatabaseFfi.MAX_CONNECTIONS : Int) ∨ w.pg_connections h.toNat = NULL)) :
    (DatabaseFfi.autumn_pg_query w h sql [] 0 ⟨res, 2, 1, 1, [[some v]]⟩).1
      = some (c_chars v ++ [10]) := by
  unfold DatabaseFfi.autumn_pg_query
  rw [if_neg hv]
  simp [DatabaseFfi.pg_row_loop, DatabaseFfi.pg_col_loop, DatabaseFfi.PGRES_TUPLES_OK]

/-- C25 fails on the code.  With the valid handle 0 and a result set of one row
whose single value has 10240 bytes `x`, the text that `autumn_sqlite3_query`,
`autumn_mysql_query` and `autumn_pg_query` of `database_ffi.c` accumulate with
`strcat` in `result_buffer` is the value and a newline, 10241 bytes: more than
the 10239 bytes that fit before the terminator in the array of 10240 bytes. -/
theorem C25_result_text_exceeds_the_buffer :
    (DatabaseFfi.autumn_sqlite3_query
        (DatabaseFfi.autumn_sqlite3_open DatabaseFfi.World.init [0x61] 0 5).2 0 [0x63] [] 0
        ⟨0, 9, 1, [[some (List.replicate 10240 120)]]⟩).1
      = some (List.replicate 10240 120 ++ [10])
    ∧ (DatabaseFfi.autumn_mysql_query
        { mysql_connections := Function.update emptyTable 0 5, trace := [] } 0 [0x63] [] 0
        ⟨0, 9, 1, [[some (List.replicate 10240 120)]]⟩).1
      = some (List.replicate 10240 120 ++ [10])
    ∧ (DatabaseFfi.autumn_pg_query
        { pg_connections := Function.update emptyTable 0 5, trace := [] } 0 [0x63] [] 0
        ⟨9, 2, 1, 1, [[some (List.replicate 10240 120)]]⟩).1
      = some (List.replicate 10240 120 ++ [10])
    ∧ 10239 < (List.replicate 10240 120 ++ [10]).length := by
  have hc : c_chars (List.replicate 10240 120) = List.replicate 10240 120 :=
    c_chars_of_nonzero _ (fun b hb => by rw [List.eq_of_mem_replicate hb]; decide)
  refine ⟨?_, ?_, ?_, ?_⟩
  · rw [sqlite_query_one_value _ _ _ _ _ (by decide), hc]
  · rw [mysql_query_one_value _ _ _ _ _ (by decide) (by decide), hc]
  · rw [pg_query_one_value _ _ _ _ _ (by decide), hc]
  · rw [List.length_append, List.length_replicate]
    decide

/-! ### The policies of the four encoders -/

/-- A bitwise or with a non-zero value is not zero. -/
theorem or_ne_zero_left (a x : Nat) (ha : a ≠ 0) : a ||| x ≠ 0 := by
  intro h
  apply ha
  apply Nat.eq_of_testBit_eq
  intro i
  have h2 := congrArg (fun n => n.testBit i) h
  simp only [Nat.testBit_or, Nat.zero_testBit, Bool.or_eq_false_iff] at h2
  simp [h2.1]

/-- The UTF-8 bytes of a non-zero code unit are not zero. -/
theorem utf8_of_unit_nonzero (u : Nat) (hu : u ≠ 0) : ∀ b ∈ utf8_of_unit u, b ≠ 0 := by
  intro b hb
  unfold utf8_of_unit at hb
  split_ifs at hb
  · simp only [List.mem_singleton] at hb
    rw [hb]; exact hu
  · simp only [List.mem_cons, List.mem_singleton, List.not_mem_nil, or_false] at hb
    rcases hb with hb | hb <;> rw [hb] <;> exact or_ne_zero_left _ _ (by decide)
  · simp only [List.mem_cons, List.mem_singleton, List.not_mem_nil, or_false] at hb
    rcases hb with hb | hb | hb <;> rw [hb] <;> exact or_ne_zero_left _ _ (by decide)

/-- The bytes written for a non-zero code unit are not zero. -/
theorem replace_from_nonzero (limit u : Nat) (hu : u ≠ 0) : ∀ b ∈ replace_from limit u, b ≠ 0 := by
  intro b hb
  unfold replace_from at hb
  split_ifs at hb
  · exact utf8_of_unit_nonzero u hu b hb
  · simp only [List.mem_singleton] at hb
    rw [hb]; decide

/-- The bytes written for a string without a zero code unit are not zero. -/
theorem flatMap_nonzero (enc : Nat → List Nat) (s : List Nat)
    (henc : ∀ u ∈ s, ∀ b ∈ enc u, b ≠ 0) : ∀ b ∈ s.flatMap enc, b ≠ 0 := by
  intro b hb
  obtain ⟨u, hu, hbu⟩ := List.mem_flatMap.mp hb
  exact henc u hu b hbu

/-- An ASCII code unit is written as it is. -/
theorem utf8_of_unit_ascii (u : Nat) (hu : u < 0x80) : utf8_of_unit u = [u] := by
  unfold utf8_of_unit
  rw [if_pos hu]

/-- An ASCII string is written as it is by `utf8_of_unit`. -/
theorem flatMap_utf8_ascii : ∀ (s : List Nat), (∀ u ∈ s, u < 0x80) → s.flatMap utf8_of_unit = s := by
  intro s
  induction s with
  | nil => intro _; rfl
  | cons u us ih =>
    intro h
    rw [List.flatMap_cons, utf8_of_unit_ascii u (h u (List.mem_cons_self _ _)),
      ih (fun v hv => h v (List.mem_cons_of_mem _ hv))]
    rfl

/-- A string of code units below the limit is written as `utf8_of_unit` writes
it. -/
theorem flatMap_replace_from_below (limit : Nat) :
    ∀ (s : List Nat), (∀ u ∈ s, u < limit) → s.flatMap (replace_from limit) = s.flatMap utf8_of_unit := by
  intro s
  induction s with
  | nil => intro _; rfl
  | cons u us ih =>
    intro h
    rw [List.flatMap_cons, List.flatMap_cons, ih (fun v hv => h v (List.mem_cons_of_mem _ hv))]
    unfold replace_from
    rw [if_pos (h u (List.mem_cons_self _ _))]

/-- The loop of `get_c_string` in `src/ffi-demo/mysql_wrapper.c` over a run of
non-zero code units that fits: one byte for each unit, the unit itself below
0x80 and `?` otherwise. -/
theorem ffi_mysql_get_c_string_loop_spec (str : List Nat) :
    ∀ (us : List Nat) (n i j : Nat) (buf : CharBuf),
      (∀ m, m < us.length → unit_at str (i + m) = us.getD m 0) →
      (∀ u ∈ us, u ≠ 0) → j + us.length ≤ 4095 → us.length ≤ n →
      FfiDemoMysql.get_c_string_loop str n i j buf
        = FfiDemoMysql.get_c_string_loop str (n - us.length) (i + us.length) (j + us.length)
            (write_bytes buf j (us.flatMap (replace_from 0x80))) := by
  intro us
  induction us with
  | nil => intro n i j buf _ _ _ _; simp [write_bytes_nil]
  | cons u us ih =>
    intro n i j buf hread hu hj hn
    obtain ⟨n2, rfl⟩ : ∃ n2, n = n2 + 1 := ⟨n - 1, by simp at hn; omega⟩
    have hu0 : unit_at str i = u := by simpa using hread 0 (by simp)
    have hread2 : ∀ m, m < us.length → unit_at str (i + 1 + m) = us.getD m 0 := by
      intro m hm
      have := hread (m + 1) (by simpa using hm)
      simpa [Nat.add_assoc, Nat.add_comm 1 m] using this
    have hu1 := hu u (List.mem_cons_self _ _)
    have hjlt : j < 4095 := by simp at hj; omega
    simp only [List.length_cons] at hj hn ⊢
    have e1 : n2 + 1 - (us.length + 1) = n2 - us.length := by omega
    have e2 : i + 1 + us.length = i + (us.length + 1) := by omega
    have e3 : j + 1 + us.length = j + (us.length + 1) := by omega
    rw [FfiDemoMysql.get_c_string_loop]
    by_cases h80 : u < 0x80
    · have hmod : u % 256 = u := Nat.mod_eq_of_lt (by omega)
      have hE : replace_from 0x80 u = [u] := by
        unfold replace_from; rw [if_pos h80, utf8_of_unit_ascii u h80]
      simp only [hjlt, if_true, hu0, hu1, if_false, h80, hmod]
      rw [ih n2 (i + 1) (j + 1) _ hread2 (fun v hv => hu v (List.mem_cons_of_mem _ hv))
        (by omega) (by omega), List.flatMap_cons, hE, List.singleton_append, write_bytes_cons,
        e1, e2, e3]
    · have hE : replace_from 0x80 u = [63] := by
        unfold replace_from; rw [if_neg h80]
      simp only [hjlt, if_true, hu0, hu1, if_false, h80]
      rw [ih n2 (i + 1) (j + 1) _ hread2 (fun v hv => hu v (List.mem_cons_of_mem _ hv))
        (by omega) (by omega), List.flatMap_cons, hE, List.singleton_append, write_bytes_cons,
        e1, e2, e3]

/-- One byte is written for each code unit when the limit is 0x80. -/
theorem flatMap_replace_from_80_length :
    ∀ (s : List Nat), (s.flatMap (replace_from 0x80)).length = s.length := by
  intro s
  induction s with
  | nil => rfl
  | cons u us ih =>
    rw [List.flatMap_cons, List.length_append, ih, List.length_cons]
    unfold replace_from
    split_ifs with h
    · rw [utf8_of_unit_ascii u h]; simp; omega
    · simp; omega

/-- Reading the code units of a string of 16-bit values from index 0 on. -/
theorem unit_at_from_zero (s : List Nat) (hs : ∀ u ∈ s, u < 65536) (m : Nat)
    (hm : m < s.length) : unit_at s (0 + m) = s.getD m 0 := by
  rw [Nat.zero_add]
  exact unit_at_of_lt s hs m hm

/-- `get_c_string` of `src/ffi-demo/mysql_wrapper.c` on a string of at most 4095
non-zero code units: the buffer afterwards holds one byte for each unit and the
terminator, and the pointer returned is the buffer. -/
theorem ffi_mysql_get_c_string_spec (buf : CharBuf) (s : List Nat)
    (hs : ∀ u ∈ s, u ≠ 0 ∧ u < 65536) (hlen : s.length ≤ 4095) :
    FfiDemoMysql.get_c_string buf (some s)
      = (write_bytes buf 0 (s.flatMap (replace_from 0x80) ++ [0]),
         FfiDemoSqlite.CStrPtr.utf8_buffer) := by
  have hloop : FfiDemoMysql.get_c_string_loop s 4096 0 0 buf
      = (s.length, write_bytes buf 0 (s.flatMap (replace_from 0x80))) := by
    rw [ffi_mysql_get_c_string_loop_spec s s 4096 0 0 buf
      (unit_at_from_zero s (fun u hu => (hs u hu).2)) (fun u hu => (hs u hu).1) (by omega)
      (by omega)]
    obtain ⟨n2, hn2⟩ : ∃ n2, 4096 - s.length = n2 + 1 := ⟨4095 - s.length, by omega⟩
    rw [hn2, FfiDemoMysql.get_c_string_loop]
    simp [unit_at_end s s.length (le_refl _)]
  simp only [FfiDemoMysql.get_c_string, hloop]
  rw [write_bytes_append_singleton, Nat.zero_add, flatMap_replace_from_80_length]

/-- The bytes that `get_c_string` of `src/ffi-demo/mysql_wrapper.c` hands to its
caller for a string of at most 4095 non-zero code units. -/
theorem ffi_mysql_encode_spec (buf : CharBuf) (s : List Nat)
    (hs : ∀ u ∈ s, u ≠ 0 ∧ u < 65536) (hlen : s.length ≤ 4095) :
    FfiDemoMysql.encode buf (some s) = s.flatMap (replace_from 0x80) := by
  unfold FfiDemoMysql.encode
  rw [ffi_mysql_get_c_string_spec buf s hs hlen]
  simp only [deref]
  exact c_string_at_write_bytes buf _ 4096
    (flatMap_nonzero _ s (fun u hu => replace_from_nonzero 0x80 u (hs u hu).1))
    (by rw [flatMap_replace_from_80_length]; omega)

/-- The bytes written for one code unit when the limit is 0x800: one byte below
0x80, two bytes below 0x800, `?` from 0x800 on. -/
theorem replace_from_800_cases (u : Nat) :
    (u < 0x80 ∧ replace_from 0x800 u = [u])
      ∨ (¬ u < 0x80 ∧ u < 0x800
          ∧ replace_from 0x800 u = [0xC0 ||| (u >>> 6), 0x80 ||| (u &&& 0x3F)])
      ∨ (¬ u < 0x80 ∧ ¬ u < 0x800 ∧ replace_from 0x800 u = [63]) := by
  unfold replace_from utf8_of_unit
  by_cases h1 : u < 0x80
  · left
    have h2 : u < 0x800 := by omega
    exact ⟨h1, by rw [if_pos h2, if_pos h1]⟩
  · by_cases h2 : u < 0x800
    · right; left
      exact ⟨h1, h2, by rw [if_pos h2, if_neg h1, if_pos h2]⟩
    · right; right
      exact ⟨h1, h2, by rw [if_neg h2]⟩

/-- The loop of `get_c_string` in `src/ffi-demo/sqlite_wrapper.c` over a run of
non-zero code units whose bytes fit: UTF-8 below 0x800 and `?` from 0x800 on. -/
theorem sqlite_get_c_string_loop_spec (str : List Nat) :
    ∀ (us : List Nat) (n i j : Nat) (buf : CharBuf),
      (∀ m, m < us.length → unit_at str (i + m) = us.getD m 0) →
      (∀ u ∈ us, u ≠ 0) → j + (us.flatMap (replace_from 0x800)).length ≤ 4095 → us.length ≤ n →
      FfiDemoSqlite.get_c_string_loop str n i j buf
        = FfiDemoSqlite.get_c_string_loop str (n - us.length) (i + us.length)
            (j + (us.flatMap (replace_from 0x800)).length)
            (write_bytes buf j (us.flatMap (replace_from 0x800))) := by
  intro us
  induction us with
  | nil => intro n i j buf _ _ _ _; simp [write_bytes_nil]
  | cons u us ih =>
    intro n i j buf hread hu hj hn
    obtain ⟨n2, rfl⟩ : ∃ n2, n = n2 + 1 := ⟨n - 1, by simp at hn; omega⟩
    have hu0 : unit_at str i = u := by simpa using hread 0 (by simp)
    have hread2 : ∀ m, m < us.length → unit_at str (i + 1 + m) = us.getD m 0 := by
      intro m hm
      have := hread (m + 1) (by simpa using hm)
      simpa [Nat.add_assoc, Nat.add_comm 1 m] using this
    have hu1 := hu u (List.mem_cons_self _ _)
    have hu2 : ∀ v ∈ us, v ≠ 0 := fun v hv => hu v (List.mem_cons_of_mem _ hv)
    simp only [List.length_cons] at hn ⊢
    rw [List.flatMap_cons, List.length_append] at hj
    have e1 : n2 + 1 - (us.length + 1) = n2 - us.length := by omega
    have e2 : i + 1 + us.length = i + (us.length + 1) := by omega
    rw [FfiDemoSqlite.get_c_string_loop, List.flatMap_cons, List.length_append, e1, ← e2]
    rcases replace_from_800_cases u with ⟨h80, hE⟩ | ⟨h80, h800, hE⟩ | ⟨h80, h800, hE⟩
    · rw [hE] at hj ⊢
      simp only [List.length_singleton] at hj ⊢
      have hjlt : j < 4095 := by omega
      have hmod : u % 256 = u := Nat.mod_eq_of_lt (by omega)
      simp only [hjlt, if_true, hu0, hu1, if_false, h80, hmod]
      rw [ih n2 (i + 1) (j + 1) _ hread2 hu2 (by omega) (by omega), List.singleton_append,
        write_bytes_cons, Nat.add_assoc j 1]
    · rw [hE] at hj ⊢
      simp only [List.length_cons, List.length_nil] at hj ⊢
      have hjlt : j < 4095 := by omega
      have hj1 : j + 1 < 4095 := by omega
      have hm1 : (0xC0 ||| (u >>> 6)) % 256 = 0xC0 ||| (u >>> 6) :=
        Nat.mod_eq_of_lt (lead2_lt u h800)
      have hm2 : (0x80 ||| (u &&& 0x3F)) % 256 = 0x80 ||| (u &&& 0x3F) :=
        Nat.mod_eq_of_lt (cont_lt u)
      simp only [hjlt, if_true, hu0, hu1, if_false, h80, h800, hj1, hm1, hm2]
      rw [ih n2 (i + 1) (j + 2) _ hread2 hu2 (by omega) (by omega), List.cons_append,
        List.singleton_append, write_bytes_cons, write_bytes_cons, Nat.add_assoc j 2]
    · rw [hE] at hj ⊢
      simp only [List.length_singleton] at hj ⊢
      have hjlt : j < 4095 := by omega
      simp only [hjlt, if_true, hu0, hu1, if_false, h80, h800]
      rw [ih n2 (i + 1) (j + 1) _ hread2 hu2 (by omega) (by omega), List.singleton_append,
        write_bytes_cons, Nat.add_assoc j 1]

/-- The loop of `get_c_string_to_buffer` in `src/mysql-demo/mysql_wrapper.c` over
a run of non-zero code units whose bytes fit: UTF-8 below 0x800 and `?` from
0x800 on. -/
theorem mysql_get_c_string_to_buffer_loop_spec (str : List Nat) (M : Nat) :
    ∀ (us : List Nat) (n i j : Nat) (buf : CharBuf),
      (∀ m, m < us.length → unit_at str (i + m) = us.getD m 0) →
      (∀ u ∈ us, u ≠ 0) → j + (us.flatMap (replace_from 0x800)).length ≤ M → us.length ≤ n →
      get_c_string_to_buffer_loop str (M : Int) n i j buf
        = get_c_string_to_buffer_loop str (M : Int) (n - us.length) (i + us.length)
            (j + (us.flatMap (replace_from 0x800)).length)
            (write_bytes buf j (us.flatMap (replace_from 0x800))) := by
  intro us
  induction us with
  | nil => intro n i j buf _ _ _ _; simp [write_bytes_nil]
  | cons u us ih =>
    intro n i j buf hread hu hj hn
    obtain ⟨n2, rfl⟩ : ∃ n2, n = n2 + 1 := ⟨n - 1, by simp at hn; omega⟩
    have hu0 : unit_at str i = u := by simpa using hread 0 (by simp)
    have hread2 : ∀ m, m < us.length → unit_at str (i + 1 + m) = us.getD m 0 := by
      intro m hm
      have := hread (m + 1) (by simpa using hm)
      simpa [Nat.add_assoc, Nat.add_comm 1 m] using this
    have hu1 := hu u (List.mem_cons_self _ _)
    have hu2 : ∀ v ∈ us, v ≠ 0 := fun v hv => hu v (List.mem_cons_of_mem _ hv)
    simp only [List.length_cons] at hn ⊢
    rw [List.flatMap_cons, List.length_append] at hj
    have e1 : n2 + 1 - (us.length + 1) = n2 - us.length := by omega
    have e2 : i + 1 + us.length = i + (us.length + 1) := by omega
    rw [get_c_string_to_buffer_loop, List.flatMap_cons, List.length_append, e1, ← e2]
    rcases replace_from_800_cases u with ⟨h80, hE⟩ | ⟨h80, h800, hE⟩ | ⟨h80, h800, hE⟩
    · rw [hE] at hj ⊢
      simp only [List.length_singleton] at hj ⊢
      have hjlt : (j : Int) < (M : Int) := by omega
      have hmod : u % 256 = u := Nat.mod_eq_of_lt (by omega)
      simp only [hjlt, if_true, hu0, hu1, if_false, h80, hmod]
      rw [ih n2 (i + 1) (j + 1) _ hread2 hu2 (by omega) (by omega), List.singleton_append,
        write_bytes_cons, Nat.add_assoc j 1]
    · rw [hE] at hj ⊢
      simp only [List.length_cons, List.length_nil] at hj ⊢
      have hjlt : (j : Int) < (M : Int) := by omega
      have hj1 : ((j + 1 : Nat) : Int) < (M : Int) := by omega
      have hm1 : (0xC0 ||| (u >>> 6)) % 256 = 0xC0 ||| (u >>> 6) :=
        Nat.mod_eq_of_lt (lead2_lt u h800)
      have hm2 : (0x80 ||| (u &&& 0x3F)) % 256 = 0x80 ||| (u &&& 0x3F) :=
        Nat.mod_eq_of_lt (cont_lt u)
      simp only [hjlt, if_true, hu0, hu1, if_false, h80, h800, hj1, hm1, hm2]
      rw [ih n2 (i + 1) (j + 2) _ hread2 hu2 (by omega) (by omega), List.cons_append,
        List.singleton_append, write_bytes_cons, write_bytes_cons, Nat.add_assoc j 2]
    · rw [hE] at hj ⊢
      simp only [List.length_singleton] at hj ⊢
      have hjlt : (j : Int) < (M : Int) := by omega
      simp only [hjlt, if_true, hu0, hu1, if_false, h80, h800]
      rw [ih n2 (i + 1) (j + 1) _ hread2 hu2 (by omega) (by omega), List.singleton_append,
        write_bytes_cons, Nat.add_assoc j 1]

/-- Every code unit is written as at least one byte. -/
theorem replace_from_length_pos (limit u : Nat) : 1 ≤ (replace_from limit u).length := by
  unfold replace_from
  split_ifs
  · exact utf8_of_unit_length_pos u
  · simp

/-- The bytes of a string are at least as many as its code units. -/
theorem flatMap_length_ge (enc : Nat → List Nat) (henc : ∀ u, 1 ≤ (enc u).length) :
    ∀ (s : List Nat), s.length ≤ (s.flatMap enc).length := by
  intro s
  induction s with
  | nil => exact Nat.le_refl _
  | cons u us ih =>
    rw [List.flatMap_cons, List.length_append, List.length_cons]
    have := henc u
    omega

/-- When the bytes of the whole string fit, `fit_count` is the length of the
string. -/
theorem fit_count_all (enc : Nat → List Nat) (s : List Nat) (room : Nat)
    (h : (s.flatMap enc).length ≤ room) : fit_count enc s room = s.length := by
  have h1 := (fit_count_fits enc s room).1
  have h2 := fit_count_longest enc s room s.length (Nat.le_refl _) (by rw [List.take_length]; exact h)
  omega

/-- `get_c_string` of `src/ffi-demo/sqlite_wrapper.c` on a string without a zero
code unit whose bytes fit: UTF-8 below 0x800 and `?` from 0x800 on. -/
theorem sqlite_encode_spec (buf : CharBuf) (s : List Nat) (hs : ∀ u ∈ s, u ≠ 0 ∧ u < 65536)
    (hfit : (s.flatMap (replace_from 0x800)).length ≤ 4095) :
    encode buf (some s) = s.flatMap (replace_from 0x800) := by
  have hl := flatMap_length_ge (replace_from 0x800) (replace_from_length_pos 0x800) s
  have hloop : FfiDemoSqlite.get_c_string_loop s 4096 0 0 buf
      = ((s.flatMap (replace_from 0x800)).length,
         write_bytes buf 0 (s.flatMap (replace_from 0x800))) := by
    rw [sqlite_get_c_string_loop_spec s s 4096 0 0 buf
      (unit_at_from_zero s (fun u hu => (hs u hu).2)) (fun u hu => (hs u hu).1) (by omega)
      (by omega)]
    obtain ⟨n2, hn2⟩ : ∃ n2, 4096 - s.length = n2 + 1 := ⟨4095 - s.length, by omega⟩
    rw [hn2, FfiDemoSqlite.get_c_string_loop]
    simp [unit_at_end s s.length (le_refl _)]
  simp only [encode, FfiDemoSqlite.get_c_string, deref, hloop]
  rw [← Nat.zero_add (s.flatMap (replace_from 0x800)).length, ← write_bytes_append_singleton]
  exact c_string_at_write_bytes buf _ 4096
    (flatMap_nonzero _ s (fun u hu => replace_from_nonzero 0x800 u (hs u hu).1)) (by omega)

/-- `get_c_string_to_buffer` of `src/mysql-demo/mysql_wrapper.c` on a string of at
most 4095 code units, none zero, whose bytes fit the buffer: UTF-8 below 0x800
and `?` from 0x800 on. -/
theorem mysql_get_c_string_to_buffer_spec (buf : CharBuf) (buffer_size : Nat) (s : List Nat)
    (hs : ∀ u ∈ s, u ≠ 0 ∧ u < 65536)
    (hfit : (s.flatMap (replace_from 0x800)).length + 1 ≤ buffer_size) (hlen : s.length ≤ 4095) :
    c_string_at (get_c_string_to_buffer (some s) buf buffer_size) buffer_size
      = s.flatMap (replace_from 0x800) := by
  have hmax : (buffer_size : Int) - 1 = ((buffer_size - 1 : Nat) : Int) := by omega
  have hloop : get_c_string_to_buffer_loop s ((buffer_size : Int) - 1) 4095 0 0 buf
      = ((s.flatMap (replace_from 0x800)).length,
         write_bytes buf 0 (s.flatMap (replace_from 0x800))) := by
    rw [hmax, mysql_get_c_string_to_buffer_loop_spec s (buffer_size - 1) s 4095 0 0 buf
      (unit_at_from_zero s (fun u hu => (hs u hu).2)) (fun u hu => (hs u hu).1) (by omega)
      (by omega)]
    rcases Nat.eq_zero_or_pos (4095 - s.length) with h0 | hpos
    · rw [h0]; simp [get_c_string_to_buffer_loop]
    · obtain ⟨n2, hn2⟩ : ∃ n2, 4095 - s.length = n2 + 1 := ⟨4095 - s.length - 1, by omega⟩
      rw [hn2, get_c_string_to_buffer_loop]
      simp [unit_at_end s s.length (le_refl _)]
  simp only [get_c_string_to_buffer, hloop]
  rw [← Nat.zero_add (s.flatMap (replace_from 0x800)).length, ← write_bytes_append_singleton]
  exact c_string_at_write_bytes buf _ buffer_size
    (flatMap_nonzero _ s (fun u hu => replace_from_nonzero 0x800 u (hs u hu).1)) (by omega)

/-- `moonbit_string_to_bytes` of `http_server.c` on a string whose bytes fit the
buffer: the UTF-8 bytes of every code unit, and the terminator. -/
theorem moonbit_string_to_bytes_fits (buf : CharBuf) (buffer_size : Nat) (s : List Nat)
    (hs : ∀ u ∈ s, u < 65536) (hfit : (s.flatMap utf8_of_unit).length + 1 ≤ buffer_size) :
    moonbit_string_to_bytes (some s) (s.length : Int) (some buf) (buffer_size : Int)
      = ((((s.flatMap utf8_of_unit).length : Nat) : Int),
         some (write_bytes buf 0 (s.flatMap utf8_of_unit ++ [0]))) := by
  have hsz : ¬ ((buffer_size : Int) ≤ 0) := by omega
  have hmax : (buffer_size : Int) - 1 = ((buffer_size - 1 : Nat) : Int) := by omega
  have hloop := moonbit_string_to_bytes_loop_spec s (buffer_size - 1) s 0 0 buf
    (fun m hm => by simpa using unit_at_of_lt s hs m hm) hs (Nat.zero_le _)
  rw [Nat.sub_zero, fit_count_all utf8_of_unit s (buffer_size - 1) (by omega), List.take_length,
    Nat.zero_add] at hloop
  simp only [moonbit_string_to_bytes, hsz, if_false, Int.toNat_ofNat, hmax, hloop,
    write_bytes_append_singleton, Nat.zero_add]

/-- C26 fails on the code for code units from 0x80 on.  The one-unit strings
U+00E9 and U+4E2D hold no zero code unit and their bytes fit every buffer of
4096 bytes.  For U+00E9, `get_c_string` of `src/ffi-demo/mysql_wrapper.c` gives
`?` and the three other encoders give the two bytes C3 A9; for U+4E2D,
`moonbit_string_to_bytes` gives the three bytes E4 B8 AD and the three other
encoders give `?`. -/
theorem C26_encoders_differ_above_ascii :
    encode zeroBuf (some [0xE9]) = [0xC3, 0xA9]
    ∧ FfiDemoMysql.encode zeroBuf (some [0xE9]) = [0x3F]
    ∧ c_string_at (get_c_string_to_buffer (some [0xE9]) zeroBuf 4096) 4096 = [0xC3, 0xA9]
    ∧ moonbit_string_to_bytes (some [0xE9]) 1 (some zeroBuf) 4096
        = (2, some (write_bytes zeroBuf 0 [0xC3, 0xA9, 0]))
    ∧ encode zeroBuf (some [0x4E2D]) = [0x3F]
    ∧ FfiDemoMysql.encode zeroBuf (some [0x4E2D]) = [0x3F]
    ∧ c_string_at (get_c_string_to_buffer (some [0x4E2D]) zeroBuf 4096) 4096 = [0x3F]
    ∧ moonbit_string_to_bytes (some [0x4E2D]) 1 (some zeroBuf) 4096
        = (3, some (write_bytes zeroBuf 0 [0xE4, 0xB8, 0xAD, 0])) := by
  refine ⟨?_, ?_, ?_, ?_, ?_, ?_, ?_, ?_⟩
  · rw [sqlite_encode_spec zeroBuf [0xE9] (by decide) (by decide)]; decide
  · rw [ffi_mysql_encode_spec zeroBuf [0xE9] (by decide) (by decide)]; decide
  · rw [mysql_get_c_string_to_buffer_spec zeroBuf 4096 [0xE9] (by decide) (by decide) (by decide)]
    decide
  · exact moonbit_string_to_bytes_fits zeroBuf 4096 [0xE9] (by decide) (by decide)
  · rw [sqlite_encode_spec zeroBuf [0x4E2D] (by decide) (by decide)]; decide
  · rw [ffi_mysql_encode_spec zeroBuf [0x4E2D] (by decide) (by decide)]; decide
  · rw [mysql_get_c_string_to_buffer_spec zeroBuf 4096 [0x4E2D] (by decide) (by decide)
      (by decide)]
    decide
  · exact moonbit_string_to_bytes_fits zeroBuf 4096 [0x4E2D] (by decide) (by decide)

/-- C26, amended: for a string `s` of 16-bit code units, none of them zero, whose
bytes fit the output buffer, each encoder follows its own policy.  `get_c_string`
of `src/ffi-demo/sqlite_wrapper.c` and `get_c_string_to_buffer` write UTF-8 for the
code units below 0x800 and `?` for the others; `get_c_string` of
`src/ffi-demo/mysql_wrapper.c` writes the code units below 0x80 as they are and
`?` for the others; `moonbit_string_to_bytes` writes UTF-8 for every code unit.
The four encoders give the same bytes, the code units themselves, when every
code unit is below 0x80; the two policies with the limit 0x800 and UTF-8 give
the same bytes when every code unit is below 0x800. -/
theorem C26_each_encoder_follows_its_own_policy (s : List Nat) (buf : CharBuf)
    (hs : ∀ u ∈ s, u ≠ 0 ∧ u < 65536) :
    ((s.flatMap (replace_from 0x800)).length ≤ 4095 →
        encode buf (some s) = s.flatMap (replace_from 0x800))
    ∧ (s.length ≤ 4095 → FfiDemoMysql.encode buf (some s) = s.flatMap (replace_from 0x80))
    ∧ (∀ buffer_size : Nat,
        (s.flatMap (replace_from 0x800)).length + 1 ≤ buffer_size → s.length ≤ 4095 →
        c_string_at (get_c_string_to_buffer (some s) buf buffer_size) buffer_size
          = s.flatMap (replace_from 0x800))
    ∧ (∀ buffer_size : Nat, (s.flatMap utf8_of_unit).length + 1 ≤ buffer_size →
        moonbit_string_to_bytes (some s) (s.length : Int) (some buf) (buffer_size : Int)
          = ((((s.flatMap utf8_of_unit).length : Nat) : Int),
             some (write_bytes buf 0 (s.flatMap utf8_of_unit ++ [0]))))
    ∧ ((∀ u ∈ s, u < 0x800) → s.flatMap (replace_from 0x800) = s.flatMap utf8_of_unit)
    ∧ ((∀ u ∈ s, u < 0x80) → s.length ≤ 4095 →
        encode buf (some s) = s
          ∧ FfiDemoMysql.encode buf (some s) = s
          ∧ c_string_at (get_c_string_to_buffer (some s) buf 4096) 4096 = s
          ∧ moonbit_string_to_bytes (some s) (s.length : Int) (some buf) ((4096 : Nat) : Int)
              = ((s.length : Int), some (write_bytes buf 0 (s ++ [0])))) := by
  have h16 : ∀ u ∈ s, u < 65536 := fun u hu => (hs u hu).2
  refine ⟨fun hfit => sqlite_encode_spec buf s hs hfit,
    fun hlen => ffi_mysql_encode_spec buf s hs hlen,
    fun buffer_size hfit hlen => mysql_get_c_string_to_buffer_spec buf buffer_size s hs hfit hlen,
    fun buffer_size hfit => moonbit_string_to_bytes_fits buf buffer_size s h16 hfit,
    fun h800 => flatMap_replace_from_below 0x800 s h800, fun h80 hlen => ?_⟩
  have e1 : s.flatMap utf8_of_unit = s := flatMap_utf8_ascii s h80
  have e2 : s.flatMap (replace_from 0x800) = s := by
    rw [flatMap_replace_from_below 0x800 s (fun u hu => by have := h80 u hu; omega), e1]
  have e3 : s.flatMap (replace_from 0x80) = s := by
    rw [flatMap_replace_from_below 0x80 s h80, e1]
  refine ⟨?_, ?_, ?_, ?_⟩
  · have h := sqlite_encode_spec buf s hs (by rw [e2]; exact hlen)
    rw [e2] at h
    exact h
  · have h := ffi_mysql_encode_spec buf s hs hlen
    rw [e3] at h
    exact h
  · have h := mysql_get_c_string_to_buffer_spec buf 4096 s hs (by rw [e2]; omega) hlen
    rw [e2] at h
    exact h
  · have h := moonbit_string_to_bytes_fits buf 4096 s h16 (by rw [e1]; omega)
    rw [e1] at h
    exact h

/-- The amended C26 at the string `A`, U+00E9, U+4E2D: the bytes of the four
encoders. -/
theorem C26_each_encoder_follows_its_own_policy_witness :
    encode zeroBuf (some [0x41, 0xE9, 0x4E2D]) = [0x41, 0xC3, 0xA9, 0x3F]
    ∧ FfiDemoMysql.encode zeroBuf (some [0x41, 0xE9, 0x4E2D]) = [0x41, 0x3F, 0x3F]
    ∧ c_string_at (get_c_string_to_buffer (some [0x41, 0xE9, 0x4E2D]) zeroBuf 4096) 4096
        = [0x41, 0xC3, 0xA9, 0x3F]
    ∧ moonbit_string_to_bytes (some [0x41, 0xE9, 0x4E2D])
          (([0x41, 0xE9, 0x4E2D] : List Nat).length : Int) (some zeroBuf) ((4096 : Nat) : Int)
        = (6, some (write_bytes zeroBuf 0 [0x41, 0xC3, 0xA9, 0xE4, 0xB8, 0xAD, 0])) :=
  ⟨(C26_each_encoder_follows_its_own_policy [0x41, 0xE9, 0x4E2D] zeroBuf (by decide)).1
      (by decide),
   (C26_each_encoder_follows_its_own_policy [0x41, 0xE9, 0x4E2D] zeroBuf (by decide)).2.1
      (by decide),
   (C26_each_encoder_follows_its_own_policy [0x41, 0xE9, 0x4E2D] zeroBuf (by decide)).2.2.1
      4096 (by decide) (by decide),
   (C26_each_encoder_follows_its_own_policy [0x41, 0xE9, 0x4E2D] zeroBuf (by decide)).2.2.2.1
      4096 (by decide)⟩

/-! ### The strings passed to `mysql_real_connect` -/

/-- `autumn_mysql_connect` of `src/ffi-demo/mysql_wrapper.c` with four non-null
strings of at most 4095 non-zero code units, when the connection is made:
`mysql_real_connect` receives the bytes of `database` for each of its four
strings. -/
theorem ffi_mysql_connect_trace (w : FfiDemoMysql.World) (host user password database : List Nat)
    (port : Int) (mysql result : Ptr) (hm : mysql ≠ NULL) (hr : result ≠ NULL)
    (hh : (∀ u ∈ host, u ≠ 0 ∧ u < 65536) ∧ host.length ≤ 4095)
    (hu : (∀ u ∈ user, u ≠ 0 ∧ u < 65536) ∧ user.length ≤ 4095)
    (hp : (∀ u ∈ password, u ≠ 0 ∧ u < 65536) ∧ password.length ≤ 4095)
    (hd : (∀ u ∈ database, u ≠ 0 ∧ u < 65536) ∧ database.length ≤ 4095) :
    (FfiDemoMysql.autumn_mysql_connect w (some host) port (some user) (some password)
        (some database) mysql result).2.trace
      = w.trace ++ [MysqlDemo.Call.mysql_init mysql,
          MysqlDemo.Call.mysql_real_connect mysql
            (database.flatMap (replace_from 0x80)) (database.flatMap (replace_from 0x80))
            (database.flatMap (replace_from 0x80)) (database.flatMap (replace_from 0x80))
            port result] := by
  have hD : ∀ b : CharBuf,
      c_string_at (write_bytes b 0 (database.flatMap (replace_from 0x80) ++ [0])) 4096
        = database.flatMap (replace_from 0x80) := fun b =>
    c_string_at_write_bytes b _ 4096
      (flatMap_nonzero _ database (fun u hu => replace_from_nonzero 0x80 u (hd.1 u hu).1))
      (by rw [flatMap_replace_from_80_length]; omega)
  unfold FfiDemoMysql.autumn_mysql_connect
  simp only [if_neg hm, if_neg hr, ffi_mysql_get_c_string_spec _ host hh.1 hh.2,
    ffi_mysql_get_c_string_spec _ user hu.1 hu.2, ffi_mysql_get_c_string_spec _ password hp.1 hp.2,
    ffi_mysql_get_c_string_spec _ database hd.1 hd.2, deref, hD, List.append_assoc,
    List.singleton_append]

/-- `autumn_mysql_connect` of `src/mysql-demo/mysql_wrapper.c` with four non-null
strings of at most 255 non-zero ASCII code units: `mysql_real_connect` receives
the four strings. -/
theorem mysql_demo_connect_trace (w : MysqlDemo.World) (host user password database : List Nat)
    (port : Int) (a : MysqlDemo.ConnectAnswers) (hm : a.mysql ≠ NULL)
    (hh : (∀ u ∈ host, u ≠ 0 ∧ u < 0x80) ∧ host.length ≤ 255)
    (hu : (∀ u ∈ user, u ≠ 0 ∧ u < 0x80) ∧ user.length ≤ 255)
    (hp : (∀ u ∈ password, u ≠ 0 ∧ u < 0x80) ∧ password.length ≤ 255)
    (hd : (∀ u ∈ database, u ≠ 0 ∧ u < 0x80) ∧ database.length ≤ 255) :
    MysqlDemo.Call.mysql_real_connect a.mysql host user password database port a.result
      ∈ (autumn_mysql_connect w (some host) port (some user) (some password) (some database)
          a).2.trace := by
  unfold autumn_mysql_connect
  simp only [if_neg hm,
    get_c_string_to_buffer_ascii _ 256 host hh.1 (by omega) (by omega),
    get_c_string_to_buffer_ascii _ 256 user hu.1 (by omega) (by omega),
    get_c_string_to_buffer_ascii _ 256 password hp.1 (by omega) (by omega),
    get_c_string_to_buffer_ascii _ 256 database hd.1 (by omega) (by omega)]
  split_ifs <;> simp

/-- C21 fails on `src/ffi-demo/mysql_wrapper.c`.  With the host `h`, the user `u`,
the password `p` and the database `d`, `autumn_mysql_connect` of the ffi-demo
wrapper calls `mysql_real_connect` with the text `d` for the host, the user, the
password and the database: the four pointers are the one static `utf8_buffer`,
which holds the last conversion.  `autumn_mysql_connect` of
`src/mysql-demo/mysql_wrapper.c`, which converts into four buffers, passes `h`,
`u`, `p`, `d`. -/
theorem C21_connect_passes_database_four_times :
    MysqlDemo.Call.mysql_real_connect 5 [0x64] [0x64] [0x64] [0x64] 3306 5
        ∈ (FfiDemoMysql.autumn_mysql_connect FfiDemoMysql.World.init (some [0x68]) 3306
            (some [0x75]) (some [0x70]) (some [0x64]) 5 5).2.trace
    ∧ MysqlDemo.Call.mysql_real_connect 5 [0x68] [0x75] [0x70] [0x64] 3306 5
        ∉ (FfiDemoMysql.autumn_mysql_connect FfiDemoMysql.World.init (some [0x68]) 3306
            (some [0x75]) (some [0x70]) (some [0x64]) 5 5).2.trace
    ∧ (FfiDemoMysql.autumn_mysql_connect FfiDemoMysql.World.init (some [0x68]) 3306
        (some [0x75]) (some [0x70]) (some [0x64]) 5 5).1 = 0
    ∧ MysqlDemo.Call.mysql_real_connect 5 [0x68] [0x75] [0x70] [0x64] 3306 5
        ∈ (autumn_mysql_connect MysqlDemo.World.init (some [0x68]) 3306 (some [0x75])
            (some [0x70]) (some [0x64]) ⟨5, 5, zeroBuf, zeroBuf, zeroBuf, zeroBuf⟩).2.trace := by
  have ht := ffi_mysql_connect_trace FfiDemoMysql.World.init [0x68] [0x75] [0x70] [0x64] 3306 5 5
    (by decide) (by decide) (by decide) (by decide) (by decide) (by decide)
  refine ⟨?_, ?_, by decide, ?_⟩
  · rw [ht]; decide
  · rw [ht]; decide
  · exact mysql_demo_connect_trace MysqlDemo.World.init [0x68] [0x75] [0x70] [0x64] 3306
      ⟨5, 5, zeroBuf, zeroBuf, zeroBuf, zeroBuf⟩ (by decide) (by decide) (by decide) (by decide)
      (by decide)

end AutumnFrame
